import Mathlib

/-!
# ROOT::TThreadedObject: a verification development

Shallow embedding of `core/thread/inc/ROOT/TThreadedObject.h`.

* Objects of the value type `T` live in an object store (`Heap T`); the address of an
  object is its identity.  A `std::shared_ptr<T>` is an optional address (`none` is
  `nullptr`).  Objects are never reclaimed in the model, so an address is never reused.
* `Cloner<T>::Clone(obj)` allocates a new object holding a copy of `obj`.
* The calling thread's identity (`std::this_thread::get_id()`) is an explicit argument.
  The critical section of `GetThisSlotNumber` is one atomic step of the model.
* `unsigned` is 32 bits wide: `fCurrMaxSlotIndex++` wraps modulo `2 ^ 32`.
* Undefined behaviour (indexing a vector out of range, dereferencing `nullptr`) is a
  failure: the operation returns `none`.
* `Warning(...)` only writes to the error log and is not part of the model.
-/

namespace ROOT

/-- Number of values of the C++ type `unsigned`. -/
def UNSIGNED_RANGE : Nat := 4294967296

/-- Identity of a thread, `std::thread::id`. -/
abbrev ThreadId := Nat

/-- Identity (address) of an object of the value type. -/
abbrev Addr := Nat

/-- Model of `std::shared_ptr<T>`: `none` is `nullptr`. -/
abbrev SharedPtr := Option Addr

/-- Object store: the object at address `a` has value `h[a]`. -/
abbrev Heap (T : Type) := List T

namespace Internal
namespace TThreadedObjectUtils

/-- `Cloner<T>::Clone(obj)`: `new T(obj)` (or `obj.Clone()`), a new object that is a copy
of `obj`.  Returns the address of the new object and the extended store. -/
def Clone {T : Type} (obj : T) (h : Heap T) : Addr × Heap T :=
  (h.length, h ++ [obj])

end TThreadedObjectUtils
end Internal

namespace TThreadedObjectUtils

/-- `MergeFunctionType<T>`: receives the target pointer by value and the vector of
pointers by reference; it may change the vector and the objects in the store. -/
abbrev MergeFunctionType (T : Type) :=
  SharedPtr → List SharedPtr → Heap T → List SharedPtr × Heap T

/-- The list `objTList` built by the loop of `MergeTObjects`: the raw pointers of the
entries that are present and are not the target, in vector order. -/
def objTList (target : Addr) (objs : List SharedPtr) : List Addr :=
  objs.filterMap (fun obj =>
    match obj with
    | some a => if a ≠ target then some a else none
    | none => none)

/-- `target->Merge(&objTList)`: the value type's own `Merge`, given as `tMerge`, computes
the new value of the target from its old value and the values of the listed objects. -/
def callMerge {T : Type} (tMerge : T → List T → T) (target : Addr) (l : List Addr)
    (h : Heap T) : Heap T :=
  match h[target]? with
  | some v => h.set target (tMerge v (l.filterMap (fun a => h[a]?)))
  | none => h

/-- `MergeTObjects<T>(target, objs)`. -/
def MergeTObjects {T : Type} (tMerge : T → List T → T) : MergeFunctionType T :=
  fun target objs h =>
    match target with
    | none => (objs, h)
    | some t => (objs, callMerge tMerge t (objTList t objs) h)

end TThreadedObjectUtils

/-- The data members of `TThreadedObject<T>` (the mutex is not modelled). -/
structure TThreadedObject (T : Type) where
  fModel : T
  fObjPointers : List SharedPtr
  fThrIDSlotMap : List (ThreadId × Nat)
  fCurrMaxSlotIndex : Nat
  fIsMerged : Bool
  deriving DecidableEq, Repr

/-- What a call returns: the returned value, the object after the call and the object
store after the call. -/
structure Outcome (R T : Type) where
  ret : R
  self : TThreadedObject T
  heap : Heap T
  deriving DecidableEq, Repr

/-- One invocation of the merge function: the target and the vector it was given. -/
abbrev MergeCall := SharedPtr × List SharedPtr

/-- What a merge returns: as `Outcome`, and the invocations of the merge function made
during the call, in order. -/
structure MergeOutcome (R T : Type) where
  ret : R
  self : TThreadedObject T
  heap : Heap T
  calls : List MergeCall
  deriving DecidableEq, Repr

namespace TThreadedObject

open Internal.TThreadedObjectUtils TThreadedObjectUtils

variable {T : Type}

/-- The constructor: `fModel(args...)`, `fObjPointers(fgMaxSlots, nullptr)` and the
default member initialisers. -/
def construct (fgMaxSlots : Nat) (model : T) : TThreadedObject T :=
  { fModel := model
    fObjPointers := List.replicate fgMaxSlots none
    fThrIDSlotMap := []
    fCurrMaxSlotIndex := 0
    fIsMerged := false }

/-- `GetAtSlot(i)`. -/
def GetAtSlot (s : TThreadedObject T) (h : Heap T) (i : Nat) : Outcome SharedPtr T :=
  if i ≥ s.fObjPointers.length then
    ⟨none, s, h⟩
  else
    match s.fObjPointers.getD i none with
    | some a => ⟨some a, s, h⟩
    | none =>
      let c := Clone s.fModel h
      ⟨some c.1, { s with fObjPointers := s.fObjPointers.set i (some c.1) }, c.2⟩

/-- `GetAtSlotUnchecked(i)`: `fObjPointers[i]`, undefined when `i` is out of range. -/
def GetAtSlotUnchecked (s : TThreadedObject T) (h : Heap T) (i : Nat) :
    Option (Outcome SharedPtr T) :=
  match s.fObjPointers[i]? with
  | some p => some ⟨p, s, h⟩
  | none => none

/-- `GetThisSlotNumber()`, for the calling thread `thisThreadID`.  The entry written by
`fThrIDSlotMap[thisThreadID] = thisIndex` is new, as `find` has just failed. -/
def GetThisSlotNumber (s : TThreadedObject T) (thisThreadID : ThreadId) :
    Nat × TThreadedObject T :=
  match s.fThrIDSlotMap.lookup thisThreadID with
  | some n => (n, s)
  | none =>
    let thisIndex := s.fCurrMaxSlotIndex
    (thisIndex,
     { s with
       fCurrMaxSlotIndex := (s.fCurrMaxSlotIndex + 1) % UNSIGNED_RANGE
       fThrIDSlotMap := (thisThreadID, thisIndex) :: s.fThrIDSlotMap })

/-- `Get()`, called by the thread `thisThreadID`. -/
def Get (s : TThreadedObject T) (h : Heap T) (thisThreadID : ThreadId) :
    Outcome SharedPtr T :=
  let r := GetThisSlotNumber s thisThreadID
  GetAtSlot r.2 h r.1

/-- `Merge(mergeFunction)`. -/
def Merge (mergeFunction : MergeFunctionType T) (s : TThreadedObject T) (h : Heap T) :
    Option (MergeOutcome SharedPtr T) :=
  if s.fIsMerged then
    match s.fObjPointers[0]? with
    | none => none
    | some p => some ⟨p, s, h, []⟩
  else
    match s.fObjPointers[0]? with
    | none => none
    | some target =>
      let m := mergeFunction target s.fObjPointers h
      match m.1[0]? with
      | none => none
      | some p =>
        some ⟨p, { s with fObjPointers := m.1, fIsMerged := true }, m.2,
              [(target, s.fObjPointers)]⟩

/-- `SnapshotMerge(mergeFunction)`.  The returned `std::unique_ptr<T>` is the address of
the object the caller now owns. -/
def SnapshotMerge (mergeFunction : MergeFunctionType T) (s : TThreadedObject T)
    (h : Heap T) : Option (MergeOutcome Addr T) :=
  if s.fIsMerged then
    match s.fObjPointers[0]? with
    | none => none
    | some none => none
    | some (some a) =>
      match h[a]? with
      | none => none
      | some v =>
        let c := Clone v h
        some ⟨c.1, s, c.2, []⟩
  else
    let c := Clone s.fModel h
    let m := mergeFunction (some c.1) s.fObjPointers c.2
    some ⟨c.1, { s with fObjPointers := m.1 }, m.2, [(some c.1, s.fObjPointers)]⟩

/-- A call made on the object by the surrounding program.  `write a v` is a caller
assigning the value `v` to the object at address `a` through a pointer it holds. -/
inductive Call (T : Type) where
  | get (thisThreadID : ThreadId)
  | getAtSlot (i : Nat)
  | getAtSlotUnchecked (i : Nat)
  | merge (mergeFunction : MergeFunctionType T)
  | snapshotMerge (mergeFunction : MergeFunctionType T)
  | write (a : Addr) (v : T)

/-- The effect of one call on the object and the store; `none` when the call has
undefined behaviour. -/
def step (c : Call T) (s : TThreadedObject T) (h : Heap T) :
    Option (TThreadedObject T × Heap T) :=
  match c with
  | .get t => some ((Get s h t).self, (Get s h t).heap)
  | .getAtSlot i => some ((GetAtSlot s h i).self, (GetAtSlot s h i).heap)
  | .getAtSlotUnchecked i => (GetAtSlotUnchecked s h i).map (fun o => (o.self, o.heap))
  | .merge f => (Merge f s h).map (fun o => (o.self, o.heap))
  | .snapshotMerge f => (SnapshotMerge f s h).map (fun o => (o.self, o.heap))
  | .write a v => some (s, h.set a v)

/-- The effect of a sequence of calls. -/
def run : List (Call T) → TThreadedObject T → Heap T → Option (TThreadedObject T × Heap T)
  | [], s, h => some (s, h)
  | c :: cs, s, h =>
    match step c s h with
    | none => none
    | some r => run cs r.1 r.2

/-- The merge function of a call, if it has one, leaves the size of the vector as it is. -/
def Call.KeepsSize : Call T → Prop
  | .merge f => ∀ t objs h, (f t objs h).1.length = objs.length
  | .snapshotMerge f => ∀ t objs h, (f t objs h).1.length = objs.length
  | _ => True

/-- Successive `Get()` calls made by the threads `tids`, one call after the other.  For
each call: the slot number `GetThisSlotNumber` resolved and the pointer `Get` returned;
then the object and the store after the last call. -/
def GetCalls : List ThreadId → TThreadedObject T → Heap T →
    List (Nat × SharedPtr) × TThreadedObject T × Heap T
  | [], s, h => ([], s, h)
  | t :: ts, s, h =>
    let r := GetThisSlotNumber s t
    let o := GetAtSlot r.2 h r.1
    let rest := GetCalls ts o.self o.heap
    ((r.1, o.ret) :: rest.1, rest.2)

/-- Shape of the thread map: no thread is recorded twice and the entry recorded as number
`i` (counting from 0, the newest entry is the head) holds the index `i mod 2 ^ 32`. -/
def MapOK : List (ThreadId × Nat) → Prop
  | [] => True
  | e :: m => e.2 = m.length % UNSIGNED_RANGE ∧ m.lookup e.1 = none ∧ MapOK m

/-- The thread map has the shape `MapOK` and the slot counter is the number of recorded
threads modulo `2 ^ 32`. -/
def RegistryOK (s : TThreadedObject T) : Prop :=
  MapOK s.fThrIDSlotMap ∧ s.fCurrMaxSlotIndex = s.fThrIDSlotMap.length % UNSIGNED_RANGE

/-- Every pointer stored in the slot array refers to an object of the store (a
`std::shared_ptr` keeps its object alive). -/
def Valid (s : TThreadedObject T) (h : Heap T) : Prop :=
  ∀ a : Addr, some a ∈ s.fObjPointers → a < h.length

/-- The values of the objects the vector refers to, in vector order. -/
def slotValues (objs : List SharedPtr) (h : Heap T) : List T :=
  objs.filterMap (fun p =>
    match p with
    | some a => h[a]?
    | none => none)

/-- The merge function modifies only its target: it leaves the vector as it is, creates
no object and changes the value of no object other than the target. -/
def ModifiesOnlyTarget (f : MergeFunctionType T) : Prop :=
  ∀ (t : Addr) (objs : List SharedPtr) (h : Heap T),
    (f (some t) objs h).1 = objs ∧ (f (some t) objs h).2.length = h.length ∧
    ∀ a : Addr, a ≠ t → (f (some t) objs h).2[a]? = h[a]?

/-- The value the merge function leaves in a target that is not in the vector is
determined by the value of the target and the values of the objects in the vector. -/
def ValueDetermined (f : MergeFunctionType T) : Prop :=
  ∀ (t t1 : Addr) (objs : List SharedPtr) (h h1 : Heap T),
    some t ∉ objs → some t1 ∉ objs → h[t]? = h1[t1]? →
    (∀ a : Addr, some a ∈ objs → h[a]? = h1[a]?) →
    (f (some t) objs h).2[t]? = (f (some t1) objs h1).2[t1]?

/-- A merge function that stores in its target the address of the target (for objects
holding a number). -/
def stampAddress : MergeFunctionType Nat :=
  fun target objs h =>
    match target with
    | some a => (objs, h.set a a)
    | none => (objs, h)

/-! ### Further notions for the reachable states -/

/-- `MergeTObjects<T>(target, objs)` with the value type's `Merge` left open:
`valueMerge t l h` is the store after `t->Merge(&l)`, whatever that member function does.
Returns the vector, the store and the calls of the value type's `Merge` it has made, each
with the target and the list `objTList` it was given. -/
def MergeTObjectsCalls (valueMerge : Addr → List Addr → Heap T → Heap T)
    (target : SharedPtr) (objs : List SharedPtr) (h : Heap T) :
    List SharedPtr × Heap T × List (Addr × List Addr) :=
  match target with
  | none => (objs, h, [])
  | some t => (objs, valueMerge t (objTList t objs) h, [(t, objTList t objs)])

/-- The merge function of a call, if it has one, is the default merge function (for the
value type's `Merge` given as `tMerge`). -/
def Call.UsesDefault (tMerge : T → List T → T) : Call T → Prop
  | .merge f => f = MergeTObjects tMerge
  | .snapshotMerge f => f = MergeTObjects tMerge
  | _ => True

/-- The call is not an access by explicit slot number: it is a `Get()`, a merge or a
write to an object. -/
def Call.NoSlotAccess : Call T → Prop
  | .getAtSlot _ => False
  | .getAtSlotUnchecked _ => False
  | _ => True

/-- The call is a destructive `Merge`. -/
def Call.isMerge : Call T → Bool
  | .merge _ => true
  | _ => false

/-- The call is a `Get()`. -/
def Call.isGet : Call T → Bool
  | .get _ => true
  | _ => false

/-- Slot `i` is populated: it holds a pointer to an object. -/
def Populated (s : TThreadedObject T) (i : Nat) : Prop :=
  ∃ a : Addr, s.fObjPointers[i]? = some (some a)

/-- The object a call returns to its caller as an owned snapshot: the result of the call
when it is a `SnapshotMerge` that returns. -/
def snapshotOf (c : Call T) (s : TThreadedObject T) (h : Heap T) : List Addr :=
  match c with
  | .snapshotMerge f =>
    (match SnapshotMerge f s h with
      | some o => [o.ret]
      | none => [])
  | _ => []

/-- The objects returned by the `SnapshotMerge` calls of a sequence of calls. -/
def snapshotsOf : List (Call T) → TThreadedObject T → Heap T → List Addr
  | [], _, _ => []
  | c :: cs, s, h =>
    match step c s h with
    | none => []
    | some r => snapshotOf c s h ++ snapshotsOf cs r.1 r.2

/-- The slots are separate from each other and from everything else: since the store had
`n0` objects, the store has not shrunk; every slot's object was created after that and is
an object of the store; no two slots hold the same object; and no slot holds one of the
objects `snaps` handed out by `SnapshotMerge`. -/
structure Separate (n0 : Nat) (s : TThreadedObject T) (h : Heap T) (snaps : List Addr) :
    Prop where
  grown : n0 ≤ h.length
  created : ∀ (i : Nat) (a : Nat), s.fObjPointers[i]? = some (some a) → n0 ≤ a ∧ a < h.length
  distinct : ∀ (i j : Nat) (a : Nat), s.fObjPointers[i]? = some (some a) →
    s.fObjPointers[j]? = some (some a) → i = j
  snapshots : ∀ a : Nat, a ∈ snaps →
    a < h.length ∧ ∀ j : Nat, s.fObjPointers[j]? ≠ some (some a)

/-- The populated slots are the first ones: the thread map and the counter are as
`RegistryOK` says, the slot array has at most `2 ^ 32` slots, and slot `i` is populated
exactly when `i` is below the number of recorded threads and below the capacity. -/
def PrefixFilled (s : TThreadedObject T) : Prop :=
  RegistryOK s ∧ s.fObjPointers.length ≤ UNSIGNED_RANGE ∧
  ∀ i : Nat, Populated s i ↔ (i < s.fThrIDSlotMap.length ∧ i < s.fObjPointers.length)

/-- The merge function of a call, if it has one, neither clears nor replaces a populated
entry of the vector it is handed by reference. -/
def Call.KeepsPopulated : Call T → Prop
  | .merge f => ∀ (t : SharedPtr) (objs : List SharedPtr) (h : Heap T) (j : Nat) (a : Addr),
      objs[j]? = some (some a) → (f t objs h).1[j]? = some (some a)
  | .snapshotMerge f =>
    ∀ (t : SharedPtr) (objs : List SharedPtr) (h : Heap T) (j : Nat) (a : Addr),
      objs[j]? = some (some a) → (f t objs h).1[j]? = some (some a)
  | _ => True

/-- A merge function that appends an empty entry to the vector it is handed
(`objs.push_back(nullptr)`) and merges nothing. -/
def growSlots : MergeFunctionType Int :=
  fun _ objs h => (objs ++ [none], h)

/-- A merge function that resets every pointer of the vector it is handed
(`for (auto &p : objs) p.reset()`) and merges nothing. -/
def clearSlots : MergeFunctionType Int :=
  fun _ objs h => (objs.map (fun _ => none), h)

/-! ### The end-to-end scenario: worker threads that accumulate into their slots -/

/-- The default merge function for integer accumulators, whose `Merge` adds the values of
the listed objects to the target: the sum-combining merge function. -/
def sumMerge : MergeFunctionType Int :=
  MergeTObjects (fun v l => v + l.sum)

/-- A step of a worker thread `t`: `fetch t` is `auto p = pool.Get()`, `add t` is
`*p += c_t` on the pointer the thread fetched. -/
inductive WorkerStep where
  | fetch (t : ThreadId)
  | add (t : ThreadId)
  deriving DecidableEq, Repr

/-- The thread that makes the step. -/
def WorkerStep.thread : WorkerStep → ThreadId
  | .fetch t => t
  | .add t => t

/-- The pool, the store and the pointer each worker thread holds. -/
structure Workers where
  pool : TThreadedObject Int
  heap : Heap Int
  held : List (ThreadId × SharedPtr)
  deriving DecidableEq, Repr

/-- The effect of one step of a worker, where thread `t` adds the constant `c t`; `none`
when the step dereferences a pointer that was not fetched or is null. -/
def workerStep (c : ThreadId → Int) (e : WorkerStep) (w : Workers) : Option Workers :=
  match e with
  | .fetch t =>
    some ⟨(Get w.pool w.heap t).self, (Get w.pool w.heap t).heap,
      (t, (Get w.pool w.heap t).ret) :: w.held⟩
  | .add t =>
    match w.held.lookup t with
    | some (some a) =>
      match w.heap[a]? with
      | some v => some ⟨w.pool, w.heap.set a (v + c t), w.held⟩
      | none => none
    | _ => none

/-- The effect of the steps of a schedule, an interleaving of the steps of the workers. -/
def runWorkers (c : ThreadId → Int) : List WorkerStep → Workers → Option Workers
  | [], w => some w
  | e :: es, w =>
    match workerStep c e w with
    | none => none
    | some w1 => runWorkers c es w1

/-- The steps of one worker in program order: fetch the slot, then add `r` times. -/
def workerProgram (r : Nat) (t : ThreadId) : List WorkerStep :=
  WorkerStep.fetch t :: List.replicate r (WorkerStep.add t)

/-- The schedule is an interleaving of the programs of the threads `threads`: the steps
each of these threads makes are its program, in program order, and no other thread makes
a step. -/
def IsInterleaving (r : Nat) (threads : List ThreadId) (sched : List WorkerStep) : Prop :=
  ∀ t : ThreadId, sched.filter (fun e => e.thread = t) =
    if t ∈ threads then workerProgram r t else []

/-- The threads that have fetched their slot in the steps `sched`, in order of fetch. -/
def fetchOrder (sched : List WorkerStep) : List ThreadId :=
  sched.filterMap (fun e =>
    match e with
    | .fetch t => some t
    | .add _ => none)

/-- The number of additions thread `t` makes in the steps `sched`. -/
def addCount (sched : List WorkerStep) (t : ThreadId) : Nat :=
  sched.count (WorkerStep.add t)

/-- The steps `sched` are the beginning of an interleaving of the programs of `threads`. -/
def IsInterleavingPrefix (r : Nat) (threads : List ThreadId) (sched : List WorkerStep) : Prop :=
  ∀ t : ThreadId, sched.filter (fun e => e.thread = t) <+:
    (if t ∈ threads then workerProgram r t else [])

/-- The state of the scenario when the threads `order` have fetched their slot, in this
order, and thread `t` has made `cnt t` additions: the `i`-th fetching thread is recorded
with slot number `i`, its slot holds the object created for it right after the store `h0`
the scenario started with, the thread holds that object and the object holds `cnt t`
times the constant of the thread. -/
structure ScenarioInv (fgMaxSlots : Nat) (c : ThreadId → Int) (h0 : Heap Int)
    (order : List ThreadId) (cnt : ThreadId → Nat) (w : Workers) : Prop where
  model : w.pool.fModel = 0
  unmerged : w.pool.fIsMerged = false
  slots : w.pool.fObjPointers =
    (List.range order.length).map (fun i => some (h0.length + i)) ++
      List.replicate (fgMaxSlots - order.length) none
  registry : RegistryOK w.pool
  recorded : w.pool.fThrIDSlotMap.length = order.length
  look : ∀ (i : Nat) (t : ThreadId), order[i]? = some t →
    w.pool.fThrIDSlotMap.lookup t = some i ∧ w.held.lookup t = some (some (h0.length + i))
  absent : ∀ t : ThreadId, t ∉ order → w.pool.fThrIDSlotMap.lookup t = none
  heap : w.heap = h0 ++ order.map (fun t => (cnt t : Int) * c t)

/-! ## Basic facts -/

theorem GetAtSlot_out_of_range (s : TThreadedObject T) (h : Heap T) (i : Nat)
    (hi : s.fObjPointers.length ≤ i) : GetAtSlot s h i = ⟨none, s, h⟩ := by
  unfold GetAtSlot
  rw [if_pos hi]

theorem GetAtSlot_populated (s : TThreadedObject T) (h : Heap T) (i : Nat) (a : Addr)
    (hs : s.fObjPointers[i]? = some (some a)) : GetAtSlot s h i = ⟨some a, s, h⟩ := by
  have hi : i < s.fObjPointers.length := by
    rcases List.getElem?_eq_some.1 hs with ⟨hlt, _⟩
    exact hlt
  unfold GetAtSlot
  rw [if_neg (by omega), List.getD_eq_getElem?_getD, hs]
  rfl

theorem GetAtSlot_empty (s : TThreadedObject T) (h : Heap T) (i : Nat)
    (hs : s.fObjPointers[i]? = some none) :
    GetAtSlot s h i =
      ⟨some h.length, { s with fObjPointers := s.fObjPointers.set i (some h.length) },
       h ++ [s.fModel]⟩ := by
  have hi : i < s.fObjPointers.length := by
    rcases List.getElem?_eq_some.1 hs with ⟨hlt, _⟩
    exact hlt
  unfold GetAtSlot
  rw [if_neg (by omega), List.getD_eq_getElem?_getD, hs]
  rfl

theorem GetAtSlot_length (s : TThreadedObject T) (h : Heap T) (i : Nat) :
    (GetAtSlot s h i).self.fObjPointers.length = s.fObjPointers.length := by
  by_cases hi : s.fObjPointers.length ≤ i
  · rw [GetAtSlot_out_of_range s h i hi]
  · have hlt : i < s.fObjPointers.length := by omega
    rcases hsi : s.fObjPointers[i]? with _ | p
    · rw [List.getElem?_eq_none_iff] at hsi
      omega
    · rcases p with _ | a
      · rw [GetAtSlot_empty s h i hsi]
        simp
      · rw [GetAtSlot_populated s h i a hsi]

theorem GetThisSlotNumber_fObjPointers (s : TThreadedObject T) (t : ThreadId) :
    (GetThisSlotNumber s t).2.fObjPointers = s.fObjPointers := by
  unfold GetThisSlotNumber
  split <;> rfl

theorem step_length (c : Call T) (hc : c.KeepsSize) (s s1 : TThreadedObject T)
    (h h1 : Heap T) (hstep : step c s h = some (s1, h1)) :
    s1.fObjPointers.length = s.fObjPointers.length := by
  cases c with
  | get t =>
    simp only [step, Option.some.injEq, Prod.mk.injEq] at hstep
    rw [← hstep.1]
    unfold Get
    rw [GetAtSlot_length, GetThisSlotNumber_fObjPointers]
  | getAtSlot i =>
    simp only [step, Option.some.injEq, Prod.mk.injEq] at hstep
    rw [← hstep.1, GetAtSlot_length]
  | getAtSlotUnchecked i =>
    simp only [step] at hstep
    unfold GetAtSlotUnchecked at hstep
    split at hstep
    · simp only [Option.map_some', Option.some.injEq, Prod.mk.injEq] at hstep
      rw [← hstep.1]
    · simp at hstep
  | merge f =>
    simp only [step] at hstep
    unfold Merge at hstep
    split at hstep
    · split at hstep
      · simp at hstep
      · simp only [Option.map_some', Option.some.injEq, Prod.mk.injEq] at hstep
        rw [← hstep.1]
    · split at hstep
      · simp at hstep
      · dsimp only at hstep
        split at hstep
        · simp at hstep
        · simp only [Option.map_some', Option.some.injEq, Prod.mk.injEq] at hstep
          rw [← hstep.1]
          exact hc _ _ _
  | snapshotMerge f =>
    simp only [step] at hstep
    unfold SnapshotMerge at hstep
    split at hstep
    · split at hstep
      · simp at hstep
      · simp at hstep
      · split at hstep
        · simp at hstep
        · simp only [Option.map_some', Option.some.injEq, Prod.mk.injEq] at hstep
          rw [← hstep.1]
    · simp only [Option.map_some', Option.some.injEq, Prod.mk.injEq] at hstep
      rw [← hstep.1]
      exact hc _ _ _
  | write a v =>
    simp only [step, Option.some.injEq, Prod.mk.injEq] at hstep
    rw [← hstep.1]

theorem run_length (cs : List (Call T)) (hcs : ∀ c ∈ cs, c.KeepsSize)
    (s s1 : TThreadedObject T) (h h1 : Heap T) (hrun : run cs s h = some (s1, h1)) :
    s1.fObjPointers.length = s.fObjPointers.length := by
  induction cs generalizing s h with
  | nil =>
    simp only [run, Option.some.injEq, Prod.mk.injEq] at hrun
    rw [← hrun.1]
  | cons c cs ih =>
    unfold run at hrun
    rcases hst : step c s h with _ | r
    · rw [hst] at hrun
      simp at hrun
    · rw [hst] at hrun
      have h1 := ih (fun c hc => hcs c (List.mem_cons_of_mem _ hc)) r.1 r.2 hrun
      have h2 := step_length c (hcs c (List.mem_cons_self _ _)) s r.1 h r.2 hst
      omega

/-! ### The thread map -/

theorem lookup_cons_self (t : ThreadId) (v : Nat) (m : List (ThreadId × Nat)) :
    List.lookup t ((t, v) :: m) = some v := by
  simp [List.lookup_cons]

theorem lookup_cons_ne (t k : ThreadId) (v : Nat) (m : List (ThreadId × Nat)) (htk : t ≠ k) :
    List.lookup t ((k, v) :: m) = List.lookup t m := by
  have hb : (t == k) = false := by simpa using htk
  rw [List.lookup_cons, hb]

theorem lookup_mem (m : List (ThreadId × Nat)) (t : ThreadId) (n : Nat)
    (hl : m.lookup t = some n) : (t, n) ∈ m := by
  induction m with
  | nil => simp at hl
  | cons e m ih =>
    rcases e with ⟨k, v⟩
    by_cases htk : t = k
    · subst htk
      rw [lookup_cons_self] at hl
      simp only [Option.some.injEq] at hl
      subst hl
      exact List.mem_cons_self _ _
    · rw [lookup_cons_ne t k v m htk] at hl
      exact List.mem_cons_of_mem _ (ih hl)

theorem lookup_none_not_mem (m : List (ThreadId × Nat)) (t : ThreadId)
    (hl : m.lookup t = none) (n : Nat) : (t, n) ∉ m := by
  induction m with
  | nil => simp
  | cons e m ih =>
    rcases e with ⟨k, v⟩
    by_cases htk : t = k
    · subst htk
      rw [lookup_cons_self] at hl
      simp at hl
    · rw [lookup_cons_ne t k v m htk] at hl
      intro hmem
      rcases List.mem_cons.1 hmem with heq | htl
      · simp only [Prod.mk.injEq] at heq
        exact htk heq.1
      · exact ih hl htl

theorem lookup_isSome_of_mem (m : List (ThreadId × Nat)) (t : ThreadId) (n : Nat)
    (hmem : (t, n) ∈ m) : ∃ n1, m.lookup t = some n1 := by
  rcases hl : m.lookup t with _ | n1
  · exact absurd hmem (lookup_none_not_mem m t hl n)
  · exact ⟨n1, rfl⟩

theorem MapOK_mem_lt (m : List (ThreadId × Nat)) (hm : MapOK m)
    (hlen : m.length ≤ UNSIGNED_RANGE) (t : ThreadId) (n : Nat) (hmem : (t, n) ∈ m) :
    n < m.length := by
  induction m with
  | nil => simp at hmem
  | cons e m ih =>
    rcases e with ⟨k, v⟩
    simp only [List.length_cons] at hlen ⊢
    rcases List.mem_cons.1 hmem with heq | htl
    · simp only [Prod.mk.injEq] at heq
      have hv : v = m.length % UNSIGNED_RANGE := hm.1
      rw [Nat.mod_eq_of_lt (by omega)] at hv
      omega
    · have := ih hm.2.2 (by omega) htl
      omega

theorem MapOK_lookup_of_mem (m : List (ThreadId × Nat)) (hm : MapOK m) (t : ThreadId)
    (n : Nat) (hmem : (t, n) ∈ m) : m.lookup t = some n := by
  induction m with
  | nil => simp at hmem
  | cons e m ih =>
    rcases e with ⟨k, v⟩
    rcases List.mem_cons.1 hmem with heq | htl
    · simp only [Prod.mk.injEq] at heq
      rw [heq.1, heq.2]
      exact lookup_cons_self k v m
    · have hk : m.lookup k = none := hm.2.1
      have htk : t ≠ k := by
        intro h
        subst h
        exact lookup_none_not_mem m t hk n htl
      rw [lookup_cons_ne t k v m htk]
      exact ih hm.2.2 htl

theorem MapOK_injective (m : List (ThreadId × Nat)) (hm : MapOK m)
    (hlen : m.length ≤ UNSIGNED_RANGE) (t u : ThreadId) (n : Nat)
    (ht : m.lookup t = some n) (hu : m.lookup u = some n) : t = u := by
  induction m with
  | nil => simp at ht
  | cons e m ih =>
    rcases e with ⟨k, v⟩
    simp only [List.length_cons] at hlen
    have hv : v = m.length % UNSIGNED_RANGE := hm.1
    rw [Nat.mod_eq_of_lt (by omega)] at hv
    by_cases htk : t = k
    · by_cases huk : u = k
      · rw [htk, huk]
      · rw [htk, lookup_cons_self] at ht
        rw [lookup_cons_ne u k v m huk] at hu
        simp only [Option.some.injEq] at ht
        have := MapOK_mem_lt m hm.2.2 (by omega) u n (lookup_mem m u n hu)
        omega
    · by_cases huk : u = k
      · rw [huk, lookup_cons_self] at hu
        rw [lookup_cons_ne t k v m htk] at ht
        simp only [Option.some.injEq] at hu
        have := MapOK_mem_lt m hm.2.2 (by omega) t n (lookup_mem m t n ht)
        omega
      · rw [lookup_cons_ne t k v m htk] at ht
        rw [lookup_cons_ne u k v m huk] at hu
        exact ih hm.2.2 (by omega) ht hu

theorem MapOK_keys_nodup (m : List (ThreadId × Nat)) (hm : MapOK m) :
    (m.map Prod.fst).Nodup := by
  induction m with
  | nil => simp
  | cons e m ih =>
    rcases e with ⟨k, v⟩
    simp only [List.map_cons, List.nodup_cons]
    refine ⟨?_, ih hm.2.2⟩
    intro hk
    rcases List.mem_map.1 hk with ⟨⟨k1, n⟩, hmem, hfst⟩
    simp only at hfst
    subst hfst
    exact lookup_none_not_mem m k1 hm.2.1 n hmem

/-! ### `GetThisSlotNumber` and `Get` -/

theorem GetThisSlotNumber_found (s : TThreadedObject T) (t : ThreadId) (n : Nat)
    (hl : s.fThrIDSlotMap.lookup t = some n) : GetThisSlotNumber s t = (n, s) := by
  unfold GetThisSlotNumber
  rw [hl]

theorem GetThisSlotNumber_new (s : TThreadedObject T) (t : ThreadId)
    (hl : s.fThrIDSlotMap.lookup t = none) :
    GetThisSlotNumber s t =
      (s.fCurrMaxSlotIndex,
       { s with
         fCurrMaxSlotIndex := (s.fCurrMaxSlotIndex + 1) % UNSIGNED_RANGE
         fThrIDSlotMap := (t, s.fCurrMaxSlotIndex) :: s.fThrIDSlotMap }) := by
  unfold GetThisSlotNumber
  rw [hl]

theorem GetThisSlotNumber_lookup (s : TThreadedObject T) (t : ThreadId) :
    (GetThisSlotNumber s t).2.fThrIDSlotMap.lookup t = some (GetThisSlotNumber s t).1 := by
  rcases hl : s.fThrIDSlotMap.lookup t with _ | n
  · rw [GetThisSlotNumber_new s t hl]
    exact lookup_cons_self _ _ _
  · rw [GetThisSlotNumber_found s t n hl]
    exact hl

theorem GetThisSlotNumber_keeps (s : TThreadedObject T) (t u : ThreadId) (n : Nat)
    (hu : s.fThrIDSlotMap.lookup u = some n) :
    (GetThisSlotNumber s t).2.fThrIDSlotMap.lookup u = some n := by
  rcases hl : s.fThrIDSlotMap.lookup t with _ | n1
  · rw [GetThisSlotNumber_new s t hl]
    have hut : u ≠ t := by
      intro h
      rw [h, hl] at hu
      simp at hu
    show List.lookup u ((t, s.fCurrMaxSlotIndex) :: s.fThrIDSlotMap) = some n
    rw [lookup_cons_ne u t _ _ hut]
    exact hu
  · rw [GetThisSlotNumber_found s t n1 hl]
    exact hu

theorem GetThisSlotNumber_RegistryOK (s : TThreadedObject T) (t : ThreadId)
    (hs : RegistryOK s) : RegistryOK (GetThisSlotNumber s t).2 := by
  rcases hl : s.fThrIDSlotMap.lookup t with _ | n1
  · rw [GetThisSlotNumber_new s t hl]
    refine ⟨⟨hs.2, hl, hs.1⟩, ?_⟩
    show (s.fCurrMaxSlotIndex + 1) % UNSIGNED_RANGE =
      ((t, s.fCurrMaxSlotIndex) :: s.fThrIDSlotMap).length % UNSIGNED_RANGE
    rw [hs.2, List.length_cons, Nat.add_mod, Nat.mod_mod, ← Nat.add_mod]
  · rw [GetThisSlotNumber_found s t n1 hl]
    exact hs

theorem GetThisSlotNumber_other (s : TThreadedObject T) (t : ThreadId) :
    (GetThisSlotNumber s t).2.fModel = s.fModel ∧
    (GetThisSlotNumber s t).2.fIsMerged = s.fIsMerged := by
  unfold GetThisSlotNumber
  split <;> exact ⟨rfl, rfl⟩

theorem GetAtSlot_registry (s : TThreadedObject T) (h : Heap T) (i : Nat) :
    (GetAtSlot s h i).self.fThrIDSlotMap = s.fThrIDSlotMap ∧
    (GetAtSlot s h i).self.fCurrMaxSlotIndex = s.fCurrMaxSlotIndex ∧
    (GetAtSlot s h i).self.fIsMerged = s.fIsMerged ∧
    (GetAtSlot s h i).self.fModel = s.fModel := by
  unfold GetAtSlot
  split
  · exact ⟨rfl, rfl, rfl, rfl⟩
  · split <;> exact ⟨rfl, rfl, rfl, rfl⟩

theorem GetAtSlot_keeps (s : TThreadedObject T) (h : Heap T) (i j : Nat) (a : Addr)
    (hj : s.fObjPointers[j]? = some (some a)) :
    (GetAtSlot s h i).self.fObjPointers[j]? = some (some a) := by
  by_cases hi : s.fObjPointers.length ≤ i
  · rw [GetAtSlot_out_of_range s h i hi]
    exact hj
  · rcases hsi : s.fObjPointers[i]? with _ | p
    · rw [List.getElem?_eq_none_iff] at hsi
      omega
    · rcases p with _ | b
      · rw [GetAtSlot_empty s h i hsi]
        have hij : i ≠ j := by
          intro hij
          rw [hij, hj] at hsi
          simp at hsi
        show (s.fObjPointers.set i (some h.length))[j]? = some (some a)
        rw [List.getElem?_set_ne hij]
        exact hj
      · rw [GetAtSlot_populated s h i b hsi]
        exact hj

theorem GetAtSlot_in_range (s : TThreadedObject T) (h : Heap T) (i : Nat)
    (hi : i < s.fObjPointers.length) :
    ∃ a, (GetAtSlot s h i).ret = some a ∧
      (GetAtSlot s h i).self.fObjPointers[i]? = some (some a) := by
  rcases hsi : s.fObjPointers[i]? with _ | p
  · rw [List.getElem?_eq_none_iff] at hsi
    omega
  · rcases p with _ | b
    · rw [GetAtSlot_empty s h i hsi]
      exact ⟨h.length, rfl, by simp [List.getElem?_set_self hi]⟩
    · rw [GetAtSlot_populated s h i b hsi]
      exact ⟨b, rfl, hsi⟩

theorem Get_keeps (s : TThreadedObject T) (h : Heap T) (t : ThreadId) :
    (Get s h t).self.fObjPointers.length = s.fObjPointers.length ∧
    (∀ (u : ThreadId) (n : Nat), s.fThrIDSlotMap.lookup u = some n →
      (Get s h t).self.fThrIDSlotMap.lookup u = some n) ∧
    (∀ (j : Nat) (a : Addr), s.fObjPointers[j]? = some (some a) →
      (Get s h t).self.fObjPointers[j]? = some (some a)) ∧
    (RegistryOK s → RegistryOK (Get s h t).self) ∧
    (Get s h t).self.fModel = s.fModel ∧
    (Get s h t).self.fIsMerged = s.fIsMerged := by
  have hreg := GetAtSlot_registry (GetThisSlotNumber s t).2 h (GetThisSlotNumber s t).1
  have hoth := GetThisSlotNumber_other s t
  refine ⟨?_, ?_, ?_, ?_, ?_, ?_⟩
  · show (GetAtSlot _ h _).self.fObjPointers.length = _
    rw [GetAtSlot_length, GetThisSlotNumber_fObjPointers]
  · intro u n hu
    show (GetAtSlot _ h _).self.fThrIDSlotMap.lookup u = some n
    rw [hreg.1]
    exact GetThisSlotNumber_keeps s t u n hu
  · intro j a hj
    apply GetAtSlot_keeps
    rw [GetThisSlotNumber_fObjPointers]
    exact hj
  · intro hs
    have h1 := GetThisSlotNumber_RegistryOK s t hs
    unfold RegistryOK at h1 ⊢
    show MapOK (GetAtSlot _ h _).self.fThrIDSlotMap ∧
      (GetAtSlot _ h _).self.fCurrMaxSlotIndex = (GetAtSlot _ h _).self.fThrIDSlotMap.length % _
    rw [hreg.1, hreg.2.1]
    exact h1
  · show (GetAtSlot _ h _).self.fModel = _
    rw [hreg.2.2.2, hoth.1]
  · show (GetAtSlot _ h _).self.fIsMerged = _
    rw [hreg.2.2.1, hoth.2]

theorem Get_result (s : TThreadedObject T) (h : Heap T) (t : ThreadId) :
    (Get s h t).self.fThrIDSlotMap.lookup t = some (GetThisSlotNumber s t).1 ∧
    ((GetThisSlotNumber s t).1 < s.fObjPointers.length →
      ∃ a, (Get s h t).ret = some a ∧
        (Get s h t).self.fObjPointers[(GetThisSlotNumber s t).1]? = some (some a)) ∧
    (s.fObjPointers.length ≤ (GetThisSlotNumber s t).1 → (Get s h t).ret = none) := by
  have hreg := GetAtSlot_registry (GetThisSlotNumber s t).2 h (GetThisSlotNumber s t).1
  refine ⟨?_, ?_, ?_⟩
  · show (GetAtSlot _ h _).self.fThrIDSlotMap.lookup t = _
    rw [hreg.1]
    exact GetThisSlotNumber_lookup s t
  · intro hlt
    apply GetAtSlot_in_range
    rw [GetThisSlotNumber_fObjPointers]
    exact hlt
  · intro hge
    show (GetAtSlot _ h _).ret = none
    rw [GetAtSlot_out_of_range]
    rw [GetThisSlotNumber_fObjPointers]
    exact hge

/-! ### Sequences of `Get()` calls -/

theorem GetCalls_cons (t : ThreadId) (ts : List ThreadId) (s : TThreadedObject T)
    (h : Heap T) :
    GetCalls (t :: ts) s h =
      (((GetThisSlotNumber s t).1, (Get s h t).ret) ::
          (GetCalls ts (Get s h t).self (Get s h t).heap).1,
        (GetCalls ts (Get s h t).self (Get s h t).heap).2) := rfl

theorem GetCalls_append (l1 l2 : List ThreadId) (s : TThreadedObject T) (h : Heap T) :
    GetCalls (l1 ++ l2) s h =
      ((GetCalls l1 s h).1 ++
          (GetCalls l2 (GetCalls l1 s h).2.1 (GetCalls l1 s h).2.2).1,
        (GetCalls l2 (GetCalls l1 s h).2.1 (GetCalls l1 s h).2.2).2) := by
  induction l1 generalizing s h with
  | nil => rfl
  | cons t ts ih =>
    rw [List.cons_append, GetCalls_cons, ih, GetCalls_cons]
    rfl

theorem GetCalls_length (l : List ThreadId) (s : TThreadedObject T) (h : Heap T) :
    (GetCalls l s h).1.length = l.length := by
  induction l generalizing s h with
  | nil => rfl
  | cons t ts ih =>
    rw [GetCalls_cons]
    simp only [List.length_cons]
    rw [ih]

theorem GetCalls_keeps (l : List ThreadId) (s : TThreadedObject T) (h : Heap T) :
    (GetCalls l s h).2.1.fObjPointers.length = s.fObjPointers.length ∧
    (∀ (u : ThreadId) (n : Nat), s.fThrIDSlotMap.lookup u = some n →
      (GetCalls l s h).2.1.fThrIDSlotMap.lookup u = some n) ∧
    (∀ (j : Nat) (a : Addr), s.fObjPointers[j]? = some (some a) →
      (GetCalls l s h).2.1.fObjPointers[j]? = some (some a)) ∧
    (RegistryOK s → RegistryOK (GetCalls l s h).2.1) ∧
    (GetCalls l s h).2.1.fModel = s.fModel ∧
    (GetCalls l s h).2.1.fIsMerged = s.fIsMerged := by
  induction l generalizing s h with
  | nil => exact ⟨rfl, fun _ _ hu => hu, fun _ _ hj => hj, fun hs => hs, rfl, rfl⟩
  | cons t ts ih =>
    rw [GetCalls_cons]
    have h1 := Get_keeps s h t
    have h2 := ih (Get s h t).self (Get s h t).heap
    refine ⟨?_, ?_, ?_, ?_, ?_, ?_⟩
    · exact h2.1.trans h1.1
    · exact fun u n hu => h2.2.1 u n (h1.2.1 u n hu)
    · exact fun j a hj => h2.2.2.1 j a (h1.2.2.1 j a hj)
    · exact fun hs => h2.2.2.2.1 (h1.2.2.2.1 hs)
    · exact h2.2.2.2.2.1.trans h1.2.2.2.2.1
    · exact h2.2.2.2.2.2.trans h1.2.2.2.2.2

/-- Every call of a sequence of `Get()` calls resolves to the slot number that the final
thread map records for the caller, and returns the pointer that the final slot array holds
at that slot number (null when the slot number is not below the capacity). -/
theorem GetCalls_trace (l : List ThreadId) (s : TThreadedObject T) (h : Heap T) (k : Nat)
    (t : ThreadId) (hk : l[k]? = some t) :
    ∃ idx ret, (GetCalls l s h).1[k]? = some (idx, ret) ∧
      (GetCalls l s h).2.1.fThrIDSlotMap.lookup t = some idx ∧
      (idx < s.fObjPointers.length →
        ∃ a, ret = some a ∧ (GetCalls l s h).2.1.fObjPointers[idx]? = some (some a)) ∧
      (s.fObjPointers.length ≤ idx → ret = none) := by
  induction l generalizing s h k with
  | nil => simp at hk
  | cons t1 ts ih =>
    rw [GetCalls_cons]
    have hk1 := Get_keeps s h t1
    have hr := Get_result s h t1
    have hrest := GetCalls_keeps ts (Get s h t1).self (Get s h t1).heap
    cases k with
    | zero =>
      simp only [List.getElem?_cons_zero, Option.some.injEq] at hk
      subst hk
      refine ⟨(GetThisSlotNumber s t1).1, (Get s h t1).ret, by simp, ?_, ?_, ?_⟩
      · exact hrest.2.1 _ _ hr.1
      · intro hlt
        rcases hr.2.1 hlt with ⟨a, ha1, ha2⟩
        exact ⟨a, ha1, hrest.2.2.1 _ _ ha2⟩
      · exact hr.2.2
    | succ k =>
      simp only [List.getElem?_cons_succ] at hk
      rcases ih (Get s h t1).self (Get s h t1).heap k hk with ⟨idx, ret, h1, h2, h3, h4⟩
      refine ⟨idx, ret, ?_, h2, ?_, ?_⟩
      · simpa using h1
      · intro hlt
        exact h3 (by rw [hk1.1]; exact hlt)
      · intro hge
        exact h4 (by rw [hk1.1]; exact hge)

theorem GetCalls_keys (l : List ThreadId) (s : TThreadedObject T) (h : Heap T)
    (u : ThreadId) :
    (GetCalls l s h).2.1.fThrIDSlotMap.lookup u = none ↔
      (s.fThrIDSlotMap.lookup u = none ∧ u ∉ l) := by
  induction l generalizing s h with
  | nil => simp [GetCalls]
  | cons t ts ih =>
    rw [GetCalls_cons]
    show (GetCalls ts (Get s h t).self (Get s h t).heap).2.1.fThrIDSlotMap.lookup u = none ↔ _
    rw [ih]
    have hreg := GetAtSlot_registry (GetThisSlotNumber s t).2 h (GetThisSlotNumber s t).1
    have hmap : (Get s h t).self.fThrIDSlotMap = (GetThisSlotNumber s t).2.fThrIDSlotMap :=
      hreg.1
    rw [hmap]
    by_cases hut : u = t
    · subst hut
      rw [GetThisSlotNumber_lookup]
      simp
    · have : (GetThisSlotNumber s t).2.fThrIDSlotMap.lookup u = s.fThrIDSlotMap.lookup u := by
        rcases hl : s.fThrIDSlotMap.lookup t with _ | n1
        · rw [GetThisSlotNumber_new s t hl]
          exact lookup_cons_ne u t _ _ hut
        · rw [GetThisSlotNumber_found s t n1 hl]
      rw [this]
      simp [hut]

theorem mem_keys_iff (m : List (ThreadId × Nat)) (u : ThreadId) :
    u ∈ m.map Prod.fst ↔ m.lookup u ≠ none := by
  constructor
  · intro hu hnone
    rcases List.mem_map.1 hu with ⟨⟨k, n⟩, hmem, hfst⟩
    simp only at hfst
    subst hfst
    exact lookup_none_not_mem m k hnone n hmem
  · intro hne
    rcases hl : m.lookup u with _ | n
    · exact absurd hl hne
    · exact List.mem_map.2 ⟨(u, n), lookup_mem m u n hl, rfl⟩

theorem construct_RegistryOK (fgMaxSlots : Nat) (model : T) :
    RegistryOK (construct fgMaxSlots model) := by
  refine ⟨trivial, ?_⟩
  show 0 = 0 % UNSIGNED_RANGE
  rfl

/-- After a sequence of `Get()` calls on an object whose thread map was empty, the number
of recorded threads is the number of distinct callers. -/
theorem GetCalls_map_length (l : List ThreadId) (s : TThreadedObject T) (h : Heap T)
    (hs : RegistryOK s) (hempty : s.fThrIDSlotMap = []) :
    (GetCalls l s h).2.1.fThrIDSlotMap.length = l.toFinset.card := by
  have hok := (GetCalls_keeps l s h).2.2.2.1 hs
  have hnd := MapOK_keys_nodup _ hok.1
  have hset : ((GetCalls l s h).2.1.fThrIDSlotMap.map Prod.fst).toFinset = l.toFinset := by
    ext u
    rw [List.mem_toFinset, List.mem_toFinset, mem_keys_iff, Ne, GetCalls_keys, hempty]
    simp
  rw [← hset, List.toFinset_card_of_nodup hnd, List.length_map]

theorem GetCalls_at (l : List ThreadId) (s : TThreadedObject T) (h : Heap T) (k : Nat)
    (t : ThreadId) (hk : l[k]? = some t) :
    (GetCalls l s h).1[k]? =
      some ((GetThisSlotNumber (GetCalls (l.take k) s h).2.1 t).1,
        (Get (GetCalls (l.take k) s h).2.1 (GetCalls (l.take k) s h).2.2 t).ret) := by
  rcases List.getElem?_eq_some.1 hk with ⟨hlt, hget⟩
  have hl : l.take k ++ t :: l.drop (k + 1) = l := by
    rw [← hget, List.getElem_cons_drop, List.take_append_drop]
  have happ := GetCalls_append (l.take k) (t :: l.drop (k + 1)) s h
  rw [hl] at happ
  rw [happ]
  have hlen : (GetCalls (l.take k) s h).1.length = k := by
    rw [GetCalls_length, List.length_take]
    omega
  show ((GetCalls (l.take k) s h).1 ++ _)[k]? = _
  rw [List.getElem?_append_right (by omega), hlen, Nat.sub_self, GetCalls_cons]
  simp

/-- On an object whose thread map was empty, the first call of a thread resolves to the
number of distinct threads that called before it, modulo `2 ^ 32`. -/
theorem GetCalls_first_call (l : List ThreadId) (s : TThreadedObject T) (h : Heap T)
    (hs : RegistryOK s) (hempty : s.fThrIDSlotMap = []) (k : Nat) (t : ThreadId)
    (hk : l[k]? = some t) (hfirst : t ∉ l.take k) :
    (GetCalls l s h).1[k]? =
      some ((l.take k).toFinset.card % UNSIGNED_RANGE,
        (Get (GetCalls (l.take k) s h).2.1 (GetCalls (l.take k) s h).2.2 t).ret) := by
  rw [GetCalls_at l s h k t hk]
  have hnone : (GetCalls (l.take k) s h).2.1.fThrIDSlotMap.lookup t = none := by
    rw [GetCalls_keys, hempty]
    exact ⟨rfl, hfirst⟩
  have hok := (GetCalls_keeps (l.take k) s h).2.2.2.1 hs
  rw [GetThisSlotNumber_new _ t hnone]
  show some ((GetCalls (l.take k) s h).2.1.fCurrMaxSlotIndex, _) = _
  rw [hok.2, GetCalls_map_length (l.take k) s h hs hempty]

theorem take_range_succ (n : Nat) : (List.range (n + 1)).take n = List.range n := by
  rw [List.take_range, Nat.min_eq_left (Nat.le_succ n)]

theorem card_range (n : Nat) : (List.range n).toFinset.card = n := by
  rw [List.toFinset_card_of_nodup (List.nodup_range n), List.length_range]

/-- When the threads `0, 1, ..., n` call `Get()` in this order on a fresh pool, thread `0`
receives slot number 0. -/
theorem GetCalls_range_first (n fgMaxSlots : Nat) (model : T) (h0 : Heap T) :
    ∃ r0, (GetCalls (List.range (n + 1)) (construct fgMaxSlots model) h0).1[0]? =
      some (0, r0) := by
  have c0 := GetCalls_first_call (List.range (n + 1)) (construct fgMaxSlots model) h0
    (construct_RegistryOK fgMaxSlots model) rfl 0 0
    (List.getElem?_range (Nat.succ_pos _)) (by simp)
  rw [List.take_zero, List.toFinset_nil, Finset.card_empty, Nat.zero_mod] at c0
  exact ⟨_, c0⟩

/-- When the threads `0, 1, ..., 2 ^ 32` call `Get()` in this order on a fresh pool,
thread `2 ^ 32` receives slot number 0. -/
theorem GetCalls_range_wrap (n : Nat) (hn : n = UNSIGNED_RANGE) (fgMaxSlots : Nat)
    (model : T) (h0 : Heap T) :
    ∃ r1, (GetCalls (List.range (n + 1)) (construct fgMaxSlots model) h0).1[n]? =
      some (0, r1) := by
  have hfirst : n ∉ (List.range (n + 1)).take n := by
    rw [take_range_succ, List.mem_range]
    exact Nat.lt_irrefl _
  have c1 := GetCalls_first_call (List.range (n + 1)) (construct fgMaxSlots model) h0
    (construct_RegistryOK fgMaxSlots model) rfl n n
    (List.getElem?_range (Nat.lt_succ_self _)) hfirst
  rw [take_range_succ, card_range, ← hn, Nat.mod_self] at c1
  exact ⟨_, c1⟩

theorem range_first_of_last (n : Nat) : n ∉ (List.range (n + 1)).take n := by
  rw [take_range_succ, List.mem_range]
  exact Nat.lt_irrefl _

/-- When the threads `0, 1, ..., 2 ^ 32` call `Get()` in this order on a fresh pool of
capacity 1, thread `2 ^ 32` receives a present value. -/
theorem GetCalls_range_wrap_present (n : Nat) (hn : n = UNSIGNED_RANGE) (model : T)
    (h0 : Heap T) :
    ∃ a, (GetCalls (List.range (n + 1)) (construct 1 model) h0).1[n]? =
      some (0, some a) := by
  rcases GetCalls_range_wrap n hn 1 model h0 with ⟨r1, hr1⟩
  rcases GetCalls_trace (List.range (n + 1)) (construct 1 model) h0 n n
    (List.getElem?_range (Nat.lt_succ_self _)) with ⟨idx, ret, e, _, hp, _⟩
  rw [hr1] at e
  simp only [Option.some.injEq, Prod.mk.injEq] at e
  rcases e with ⟨rfl, rfl⟩
  have hcap : (0 : Nat) < (construct 1 model).fObjPointers.length := by
    simp [construct]
  rcases hp hcap with ⟨a, ha, _⟩
  exact ⟨a, by rw [hr1, ha]⟩

/-! ### Reachable states -/

theorem Merge_registry (f : MergeFunctionType T) (s : TThreadedObject T) (h : Heap T)
    (o : MergeOutcome SharedPtr T) (ho : Merge f s h = some o) :
    o.self.fThrIDSlotMap = s.fThrIDSlotMap ∧
    o.self.fCurrMaxSlotIndex = s.fCurrMaxSlotIndex ∧
    o.self.fModel = s.fModel := by
  unfold Merge at ho
  split at ho
  · split at ho
    · simp at ho
    · simp only [Option.some.injEq] at ho
      rw [← ho]
      exact ⟨rfl, rfl, rfl⟩
  · split at ho
    · simp at ho
    · dsimp only at ho
      split at ho
      · simp at ho
      · simp only [Option.some.injEq] at ho
        rw [← ho]
        exact ⟨rfl, rfl, rfl⟩

theorem SnapshotMerge_registry (f : MergeFunctionType T) (s : TThreadedObject T)
    (h : Heap T) (o : MergeOutcome Addr T) (ho : SnapshotMerge f s h = some o) :
    o.self.fThrIDSlotMap = s.fThrIDSlotMap ∧
    o.self.fCurrMaxSlotIndex = s.fCurrMaxSlotIndex ∧
    o.self.fModel = s.fModel ∧
    o.self.fIsMerged = s.fIsMerged := by
  unfold SnapshotMerge at ho
  split at ho
  · split at ho
    · simp at ho
    · simp at ho
    · split at ho
      · simp at ho
      · simp only [Option.some.injEq] at ho
        rw [← ho]
        exact ⟨rfl, rfl, rfl, rfl⟩
  · simp only [Option.some.injEq] at ho
    rw [← ho]
    exact ⟨rfl, rfl, rfl, rfl⟩

/-- The effect of one call on the thread map and the slot counter: both are unchanged,
or the call is the first `Get()` of a thread, which is recorded with the current value of
the counter while the counter is incremented modulo `2 ^ 32`. -/
theorem step_registry (c : Call T) (s s1 : TThreadedObject T) (h h1 : Heap T)
    (hstep : step c s h = some (s1, h1)) :
    (s1.fThrIDSlotMap = s.fThrIDSlotMap ∧ s1.fCurrMaxSlotIndex = s.fCurrMaxSlotIndex) ∨
    (∃ t, c = Call.get t ∧ s.fThrIDSlotMap.lookup t = none ∧
      s1.fThrIDSlotMap = (t, s.fCurrMaxSlotIndex) :: s.fThrIDSlotMap ∧
      s1.fCurrMaxSlotIndex = (s.fCurrMaxSlotIndex + 1) % UNSIGNED_RANGE) := by
  cases c with
  | get t =>
    simp only [step, Option.some.injEq, Prod.mk.injEq] at hstep
    rw [← hstep.1]
    have hreg := GetAtSlot_registry (GetThisSlotNumber s t).2 h (GetThisSlotNumber s t).1
    have e1 : (Get s h t).self.fThrIDSlotMap = (GetThisSlotNumber s t).2.fThrIDSlotMap :=
      hreg.1
    have e2 : (Get s h t).self.fCurrMaxSlotIndex =
        (GetThisSlotNumber s t).2.fCurrMaxSlotIndex := hreg.2.1
    rw [e1, e2]
    rcases hl : s.fThrIDSlotMap.lookup t with _ | n
    · right
      rw [GetThisSlotNumber_new s t hl]
      exact ⟨t, rfl, hl, rfl, rfl⟩
    · left
      rw [GetThisSlotNumber_found s t n hl]
      exact ⟨rfl, rfl⟩
  | getAtSlot i =>
    simp only [step, Option.some.injEq, Prod.mk.injEq] at hstep
    rw [← hstep.1]
    have hreg := GetAtSlot_registry s h i
    exact Or.inl ⟨hreg.1, hreg.2.1⟩
  | getAtSlotUnchecked i =>
    simp only [step] at hstep
    unfold GetAtSlotUnchecked at hstep
    split at hstep
    · simp only [Option.map_some', Option.some.injEq, Prod.mk.injEq] at hstep
      rw [← hstep.1]
      exact Or.inl ⟨rfl, rfl⟩
    · simp at hstep
  | merge f =>
    simp only [step] at hstep
    rcases ho : Merge f s h with _ | o
    · rw [ho] at hstep
      simp at hstep
    · rw [ho] at hstep
      simp only [Option.map_some', Option.some.injEq, Prod.mk.injEq] at hstep
      rw [← hstep.1]
      have := Merge_registry f s h o ho
      exact Or.inl ⟨this.1, this.2.1⟩
  | snapshotMerge f =>
    simp only [step] at hstep
    rcases ho : SnapshotMerge f s h with _ | o
    · rw [ho] at hstep
      simp at hstep
    · rw [ho] at hstep
      simp only [Option.map_some', Option.some.injEq, Prod.mk.injEq] at hstep
      rw [← hstep.1]
      have := SnapshotMerge_registry f s h o ho
      exact Or.inl ⟨this.1, this.2.1⟩
  | write a v =>
    simp only [step, Option.some.injEq, Prod.mk.injEq] at hstep
    rw [← hstep.1]
    exact Or.inl ⟨rfl, rfl⟩

theorem step_RegistryOK (c : Call T) (s s1 : TThreadedObject T) (h h1 : Heap T)
    (hstep : step c s h = some (s1, h1)) (hs : RegistryOK s) : RegistryOK s1 := by
  rcases step_registry c s s1 h h1 hstep with ⟨e1, e2⟩ | ⟨t, _, hl, e1, e2⟩
  · unfold RegistryOK
    rw [e1, e2]
    exact hs
  · unfold RegistryOK
    rw [e1, e2]
    refine ⟨⟨hs.2, hl, hs.1⟩, ?_⟩
    rw [hs.2, List.length_cons, Nat.add_mod, Nat.mod_mod, ← Nat.add_mod]

theorem run_RegistryOK (cs : List (Call T)) (s s1 : TThreadedObject T) (h h1 : Heap T)
    (hrun : run cs s h = some (s1, h1)) (hs : RegistryOK s) : RegistryOK s1 := by
  induction cs generalizing s h with
  | nil =>
    simp only [run, Option.some.injEq, Prod.mk.injEq] at hrun
    rw [← hrun.1]
    exact hs
  | cons c cs ih =>
    unfold run at hrun
    rcases hst : step c s h with _ | r
    · rw [hst] at hrun
      simp at hrun
    · rw [hst] at hrun
      exact ih r.1 r.2 hrun (step_RegistryOK c s r.1 h r.2 hst hs)

theorem run_get (l : List ThreadId) (s : TThreadedObject T) (h : Heap T) :
    run (l.map Call.get) s h = some ((GetCalls l s h).2.1, (GetCalls l s h).2.2) := by
  induction l generalizing s h with
  | nil => rfl
  | cons t ts ih =>
    rw [List.map_cons, GetCalls_cons]
    unfold run
    simp only [step]
    exact ih _ _

/-- After the threads `0, 1, ..., 2 ^ 32 - 1` have called `Get()` on a fresh pool, the
thread map has `2 ^ 32` entries and the slot counter is 0. -/
theorem run_range_wrap (n : Nat) (hn : n = UNSIGNED_RANGE) (fgMaxSlots : Nat) (model : T)
    (h0 : Heap T) :
    ∃ s h, run ((List.range n).map Call.get) (construct fgMaxSlots model) h0 = some (s, h) ∧
      s.fThrIDSlotMap.length = n ∧ s.fCurrMaxSlotIndex = 0 := by
  refine ⟨_, _, run_get (List.range n) (construct fgMaxSlots model) h0, ?_, ?_⟩
  · rw [GetCalls_map_length _ _ _ (construct_RegistryOK fgMaxSlots model) rfl, card_range]
  · have hok := (GetCalls_keeps (List.range n) (construct fgMaxSlots model) h0).2.2.2.1
      (construct_RegistryOK fgMaxSlots model)
    rw [hok.2, GetCalls_map_length _ _ _ (construct_RegistryOK fgMaxSlots model) rfl,
      card_range, ← hn, Nat.mod_self]

/-! ### `Merge` and `SnapshotMerge` -/

theorem getElem?_zero_of_pos (l : List SharedPtr) (hl : 0 < l.length) :
    l[0]? = some (l.getD 0 none) := by
  cases l with
  | nil => simp at hl
  | cons a l => simp


theorem Merge_merged (f : MergeFunctionType T) (s : TThreadedObject T) (h : Heap T)
    (p : SharedPtr) (hm : s.fIsMerged = true) (hp : s.fObjPointers[0]? = some p) :
    Merge f s h = some ⟨p, s, h, []⟩ := by
  unfold Merge
  rw [if_pos hm, hp]

theorem Merge_unmerged (f : MergeFunctionType T) (s : TThreadedObject T) (h : Heap T)
    (target p : SharedPtr) (hm : s.fIsMerged = false) (ht : s.fObjPointers[0]? = some target)
    (hp : (f target s.fObjPointers h).1[0]? = some p) :
    Merge f s h =
      some ⟨p, { s with fObjPointers := (f target s.fObjPointers h).1, fIsMerged := true },
        (f target s.fObjPointers h).2, [(target, s.fObjPointers)]⟩ := by
  unfold Merge
  rw [if_neg (by simp [hm]), ht]
  dsimp only
  rw [hp]

theorem Merge_no_slot (f : MergeFunctionType T) (s : TThreadedObject T) (h : Heap T)
    (hs : s.fObjPointers = []) : Merge f s h = none := by
  unfold Merge
  rw [hs]
  split <;> rfl

theorem SnapshotMerge_unmerged (f : MergeFunctionType T) (s : TThreadedObject T)
    (h : Heap T) (hm : s.fIsMerged = false) :
    SnapshotMerge f s h =
      some ⟨h.length,
        { s with fObjPointers := (f (some h.length) s.fObjPointers (h ++ [s.fModel])).1 },
        (f (some h.length) s.fObjPointers (h ++ [s.fModel])).2,
        [(some h.length, s.fObjPointers)]⟩ := by
  unfold SnapshotMerge
  rw [if_neg (by simp [hm])]
  rfl

theorem SnapshotMerge_merged_null (f : MergeFunctionType T) (s : TThreadedObject T)
    (h : Heap T) (hm : s.fIsMerged = true) (hp : s.fObjPointers[0]? = some none) :
    SnapshotMerge f s h = none := by
  unfold SnapshotMerge
  rw [if_pos hm, hp]

theorem SnapshotMerge_merged (f : MergeFunctionType T) (s : TThreadedObject T)
    (h : Heap T) (a : Addr) (v : T) (hm : s.fIsMerged = true)
    (hp : s.fObjPointers[0]? = some (some a)) (hv : h[a]? = some v) :
    SnapshotMerge f s h = some ⟨h.length, s, h ++ [v], []⟩ := by
  unfold SnapshotMerge
  rw [if_pos hm, hp]
  dsimp only
  rw [hv]
  rfl

/-! ### The default merge function -/

theorem objTList_of_not_mem (t : Addr) (objs : List SharedPtr) (ht : some t ∉ objs) :
    objTList t objs = objs.filterMap id := by
  unfold objTList
  apply List.filterMap_congr
  intro p hp
  rcases p with _ | a
  · rfl
  · have hne : a ≠ t := by
      intro heq
      rw [heq] at hp
      exact ht hp
    simp [hne]

theorem objTList_values (t : Addr) (objs : List SharedPtr) (h : Heap T)
    (ht : some t ∉ objs) :
    (objTList t objs).filterMap (fun a => h[a]?) = slotValues objs h := by
  rw [objTList_of_not_mem t objs ht, List.filterMap_filterMap]
  unfold slotValues
  apply List.filterMap_congr
  intro p _
  rcases p with _ | a <;> rfl

theorem slotValues_congr (objs : List SharedPtr) (h h1 : Heap T)
    (hv : ∀ a : Addr, some a ∈ objs → h[a]? = h1[a]?) :
    slotValues objs h = slotValues objs h1 := by
  unfold slotValues
  apply List.filterMap_congr
  intro p hp
  rcases p with _ | a
  · rfl
  · exact hv a hp

theorem callMerge_length (tMerge : T → List T → T) (t : Addr) (l : List Addr) (h : Heap T) :
    (callMerge tMerge t l h).length = h.length := by
  unfold callMerge
  split
  · simp
  · rfl

theorem callMerge_other (tMerge : T → List T → T) (t : Addr) (l : List Addr) (h : Heap T)
    (a : Addr) (ha : a ≠ t) : (callMerge tMerge t l h)[a]? = h[a]? := by
  unfold callMerge
  split
  · rw [List.getElem?_set_ne (Ne.symm ha)]
  · rfl

theorem callMerge_target (tMerge : T → List T → T) (t : Addr) (l : List Addr) (h : Heap T) :
    (callMerge tMerge t l h)[t]? =
      (h[t]?).map (fun v => tMerge v (l.filterMap (fun a => h[a]?))) := by
  unfold callMerge
  rcases hv : h[t]? with _ | v
  · simp [hv]
  · have hlt : t < h.length := by
      rcases List.getElem?_eq_some.1 hv with ⟨hlt, _⟩
      exact hlt
    simp [List.getElem?_set_self hlt]

theorem MergeTObjects_ModifiesOnlyTarget (tMerge : T → List T → T) :
    ModifiesOnlyTarget (MergeTObjects tMerge) := by
  intro t objs h
  exact ⟨rfl, callMerge_length tMerge t _ h, fun a ha => callMerge_other tMerge t _ h a ha⟩

theorem MergeTObjects_ValueDetermined (tMerge : T → List T → T) :
    ValueDetermined (MergeTObjects tMerge) := by
  intro t t1 objs h h1 ht ht1 hv hobjs
  show (callMerge tMerge t (objTList t objs) h)[t]? =
    (callMerge tMerge t1 (objTList t1 objs) h1)[t1]?
  rw [callMerge_target, callMerge_target, objTList_values t objs h ht,
    objTList_values t1 objs h1 ht1, slotValues_congr objs h h1 hobjs, hv]

/-- On a target that is a new copy of `model` at the end of the store, the default merge
function replaces the copy by the result of the value type's `Merge` on the values of all
populated slots, and changes nothing else. -/
theorem MergeTObjects_fresh (tMerge : T → List T → T) (objs : List SharedPtr) (h : Heap T)
    (model : T) (hvalid : ∀ a : Addr, some a ∈ objs → a < h.length) :
    MergeTObjects tMerge (some h.length) objs (h ++ [model]) =
      (objs, h ++ [tMerge model (slotValues objs h)]) := by
  have hnot : some h.length ∉ objs := fun hmem => Nat.lt_irrefl _ (hvalid _ hmem)
  show (objs, callMerge tMerge h.length (objTList h.length objs) (h ++ [model])) = _
  unfold callMerge
  rw [List.getElem?_concat_length]
  dsimp only
  rw [objTList_values h.length objs (h ++ [model]) hnot,
    slotValues_congr objs (h ++ [model]) h
      (fun a ha => List.getElem?_append_left (hvalid a ha))]
  simp

theorem SnapshotMerge_unmerged_int (s : TThreadedObject Int) (h : Heap Int)
    (hm : s.fIsMerged = false) (hvalid : Valid s h) :
    SnapshotMerge (MergeTObjects (fun v l => v + l.sum)) s h =
      some ⟨h.length, s, h ++ [s.fModel + (slotValues s.fObjPointers h).sum],
        [(some h.length, s.fObjPointers)]⟩ := by
  rw [SnapshotMerge_unmerged _ s h hm,
    MergeTObjects_fresh (fun v l => v + l.sum) s.fObjPointers h s.fModel hvalid]

/-! ### The end-to-end scenario -/

theorem Get_new_slot (s : TThreadedObject T) (h : Heap T) (t : ThreadId)
    (hl : s.fThrIDSlotMap.lookup t = none)
    (hs : s.fObjPointers[s.fCurrMaxSlotIndex]? = some none) :
    Get s h t =
      ⟨some h.length,
        { s with
          fObjPointers := s.fObjPointers.set s.fCurrMaxSlotIndex (some h.length)
          fCurrMaxSlotIndex := (s.fCurrMaxSlotIndex + 1) % UNSIGNED_RANGE
          fThrIDSlotMap := (t, s.fCurrMaxSlotIndex) :: s.fThrIDSlotMap },
        h ++ [s.fModel]⟩ := by
  unfold Get
  rw [GetThisSlotNumber_new s t hl]
  dsimp only
  exact GetAtSlot_empty _ h s.fCurrMaxSlotIndex hs

theorem slots_set_next (n0 C k : Nat) (hk : k < C) :
    ((List.range k).map (fun i => some (n0 + i)) ++
        List.replicate (C - k) (none : SharedPtr)).set k (some (n0 + k)) =
      (List.range (k + 1)).map (fun i => some (n0 + i)) ++
        List.replicate (C - (k + 1)) (none : SharedPtr) := by
  have hrep : C - k = (C - (k + 1)) + 1 := by omega
  rw [List.set_append_right _ _ (by simp), hrep, List.replicate_succ]
  simp [List.range_succ]

theorem slots_get_next (n0 C k : Nat) (hk : k < C) :
    ((List.range k).map (fun i => some (n0 + i)) ++
        List.replicate (C - k) (none : SharedPtr))[k]? = some none := by
  rw [List.getElem?_append_right (by simp)]
  simp only [List.length_map, List.length_range, Nat.sub_self]
  rw [List.getElem?_replicate, if_pos (by omega)]

theorem ScenarioInv_fetch (fgMaxSlots : Nat) (c : ThreadId → Int) (h0 : Heap Int)
    (order : List ThreadId) (cnt : ThreadId → Nat) (w : Workers)
    (hinv : ScenarioInv fgMaxSlots c h0 order cnt w) (t : ThreadId) (ht : t ∉ order)
    (hcnt : cnt t = 0) (hlen : order.length < fgMaxSlots)
    (hC : fgMaxSlots < UNSIGNED_RANGE) :
    ∃ w1, workerStep c (WorkerStep.fetch t) w = some w1 ∧
      ScenarioInv fgMaxSlots c h0 (order ++ [t]) cnt w1 := by
  have hl := hinv.absent t ht
  have hctr : w.pool.fCurrMaxSlotIndex = order.length := by
    rw [hinv.registry.2, hinv.recorded, Nat.mod_eq_of_lt (by omega)]
  have hs : w.pool.fObjPointers[w.pool.fCurrMaxSlotIndex]? = some none := by
    rw [hctr, hinv.slots]
    exact slots_get_next h0.length fgMaxSlots order.length hlen
  have hget := Get_new_slot w.pool w.heap t hl hs
  have hheap : w.heap.length = h0.length + order.length := by
    rw [hinv.heap]
    simp
  refine ⟨_, rfl, ?_⟩
  rw [hget, hctr, hheap]
  refine ⟨hinv.model, hinv.unmerged, ?_, ?_, ?_, ?_, ?_, ?_⟩
  · show w.pool.fObjPointers.set order.length (some (h0.length + order.length)) = _
    rw [hinv.slots, List.length_append, List.length_singleton]
    exact slots_set_next h0.length fgMaxSlots order.length hlen
  · refine ⟨⟨?_, hl, hinv.registry.1⟩, ?_⟩
    · show order.length = w.pool.fThrIDSlotMap.length % UNSIGNED_RANGE
      rw [hinv.recorded, Nat.mod_eq_of_lt (by omega)]
    · show (order.length + 1) % UNSIGNED_RANGE =
        ((t, order.length) :: w.pool.fThrIDSlotMap).length % UNSIGNED_RANGE
      rw [List.length_cons, hinv.recorded]
  · show ((t, order.length) :: w.pool.fThrIDSlotMap).length = (order ++ [t]).length
    rw [List.length_cons, hinv.recorded, List.length_append, List.length_singleton]
  · intro i u hu
    show List.lookup u ((t, order.length) :: w.pool.fThrIDSlotMap) = some i ∧
      List.lookup u ((t, some (h0.length + order.length)) :: w.held) =
        some (some (h0.length + i))
    by_cases hi : i < order.length
    · rw [List.getElem?_append_left hi] at hu
      have hut : u ≠ t := by
        intro heq
        rw [heq] at hu
        exact ht (List.mem_iff_getElem?.2 ⟨i, hu⟩)
      have hb : (u == t) = false := by simpa using hut
      rw [lookup_cons_ne u t _ _ hut, List.lookup_cons, hb]
      exact hinv.look i u hu
    · rw [List.getElem?_append_right (by omega)] at hu
      have hi0 : i - order.length = 0 := by
        by_contra hne
        rw [List.getElem?_eq_none (by simp; omega)] at hu
        simp at hu
      rw [hi0] at hu
      simp only [List.getElem?_cons_zero, Option.some.injEq] at hu
      have hik : i = order.length := by omega
      rw [← hu, hik, lookup_cons_self]
      simp [List.lookup_cons]
  · intro u hu
    have hut : u ≠ t := by
      intro heq
      exact hu (by rw [heq]; simp)
    have huo : u ∉ order := fun hmem => hu (List.mem_append_left _ hmem)
    show List.lookup u ((t, order.length) :: w.pool.fThrIDSlotMap) = none
    rw [lookup_cons_ne u t _ _ hut]
    exact hinv.absent u huo
  · show w.heap ++ [w.pool.fModel] = _
    rw [hinv.heap, hinv.model, List.map_append, List.map_singleton, hcnt]
    simp

theorem map_set_update (order : List ThreadId) (hnd : order.Nodup) (g : ThreadId → Int)
    (i : Nat) (t : ThreadId) (hi : order[i]? = some t) (x : Int) :
    (order.map g).set i x = order.map (Function.update g t x) := by
  apply List.ext_getElem?
  intro j
  rcases List.getElem?_eq_some.1 hi with ⟨hlt, hget⟩
  rw [List.getElem?_set, List.getElem?_map, List.getElem?_map]
  by_cases hij : i = j
  · subst hij
    rw [if_pos rfl, if_pos (by simpa using hlt), hi]
    simp
  · rw [if_neg hij]
    rcases hj : order[j]? with _ | u
    · rfl
    · rcases List.getElem?_eq_some.1 hj with ⟨hjlt, hjget⟩
      have hut : u ≠ t := by
        intro heq
        apply hij
        have : order[i] = order[j] := by rw [hget, hjget, heq]
        exact (hnd.getElem_inj_iff).1 this
      simp [Function.update, hut]

theorem ScenarioInv_add (fgMaxSlots : Nat) (c : ThreadId → Int) (h0 : Heap Int)
    (order : List ThreadId) (cnt : ThreadId → Nat) (w : Workers)
    (hinv : ScenarioInv fgMaxSlots c h0 order cnt w) (hnd : order.Nodup) (t : ThreadId)
    (ht : t ∈ order) :
    ∃ w1, workerStep c (WorkerStep.add t) w = some w1 ∧
      ScenarioInv fgMaxSlots c h0 order (Function.update cnt t (cnt t + 1)) w1 := by
  rcases List.mem_iff_getElem?.1 ht with ⟨i, hi⟩
  have hheld := (hinv.look i t hi).2
  have hval : w.heap[h0.length + i]? = some ((cnt t : Int) * c t) := by
    rw [hinv.heap, List.getElem?_append_right (by omega), Nat.add_sub_cancel_left,
      List.getElem?_map, hi]
    rfl
  have hstep : workerStep c (WorkerStep.add t) w =
      some ⟨w.pool, w.heap.set (h0.length + i) ((cnt t : Int) * c t + c t), w.held⟩ := by
    unfold workerStep
    simp only [hheld, hval]
  refine ⟨_, hstep, hinv.model, hinv.unmerged, hinv.slots, hinv.registry, hinv.recorded,
    hinv.look, hinv.absent, ?_⟩
  show w.heap.set (h0.length + i) ((cnt t : Int) * c t + c t) = _
  rw [hinv.heap, List.set_append_right _ _ (by omega), Nat.add_sub_cancel_left,
    map_set_update order hnd _ i t hi]
  congr 1
  apply List.map_congr_left
  intro u _
  by_cases hut : u = t
  · subst hut
    simp [Function.update]
    ring
  · simp [Function.update, hut]

theorem runWorkers_cons (c : ThreadId → Int) (e : WorkerStep) (es : List WorkerStep)
    (w : Workers) :
    runWorkers c (e :: es) w = (workerStep c e w).bind (runWorkers c es) := by
  show (match workerStep c e w with
    | none => none
    | some w1 => runWorkers c es w1) = _
  rcases workerStep c e w with _ | w1 <;> rfl

theorem runWorkers_append (c : ThreadId → Int) (a b : List WorkerStep) (w : Workers) :
    runWorkers c (a ++ b) w = (runWorkers c a w).bind (runWorkers c b) := by
  induction a generalizing w with
  | nil => rfl
  | cons e es ih =>
    rw [List.cons_append, runWorkers_cons, runWorkers_cons]
    rcases workerStep c e w with _ | w1
    · rfl
    · exact ih w1

theorem mem_fetchOrder (sched : List WorkerStep) (t : ThreadId) :
    t ∈ fetchOrder sched ↔ WorkerStep.fetch t ∈ sched := by
  unfold fetchOrder
  rw [List.mem_filterMap]
  constructor
  · rintro ⟨e, he, hf⟩
    cases e with
    | fetch u =>
      simp only [Option.some.injEq] at hf
      rw [← hf]
      exact he
    | add u => simp at hf
  · intro h
    exact ⟨_, h, rfl⟩

theorem mem_filter_thread (sched : List WorkerStep) (e : WorkerStep) (he : e ∈ sched) :
    e ∈ sched.filter (fun x => x.thread = e.thread) := by
  rw [List.mem_filter]
  exact ⟨he, by simp⟩

theorem prefix_program_nonempty (r : Nat) (threads : List ThreadId) (t : ThreadId)
    (l : List WorkerStep) (e : WorkerStep)
    (hp : l ++ [e] <+: (if t ∈ threads then workerProgram r t else [])) :
    t ∈ threads ∧ l ++ [e] <+: workerProgram r t := by
  by_cases ht : t ∈ threads
  · rw [if_pos ht] at hp
    exact ⟨ht, hp⟩
  · rw [if_neg ht, List.prefix_nil] at hp
    simp at hp

/-- A thread whose next step in an interleaving is its fetch has made no step before. -/
theorem prefix_fetch_first (r : Nat) (t : ThreadId) (l : List WorkerStep)
    (hp : l ++ [WorkerStep.fetch t] <+: workerProgram r t) : l = [] := by
  cases l with
  | nil => rfl
  | cons x xs =>
    unfold workerProgram at hp
    rw [List.cons_append, List.cons_prefix_cons] at hp
    have hmem : WorkerStep.fetch t ∈ List.replicate r (WorkerStep.add t) :=
      hp.2.subset (by simp)
    rw [List.mem_replicate] at hmem
    exact absurd hmem.2 (by simp)

/-- A thread whose next step in an interleaving is an addition has fetched before. -/
theorem prefix_add_fetched (r : Nat) (t : ThreadId) (l : List WorkerStep)
    (hp : l ++ [WorkerStep.add t] <+: workerProgram r t) : WorkerStep.fetch t ∈ l := by
  cases l with
  | nil =>
    unfold workerProgram at hp
    rw [List.nil_append, List.cons_prefix_cons] at hp
    exact absurd hp.1 (by simp)
  | cons x xs =>
    unfold workerProgram at hp
    rw [List.cons_append, List.cons_prefix_cons] at hp
    rw [hp.1]
    exact List.mem_cons_self _ _

theorem fetchOrder_append_fetch (pre : List WorkerStep) (t : ThreadId) :
    fetchOrder (pre ++ [WorkerStep.fetch t]) = fetchOrder pre ++ [t] := by
  unfold fetchOrder
  rw [List.filterMap_append]
  rfl

theorem fetchOrder_append_add (pre : List WorkerStep) (t : ThreadId) :
    fetchOrder (pre ++ [WorkerStep.add t]) = fetchOrder pre := by
  unfold fetchOrder
  rw [List.filterMap_append]
  simp

theorem addCount_append_fetch (pre : List WorkerStep) (t : ThreadId) :
    addCount (pre ++ [WorkerStep.fetch t]) = addCount pre := by
  funext u
  unfold addCount
  rw [List.count_append]
  simp

theorem addCount_append_add (pre : List WorkerStep) (t : ThreadId) :
    addCount (pre ++ [WorkerStep.add t]) =
      Function.update (addCount pre) t (addCount pre t + 1) := by
  funext u
  unfold addCount
  rw [List.count_append]
  by_cases hut : u = t
  · subst hut
    simp
  · have hne : ¬ (WorkerStep.add t = WorkerStep.add u) := by
      intro h
      injection h with h1
      exact hut h1.symm
    simp [Function.update, hut, hne]

theorem IsInterleavingPrefix_init (r : Nat) (threads : List ThreadId)
    (pre : List WorkerStep) (e : WorkerStep)
    (hp : IsInterleavingPrefix r threads (pre ++ [e])) : IsInterleavingPrefix r threads pre := by
  intro t
  have h1 := hp t
  rw [List.filter_append] at h1
  exact (List.prefix_append _ _).trans h1

theorem ScenarioInv_init (fgMaxSlots : Nat) (c : ThreadId → Int) (h0 : Heap Int) :
    ScenarioInv fgMaxSlots c h0 (fetchOrder []) (addCount [])
      ⟨construct fgMaxSlots 0, h0, []⟩ := by
  refine ⟨rfl, rfl, ?_, construct_RegistryOK fgMaxSlots 0, rfl, ?_, fun _ _ => rfl, ?_⟩
  · simp [construct, fetchOrder]
  · intro i t hi
    simp [fetchOrder] at hi
  · simp [fetchOrder]

theorem runWorkers_snoc (c : ThreadId → Int) (pre : List WorkerStep) (e : WorkerStep)
    (w0 w : Workers) (hrun : runWorkers c pre w0 = some w) :
    runWorkers c (pre ++ [e]) w0 = workerStep c e w := by
  rw [runWorkers_append, hrun, Option.some_bind, runWorkers_cons]
  rcases workerStep c e w with _ | w1 <;> rfl

/-- Every beginning of an interleaving of the workers' programs runs without undefined
behaviour and leaves the state described by `ScenarioInv`. -/
theorem scenario_run (fgMaxSlots : Nat) (c : ThreadId → Int) (h0 : Heap Int) (r : Nat)
    (threads : List ThreadId) (hlen : threads.length ≤ fgMaxSlots)
    (hC : fgMaxSlots < UNSIGNED_RANGE) (sched : List WorkerStep)
    (hp : IsInterleavingPrefix r threads sched) :
    ∃ w, runWorkers c sched ⟨construct fgMaxSlots 0, h0, []⟩ = some w ∧
      ScenarioInv fgMaxSlots c h0 (fetchOrder sched) (addCount sched) w ∧
      (fetchOrder sched).Nodup ∧ fetchOrder sched ⊆ threads := by
  induction sched using List.reverseRecOn with
  | nil =>
    exact ⟨_, rfl, ScenarioInv_init fgMaxSlots c h0, by simp [fetchOrder],
      by simp [fetchOrder]⟩
  | append_singleton pre e ih =>
    rcases ih (IsInterleavingPrefix_init r threads pre e hp) with ⟨w, hrun, hinv, hnd, hsub⟩
    rw [runWorkers_snoc c pre e _ w hrun]
    cases e with
    | fetch t =>
      have h1 := hp t
      rw [List.filter_append] at h1
      have hsing : List.filter (fun e => decide (e.thread = t)) [WorkerStep.fetch t] =
          [WorkerStep.fetch t] := by simp [WorkerStep.thread]
      rw [hsing] at h1
      rcases prefix_program_nonempty r threads t _ _ h1 with ⟨ht, h2⟩
      have hnil := prefix_fetch_first r t _ h2
      have hnot : t ∉ fetchOrder pre := by
        rw [mem_fetchOrder]
        intro hmem
        have := mem_filter_thread pre _ hmem
        rw [show (WorkerStep.fetch t).thread = t from rfl, hnil] at this
        simp at this
      have hcnt : addCount pre t = 0 := by
        unfold addCount
        rw [List.count_eq_zero]
        intro hmem
        have := mem_filter_thread pre _ hmem
        rw [show (WorkerStep.add t).thread = t from rfl, hnil] at this
        simp at this
      have hnd1 : (fetchOrder pre ++ [t]).Nodup := by
        rw [List.nodup_append]
        refine ⟨hnd, by simp, ?_⟩
        intro x hx hx1
        simp only [List.mem_singleton] at hx1
        rw [hx1] at hx
        exact hnot hx
      have hsub1 : fetchOrder pre ++ [t] ⊆ threads := by
        intro x hx
        rcases List.mem_append.1 hx with hx | hx
        · exact hsub hx
        · simp only [List.mem_singleton] at hx
          rw [hx]
          exact ht
      have hlt : (fetchOrder pre).length < fgMaxSlots := by
        have := (hnd1.subperm hsub1).length_le
        rw [List.length_append, List.length_singleton] at this
        omega
      rcases ScenarioInv_fetch fgMaxSlots c h0 _ _ w hinv t hnot hcnt hlt hC with
        ⟨w1, hstep, hinv1⟩
      rw [fetchOrder_append_fetch, addCount_append_fetch]
      exact ⟨w1, hstep, hinv1, hnd1, hsub1⟩
    | add t =>
      have h1 := hp t
      rw [List.filter_append] at h1
      have hsing : List.filter (fun e => decide (e.thread = t)) [WorkerStep.add t] =
          [WorkerStep.add t] := by simp [WorkerStep.thread]
      rw [hsing] at h1
      rcases prefix_program_nonempty r threads t _ _ h1 with ⟨_, h2⟩
      have hfetched := prefix_add_fetched r t _ h2
      have hmem : t ∈ fetchOrder pre := by
        rw [mem_fetchOrder]
        exact (List.mem_filter.1 hfetched).1
      rcases ScenarioInv_add fgMaxSlots c h0 _ _ w hinv hnd t hmem with ⟨w1, hstep, hinv1⟩
      rw [fetchOrder_append_add, addCount_append_add]
      exact ⟨w1, hstep, hinv1, hnd, hsub⟩

theorem filterMap_getElem?_range (l : List Int) :
    (List.range l.length).filterMap (fun i => l[i]?) = l := by
  induction l with
  | nil => rfl
  | cons x xs ih =>
    rw [List.length_cons, List.range_succ_eq_map, List.filterMap_cons]
    simp only [List.getElem?_cons_zero, List.filterMap_map]
    congr 1
    have hf : ((fun i => (x :: xs)[i]?) ∘ Nat.succ) = fun i => xs[i]? := by
      funext i
      simp
    rw [hf]
    exact ih

theorem slotValues_cons_some (a : Addr) (rest : List SharedPtr) (h : Heap T) (v : T)
    (hv : h[a]? = some v) : slotValues (some a :: rest) h = v :: slotValues rest h := by
  unfold slotValues
  rw [List.filterMap_cons]
  simp only [hv]

/-- The sum-combining merge function, on a state whose slot 0 holds an object that is in
no other slot, leaves in that object the sum of the values of all populated slots. -/
theorem Merge_sumMerge (s : TThreadedObject Int) (h : Heap Int) (a : Addr)
    (rest : List SharedPtr) (v : Int) (hm : s.fIsMerged = false)
    (hs : s.fObjPointers = some a :: rest) (hrest : some a ∉ rest) (hv : h[a]? = some v) :
    Merge sumMerge s h =
      some ⟨some a, { s with fIsMerged := true },
        h.set a ((slotValues s.fObjPointers h).sum), [(some a, s.fObjPointers)]⟩ := by
  have ht : s.fObjPointers[0]? = some (some a) := by
    rw [hs]
    simp
  have hobj : objTList a s.fObjPointers = objTList a rest := by
    rw [hs]
    unfold objTList
    rw [List.filterMap_cons]
    simp
  have hres : sumMerge (some a) s.fObjPointers h =
      (s.fObjPointers, h.set a ((slotValues s.fObjPointers h).sum)) := by
    show (s.fObjPointers, callMerge (fun v l => v + l.sum) a (objTList a s.fObjPointers) h) = _
    unfold callMerge
    rw [hv, hobj, objTList_values a rest h hrest]
    dsimp only
    rw [hs, slotValues_cons_some a rest h v hv, List.sum_cons]
  have hp : (sumMerge (some a) s.fObjPointers h).1[0]? = some (some a) := by
    rw [hres]
    exact ht
  rw [Merge_unmerged sumMerge s h (some a) (some a) hm ht hp, hres]

theorem scenario_slotValues (fgMaxSlots : Nat) (h0 : Heap Int) (vals : List Int) :
    slotValues ((List.range vals.length).map (fun i => some (h0.length + i)) ++
      List.replicate (fgMaxSlots - vals.length) (none : SharedPtr)) (h0 ++ vals) = vals := by
  unfold slotValues
  rw [List.filterMap_append, List.filterMap_map]
  have h1 : List.filterMap (fun p : SharedPtr =>
      match p with
      | some a => (h0 ++ vals)[a]?
      | none => none) (List.replicate (fgMaxSlots - vals.length) none) = [] := by
    rw [List.filterMap_eq_nil_iff]
    intro p hp
    rw [List.mem_replicate] at hp
    rw [hp.2]
  rw [h1, List.append_nil]
  have h2 : ((fun p : SharedPtr =>
      match p with
      | some a => (h0 ++ vals)[a]?
      | none => none) ∘ fun i => some (h0.length + i)) = fun i => vals[i]? := by
    funext i
    show (h0 ++ vals)[h0.length + i]? = vals[i]?
    rw [List.getElem?_append_right (by omega), Nat.add_sub_cancel_left]
  rw [h2]
  exact filterMap_getElem?_range vals

theorem scenario_slot (n0 C k j : Nat) (a : Addr)
    (hj : ((List.range k).map (fun i => some (n0 + i)) ++
        List.replicate (C - k) (none : SharedPtr))[j]? = some (some a)) :
    j < k ∧ a = n0 + j := by
  by_cases hjk : j < k
  · rw [List.getElem?_append_left (by simpa using hjk), List.getElem?_map,
      List.getElem?_range hjk] at hj
    simp only [Option.map_some', Option.some.injEq] at hj
    exact ⟨hjk, hj.symm⟩
  · rw [List.getElem?_append_right (by simpa using Nat.le_of_not_lt hjk),
      List.getElem?_replicate] at hj
    split at hj <;> simp at hj

theorem scenario_slot_lt (n0 C k j : Nat) (hjk : j < k) :
    ((List.range k).map (fun i => some (n0 + i)) ++
        List.replicate (C - k) (none : SharedPtr))[j]? = some (some (n0 + j)) := by
  rw [List.getElem?_append_left (by simpa using hjk), List.getElem?_map,
    List.getElem?_range hjk]
  rfl

theorem eq_cons_tail_of_getElem?_zero (l : List SharedPtr) (x : SharedPtr)
    (hl : l[0]? = some x) : l = x :: l.tail := by
  cases l with
  | nil => simp at hl
  | cons y ys =>
    simp only [List.getElem?_cons_zero, Option.some.injEq] at hl
    rw [hl]
    rfl

theorem scenario_head_not_in_tail (n0 C k : Nat) :
    some n0 ∉ ((List.range k).map (fun i => some (n0 + i)) ++
        List.replicate (C - k) (none : SharedPtr)).tail := by
  intro hmem
  rcases List.mem_iff_getElem?.1 hmem with ⟨j, hj⟩
  rw [List.getElem?_tail] at hj
  have h2 : n0 = n0 + (j + 1) := (scenario_slot n0 C k (j + 1) n0 hj).2
  omega

theorem workerProgram_count (r : Nat) (t : ThreadId) :
    (workerProgram r t).count (WorkerStep.add t) = r := by
  unfold workerProgram
  rw [List.count_cons, List.count_replicate]
  simp

/-- The scenario for any set of worker threads and any interleaving of their steps. -/
theorem scenario_final (fgMaxSlots : Nat) (h0 : Heap Int) (threads : List ThreadId)
    (c : ThreadId → Int) (r : Nat) (sched : List WorkerStep)
    (hC : fgMaxSlots < UNSIGNED_RANGE) (hnd : threads.Nodup) (hk : 1 ≤ threads.length)
    (hcap : threads.length ≤ fgMaxSlots) (hs : IsInterleaving r threads sched) :
    ∃ w, runWorkers c sched ⟨construct fgMaxSlots 0, h0, []⟩ = some w ∧
      (∀ t ∈ threads, ∃ (i : Nat) (a : Addr),
        w.pool.fThrIDSlotMap.lookup t = some i ∧ w.pool.fObjPointers[i]? = some (some a) ∧
        w.held.lookup t = some (some a) ∧ w.heap[a]? = some ((r : Int) * c t)) ∧
      ∃ (o : MergeOutcome SharedPtr Int) (a0 : Addr),
        Merge sumMerge w.pool w.heap = some o ∧ o.ret = some a0 ∧
        w.pool.fObjPointers[0]? = some (some a0) ∧
        o.self.fObjPointers[0]? = some (some a0) ∧
        o.heap[a0]? = some ((threads.map (fun t => (r : Int) * c t)).sum) := by
  have hp : IsInterleavingPrefix r threads sched := by
    intro t
    rw [hs t]
  rcases scenario_run fgMaxSlots c h0 r threads hcap hC sched hp with
    ⟨w, hrun, hinv, hndo, hsub⟩
  have hmem : ∀ t ∈ threads, t ∈ fetchOrder sched := by
    intro t ht
    rw [mem_fetchOrder]
    have h1 : WorkerStep.fetch t ∈ sched.filter (fun e => e.thread = t) := by
      rw [hs t, if_pos ht]
      exact List.mem_cons_self _ _
    exact (List.mem_filter.1 h1).1
  have hcount : ∀ t ∈ threads, addCount sched t = r := by
    intro t ht
    unfold addCount
    have h1 : (sched.filter (fun e => e.thread = t)).count (WorkerStep.add t) =
        sched.count (WorkerStep.add t) := List.count_filter (by simp [WorkerStep.thread])
    rw [← h1, hs t, if_pos ht]
    exact workerProgram_count r t
  have hperm : (fetchOrder sched).Perm threads :=
    (List.perm_ext_iff_of_nodup hndo hnd).2 (fun a => ⟨fun h => hsub h, hmem a⟩)
  have hvals : (fetchOrder sched).map (fun t => (addCount sched t : Int) * c t) =
      (fetchOrder sched).map (fun t => (r : Int) * c t) := by
    apply List.map_congr_left
    intro t ht
    rw [hcount t (hsub ht)]
  have hheap : w.heap = h0 ++ (fetchOrder sched).map (fun t => (r : Int) * c t) := by
    rw [hinv.heap, hvals]
  have hslots : w.pool.fObjPointers =
      (List.range ((fetchOrder sched).map (fun t => (r : Int) * c t)).length).map
          (fun i => some (h0.length + i)) ++
        List.replicate
          (fgMaxSlots - ((fetchOrder sched).map (fun t => (r : Int) * c t)).length) none := by
    rw [List.length_map]
    exact hinv.slots
  have hklen : 1 ≤ (fetchOrder sched).length := by
    rw [hperm.length_eq]
    exact hk
  refine ⟨w, hrun, ?_, ?_⟩
  · intro t ht
    rcases List.mem_iff_getElem?.1 (hmem t ht) with ⟨i, hi⟩
    have hik : i < (fetchOrder sched).length := by
      rcases List.getElem?_eq_some.1 hi with ⟨hlt, _⟩
      exact hlt
    refine ⟨i, h0.length + i, (hinv.look i t hi).1, ?_, (hinv.look i t hi).2, ?_⟩
    · rw [hinv.slots]
      exact scenario_slot_lt h0.length fgMaxSlots _ i hik
    · rw [hheap, List.getElem?_append_right (by omega), Nat.add_sub_cancel_left,
        List.getElem?_map, hi]
      rfl
  · have h0slot : w.pool.fObjPointers[0]? = some (some (h0.length + 0)) := by
      rw [hinv.slots]
      exact scenario_slot_lt h0.length fgMaxSlots _ 0 hklen
    have hcons := eq_cons_tail_of_getElem?_zero _ _ h0slot
    have hnot : some (h0.length + 0) ∉ w.pool.fObjPointers.tail := by
      rw [hinv.slots]
      exact scenario_head_not_in_tail h0.length fgMaxSlots _
    have hlt0 : h0.length + 0 < w.heap.length := by
      rw [hheap, List.length_append, List.length_map]
      omega
    have hv : w.heap[h0.length + 0]? = some (w.heap[h0.length + 0]) :=
      List.getElem?_eq_getElem hlt0
    have hmerge := Merge_sumMerge w.pool w.heap (h0.length + 0) _ _ hinv.unmerged hcons hnot hv
    refine ⟨_, h0.length + 0, hmerge, rfl, h0slot, h0slot, ?_⟩
    show (w.heap.set (h0.length + 0) (slotValues w.pool.fObjPointers w.heap).sum)[
      h0.length + 0]? = _
    rw [List.getElem?_set_self hlt0]
    congr 1
    rw [hslots, hheap, scenario_slotValues]
    exact (hperm.map _).sum_eq

/-! ### Calls with the default merge function -/

theorem MergeTObjects_fst (tMerge : T → List T → T) (target : SharedPtr)
    (objs : List SharedPtr) (h : Heap T) : (MergeTObjects tMerge target objs h).1 = objs := by
  rcases target with _ | t <;> rfl

theorem MergeTObjects_length (tMerge : T → List T → T) (target : SharedPtr)
    (objs : List SharedPtr) (h : Heap T) :
    (MergeTObjects tMerge target objs h).2.length = h.length := by
  rcases target with _ | t
  · rfl
  · exact callMerge_length tMerge t _ h

theorem Merge_cases (f : MergeFunctionType T) (s : TThreadedObject T) (h : Heap T)
    (o : MergeOutcome SharedPtr T) (ho : Merge f s h = some o) :
    (s.fIsMerged = true ∧ s.fObjPointers[0]? = some o.ret ∧ o = ⟨o.ret, s, h, []⟩) ∨
    (s.fIsMerged = false ∧ ∃ target, s.fObjPointers[0]? = some target ∧
      (f target s.fObjPointers h).1[0]? = some o.ret ∧
      o = ⟨o.ret, { s with fObjPointers := (f target s.fObjPointers h).1, fIsMerged := true },
        (f target s.fObjPointers h).2, [(target, s.fObjPointers)]⟩) := by
  rcases hm : s.fIsMerged with _ | _
  · right
    refine ⟨rfl, ?_⟩
    rcases ht : s.fObjPointers[0]? with _ | target
    · unfold Merge at ho
      rw [if_neg (by simp [hm]), ht] at ho
      simp at ho
    · rcases hp : (f target s.fObjPointers h).1[0]? with _ | p
      · unfold Merge at ho
        rw [if_neg (by simp [hm]), ht] at ho
        dsimp only at ho
        rw [hp] at ho
        simp at ho
      · rw [Merge_unmerged f s h target p hm ht hp] at ho
        simp only [Option.some.injEq] at ho
        rw [← ho]
        exact ⟨target, rfl, hp, rfl⟩
  · left
    refine ⟨rfl, ?_⟩
    rcases ht : s.fObjPointers[0]? with _ | p
    · unfold Merge at ho
      rw [if_pos hm, ht] at ho
      simp at ho
    · rw [Merge_merged f s h p hm ht] at ho
      simp only [Option.some.injEq] at ho
      rw [← ho]
      exact ⟨rfl, rfl⟩

theorem SnapshotMerge_cases (f : MergeFunctionType T) (s : TThreadedObject T) (h : Heap T)
    (o : MergeOutcome Addr T) (ho : SnapshotMerge f s h = some o) :
    (s.fIsMerged = true ∧ ∃ (a : Addr) (v : T), s.fObjPointers[0]? = some (some a) ∧
      h[a]? = some v ∧ o = ⟨h.length, s, h ++ [v], []⟩) ∨
    (s.fIsMerged = false ∧
      o = ⟨h.length,
        { s with fObjPointers := (f (some h.length) s.fObjPointers (h ++ [s.fModel])).1 },
        (f (some h.length) s.fObjPointers (h ++ [s.fModel])).2,
        [(some h.length, s.fObjPointers)]⟩) := by
  rcases Bool.eq_false_or_eq_true s.fIsMerged with hm | hm
  · left
    refine ⟨hm, ?_⟩
    rcases ht : s.fObjPointers[0]? with _ | p
    · unfold SnapshotMerge at ho
      rw [if_pos hm, ht] at ho
      simp at ho
    · rcases p with _ | a
      · rw [SnapshotMerge_merged_null f s h hm ht] at ho
        simp at ho
      · rcases hv : h[a]? with _ | v
        · unfold SnapshotMerge at ho
          rw [if_pos hm, ht] at ho
          dsimp only at ho
          rw [hv] at ho
          simp at ho
        · rw [SnapshotMerge_merged f s h a v hm ht hv] at ho
          simp only [Option.some.injEq] at ho
          exact ⟨a, v, rfl, hv, ho.symm⟩
  · right
    rw [SnapshotMerge_unmerged f s h hm] at ho
    simp only [Option.some.injEq] at ho
    exact ⟨hm, ho.symm⟩

theorem step_merge (f : MergeFunctionType T) (s s1 : TThreadedObject T) (h h1 : Heap T)
    (hstep : step (Call.merge f) s h = some (s1, h1)) :
    ∃ o, Merge f s h = some o ∧ o.self = s1 ∧ o.heap = h1 := by
  simp only [step] at hstep
  rcases ho : Merge f s h with _ | o
  · rw [ho] at hstep
    simp at hstep
  · rw [ho] at hstep
    simp only [Option.map_some', Option.some.injEq, Prod.mk.injEq] at hstep
    exact ⟨o, rfl, hstep.1, hstep.2⟩

theorem step_snapshotMerge (f : MergeFunctionType T) (s s1 : TThreadedObject T)
    (h h1 : Heap T) (hstep : step (Call.snapshotMerge f) s h = some (s1, h1)) :
    ∃ o, SnapshotMerge f s h = some o ∧ o.self = s1 ∧ o.heap = h1 := by
  simp only [step] at hstep
  rcases ho : SnapshotMerge f s h with _ | o
  · rw [ho] at hstep
    simp at hstep
  · rw [ho] at hstep
    simp only [Option.map_some', Option.some.injEq, Prod.mk.injEq] at hstep
    exact ⟨o, rfl, hstep.1, hstep.2⟩

theorem GetAtSlot_slots (s : TThreadedObject T) (h : Heap T) (i : Nat) :
    ((GetAtSlot s h i).self.fObjPointers = s.fObjPointers ∧ (GetAtSlot s h i).heap = h) ∨
    (s.fObjPointers[i]? = some none ∧
      (GetAtSlot s h i).self.fObjPointers = s.fObjPointers.set i (some h.length) ∧
      (GetAtSlot s h i).heap = h ++ [s.fModel]) := by
  by_cases hi : s.fObjPointers.length ≤ i
  · rw [GetAtSlot_out_of_range s h i hi]
    exact Or.inl ⟨rfl, rfl⟩
  · rcases hsi : s.fObjPointers[i]? with _ | p
    · rw [List.getElem?_eq_none_iff] at hsi
      omega
    · rcases p with _ | a
      · rw [GetAtSlot_empty s h i hsi]
        exact Or.inr ⟨rfl, rfl, rfl⟩
      · rw [GetAtSlot_populated s h i a hsi]
        exact Or.inl ⟨rfl, rfl⟩

/-- The effect of one call with the default merge function on the slot array: the array
is unchanged and no object is removed from the store, or the call creates, in a slot that
was empty, the new object at the end of the store, a copy of the model. -/
theorem step_slots (tMerge : T → List T → T) (c : Call T) (hc : c.UsesDefault tMerge)
    (s s1 : TThreadedObject T) (h h1 : Heap T) (hstep : step c s h = some (s1, h1)) :
    (s1.fObjPointers = s.fObjPointers ∧ h.length ≤ h1.length) ∨
    (∃ i, s.fObjPointers[i]? = some none ∧
      s1.fObjPointers = s.fObjPointers.set i (some h.length) ∧ h1 = h ++ [s.fModel]) := by
  cases c with
  | get t =>
    simp only [step, Option.some.injEq, Prod.mk.injEq] at hstep
    rw [← hstep.1, ← hstep.2]
    have hg := GetAtSlot_slots (GetThisSlotNumber s t).2 h (GetThisSlotNumber s t).1
    rw [GetThisSlotNumber_fObjPointers, (GetThisSlotNumber_other s t).1] at hg
    rcases hg with ⟨e1, e2⟩ | ⟨e0, e1, e2⟩
    · left
      refine ⟨e1, ?_⟩
      show h.length ≤ (GetAtSlot _ h _).heap.length
      rw [e2]
    · exact Or.inr ⟨_, e0, e1, e2⟩
  | getAtSlot i =>
    simp only [step, Option.some.injEq, Prod.mk.injEq] at hstep
    rw [← hstep.1, ← hstep.2]
    rcases GetAtSlot_slots s h i with ⟨e1, e2⟩ | ⟨e0, e1, e2⟩
    · left
      refine ⟨e1, ?_⟩
      rw [e2]
    · exact Or.inr ⟨_, e0, e1, e2⟩
  | getAtSlotUnchecked i =>
    simp only [step] at hstep
    unfold GetAtSlotUnchecked at hstep
    split at hstep
    · simp only [Option.map_some', Option.some.injEq, Prod.mk.injEq] at hstep
      rw [← hstep.1, ← hstep.2]
      exact Or.inl ⟨rfl, Nat.le_refl _⟩
    · simp at hstep
  | merge f =>
    rcases step_merge f s s1 h h1 hstep with ⟨o, ho, e1, e2⟩
    have hf : f = MergeTObjects tMerge := hc
    left
    rcases Merge_cases f s h o ho with ⟨_, _, heq⟩ | ⟨_, target, _, _, heq⟩
    · rw [← e1, ← e2, heq]
      exact ⟨rfl, Nat.le_refl _⟩
    · rw [← e1, ← e2, heq, hf]
      exact ⟨MergeTObjects_fst tMerge _ _ _, Nat.le_of_eq (MergeTObjects_length tMerge _ _ _).symm⟩
  | snapshotMerge f =>
    rcases step_snapshotMerge f s s1 h h1 hstep with ⟨o, ho, e1, e2⟩
    have hf : f = MergeTObjects tMerge := hc
    left
    rcases SnapshotMerge_cases f s h o ho with ⟨_, a, v, _, _, heq⟩ | ⟨_, heq⟩
    · rw [← e1, ← e2, heq]
      exact ⟨rfl, by simp⟩
    · rw [← e1, ← e2, heq, hf]
      refine ⟨MergeTObjects_fst tMerge _ _ _, ?_⟩
      show h.length ≤ (MergeTObjects tMerge _ _ _).2.length
      rw [MergeTObjects_length]
      simp
  | write a v =>
    simp only [step, Option.some.injEq, Prod.mk.injEq] at hstep
    rw [← hstep.1, ← hstep.2]
    exact Or.inl ⟨rfl, by simp⟩

/-- A populated slot keeps its object over every call with the default merge function. -/
theorem step_keeps_slot (tMerge : T → List T → T) (c : Call T) (hc : c.UsesDefault tMerge)
    (s s1 : TThreadedObject T) (h h1 : Heap T) (hstep : step c s h = some (s1, h1))
    (j : Nat) (a : Addr) (hj : s.fObjPointers[j]? = some (some a)) :
    s1.fObjPointers[j]? = some (some a) := by
  rcases step_slots tMerge c hc s s1 h h1 hstep with ⟨e1, _⟩ | ⟨i, e0, e1, _⟩
  · rw [e1]
    exact hj
  · rw [e1]
    have hij : i ≠ j := by
      intro heq
      rw [heq, hj] at e0
      simp at e0
    rw [List.getElem?_set_ne hij]
    exact hj

theorem run_keeps_slot (tMerge : T → List T → T) (cs : List (Call T))
    (hcs : ∀ c ∈ cs, c.UsesDefault tMerge) (s s1 : TThreadedObject T) (h h1 : Heap T)
    (hrun : run cs s h = some (s1, h1)) (j : Nat) (a : Addr)
    (hj : s.fObjPointers[j]? = some (some a)) : s1.fObjPointers[j]? = some (some a) := by
  induction cs generalizing s h with
  | nil =>
    simp only [run, Option.some.injEq, Prod.mk.injEq] at hrun
    rw [← hrun.1]
    exact hj
  | cons c cs ih =>
    unfold run at hrun
    rcases hst : step c s h with _ | r
    · rw [hst] at hrun
      simp at hrun
    · rw [hst] at hrun
      exact ih (fun c hc => hcs c (List.mem_cons_of_mem _ hc)) r.1 r.2 hrun
        (step_keeps_slot tMerge c (hcs c (List.mem_cons_self _ _)) s r.1 h r.2 hst j a hj)

theorem objTList_eq_filter (t : Addr) (objs : List SharedPtr) :
    objTList t objs = (objs.filterMap id).filter (fun a => a ≠ t) := by
  induction objs with
  | nil => rfl
  | cons p ps ih =>
    unfold objTList at ih ⊢
    rcases p with _ | a
    · simp only [List.filterMap_cons, id]
      exact ih
    · by_cases hat : a = t
      · simp only [List.filterMap_cons, id, hat, ne_eq, not_true_eq_false, ite_false,
          List.filter_cons, decide_False]
        simpa using ih
      · simp only [List.filterMap_cons, id, ne_eq, hat, not_false_eq_true, ite_true,
          List.filter_cons, decide_True]
        rw [ih]

theorem mem_objTList (t : Addr) (objs : List SharedPtr) (a : Addr) :
    a ∈ objTList t objs ↔ some a ∈ objs ∧ a ≠ t := by
  rw [objTList_eq_filter, List.mem_filter, List.mem_filterMap]
  constructor
  · rintro ⟨⟨p, hp, hid⟩, hne⟩
    simp only [id] at hid
    rw [hid] at hp
    exact ⟨hp, by simpa using hne⟩
  · rintro ⟨hp, hne⟩
    exact ⟨⟨some a, hp, rfl⟩, by simpa using hne⟩

/-! ### The merged flag -/

theorem Merge_sets_flag (f : MergeFunctionType T) (s : TThreadedObject T) (h : Heap T)
    (o : MergeOutcome SharedPtr T) (ho : Merge f s h = some o) : o.self.fIsMerged = true := by
  rcases Merge_cases f s h o ho with ⟨hm, _, heq⟩ | ⟨_, target, _, _, heq⟩
  · rw [heq]
    exact hm
  · rw [heq]

theorem step_flag (c : Call T) (s s1 : TThreadedObject T) (h h1 : Heap T)
    (hstep : step c s h = some (s1, h1)) : s1.fIsMerged = (s.fIsMerged || c.isMerge) := by
  cases c with
  | get t =>
    simp only [step, Option.some.injEq, Prod.mk.injEq] at hstep
    rw [← hstep.1, (Get_keeps s h t).2.2.2.2.2]
    simp [Call.isMerge]
  | getAtSlot i =>
    simp only [step, Option.some.injEq, Prod.mk.injEq] at hstep
    rw [← hstep.1, (GetAtSlot_registry s h i).2.2.1]
    simp [Call.isMerge]
  | getAtSlotUnchecked i =>
    simp only [step] at hstep
    unfold GetAtSlotUnchecked at hstep
    split at hstep
    · simp only [Option.map_some', Option.some.injEq, Prod.mk.injEq] at hstep
      rw [← hstep.1]
      simp [Call.isMerge]
    · simp at hstep
  | merge f =>
    rcases step_merge f s s1 h h1 hstep with ⟨o, ho, e1, _⟩
    rw [← e1, Merge_sets_flag f s h o ho]
    simp [Call.isMerge]
  | snapshotMerge f =>
    rcases step_snapshotMerge f s s1 h h1 hstep with ⟨o, ho, e1, _⟩
    rw [← e1, (SnapshotMerge_registry f s h o ho).2.2.2]
    simp [Call.isMerge]
  | write a v =>
    simp only [step, Option.some.injEq, Prod.mk.injEq] at hstep
    rw [← hstep.1]
    simp [Call.isMerge]

theorem run_flag (cs : List (Call T)) (s s1 : TThreadedObject T) (h h1 : Heap T)
    (hrun : run cs s h = some (s1, h1)) :
    s1.fIsMerged = (s.fIsMerged || cs.any Call.isMerge) := by
  induction cs generalizing s h with
  | nil =>
    simp only [run, Option.some.injEq, Prod.mk.injEq] at hrun
    rw [← hrun.1]
    simp
  | cons c cs ih =>
    unfold run at hrun
    rcases hst : step c s h with _ | r
    · rw [hst] at hrun
      simp at hrun
    · rw [hst] at hrun
      rw [ih r.1 r.2 hrun, step_flag c s r.1 h r.2 hst, List.any_cons, Bool.or_assoc]

theorem any_isMerge_iff (cs : List (Call T)) :
    cs.any Call.isMerge = true ↔ ∃ f, Call.merge f ∈ cs := by
  rw [List.any_eq_true]
  constructor
  · rintro ⟨c, hc, hm⟩
    cases c with
    | merge f => exact ⟨f, hc⟩
    | get t => simp [Call.isMerge] at hm
    | getAtSlot i => simp [Call.isMerge] at hm
    | getAtSlotUnchecked i => simp [Call.isMerge] at hm
    | snapshotMerge f => simp [Call.isMerge] at hm
    | write a v => simp [Call.isMerge] at hm
  · rintro ⟨f, hf⟩
    exact ⟨_, hf, rfl⟩

/-- In a state whose merged flag is set, every call keeps the flag, the size of the slot
array and every populated slot, whatever merge function it is given. -/
theorem step_merged (c : Call T) (s s1 : TThreadedObject T) (h h1 : Heap T)
    (hm : s.fIsMerged = true) (hstep : step c s h = some (s1, h1)) :
    s1.fIsMerged = true ∧ s1.fObjPointers.length = s.fObjPointers.length ∧
    ∀ (j : Nat) (a : Addr), s.fObjPointers[j]? = some (some a) →
      s1.fObjPointers[j]? = some (some a) := by
  have hflag : s1.fIsMerged = true := by
    rw [step_flag c s s1 h h1 hstep, hm]
    rfl
  refine ⟨hflag, ?_⟩
  cases c with
  | get t =>
    simp only [step, Option.some.injEq, Prod.mk.injEq] at hstep
    rw [← hstep.1]
    exact ⟨(Get_keeps s h t).1, (Get_keeps s h t).2.2.1⟩
  | getAtSlot i =>
    simp only [step, Option.some.injEq, Prod.mk.injEq] at hstep
    rw [← hstep.1]
    exact ⟨GetAtSlot_length s h i, fun j a hj => GetAtSlot_keeps s h i j a hj⟩
  | getAtSlotUnchecked i =>
    simp only [step] at hstep
    unfold GetAtSlotUnchecked at hstep
    split at hstep
    · simp only [Option.map_some', Option.some.injEq, Prod.mk.injEq] at hstep
      rw [← hstep.1]
      exact ⟨rfl, fun _ _ hj => hj⟩
    · simp at hstep
  | merge f =>
    rcases step_merge f s s1 h h1 hstep with ⟨o, ho, e1, _⟩
    rcases Merge_cases f s h o ho with ⟨_, _, heq⟩ | ⟨hf, _⟩
    · rw [← e1, heq]
      exact ⟨rfl, fun _ _ hj => hj⟩
    · rw [hm] at hf
      simp at hf
  | snapshotMerge f =>
    rcases step_snapshotMerge f s s1 h h1 hstep with ⟨o, ho, e1, _⟩
    rcases SnapshotMerge_cases f s h o ho with ⟨_, a, v, _, _, heq⟩ | ⟨hf, _⟩
    · rw [← e1, heq]
      exact ⟨rfl, fun _ _ hj => hj⟩
    · rw [hm] at hf
      simp at hf
  | write a v =>
    simp only [step, Option.some.injEq, Prod.mk.injEq] at hstep
    rw [← hstep.1]
    exact ⟨rfl, fun _ _ hj => hj⟩

theorem run_merged (cs : List (Call T)) (s s1 : TThreadedObject T) (h h1 : Heap T)
    (hm : s.fIsMerged = true) (hrun : run cs s h = some (s1, h1)) :
    s1.fIsMerged = true ∧ s1.fObjPointers.length = s.fObjPointers.length ∧
    ∀ (j : Nat) (a : Addr), s.fObjPointers[j]? = some (some a) →
      s1.fObjPointers[j]? = some (some a) := by
  induction cs generalizing s h with
  | nil =>
    simp only [run, Option.some.injEq, Prod.mk.injEq] at hrun
    rw [← hrun.1]
    exact ⟨hm, rfl, fun _ _ hj => hj⟩
  | cons c cs ih =>
    unfold run at hrun
    rcases hst : step c s h with _ | r
    · rw [hst] at hrun
      simp at hrun
    · rw [hst] at hrun
      have h1s := step_merged c s r.1 h r.2 hm hst
      have h2s := ih r.1 r.2 h1s.1 hrun
      exact ⟨h2s.1, h2s.2.1.trans h1s.2.1, fun j a hj => h2s.2.2 j a (h1s.2.2 j a hj)⟩

/-- Over calls with the default merge function, a slot that was empty holds, if
anything, an object created after the calls began. -/
theorem run_created_later (tMerge : T → List T → T) (cs : List (Call T))
    (hcs : ∀ c ∈ cs, c.UsesDefault tMerge) (s s1 : TThreadedObject T) (h h1 : Heap T)
    (hrun : run cs s h = some (s1, h1)) (j : Nat) (hj : s.fObjPointers[j]? = some none)
    (a : Nat) (ha : s1.fObjPointers[j]? = some (some a)) : h.length ≤ a := by
  induction cs generalizing s h with
  | nil =>
    simp only [run, Option.some.injEq, Prod.mk.injEq] at hrun
    rw [← hrun.1, hj] at ha
    simp at ha
  | cons c cs ih =>
    unfold run at hrun
    rcases hst : step c s h with _ | r
    · rw [hst] at hrun
      simp at hrun
    · rw [hst] at hrun
      have hcs1 : ∀ c ∈ cs, c.UsesDefault tMerge :=
        fun c hc => hcs c (List.mem_cons_of_mem _ hc)
      rcases step_slots tMerge c (hcs c (List.mem_cons_self _ _)) s r.1 h r.2 hst with
        ⟨e1, e2⟩ | ⟨i, _, e1, e2⟩
      · have := ih hcs1 r.1 r.2 hrun (by rw [e1]; exact hj)
        omega
      · by_cases hij : i = j
        · have hlt : j < s.fObjPointers.length := by
            rcases List.getElem?_eq_some.1 hj with ⟨hlt, _⟩
            exact hlt
          have hnow : r.1.fObjPointers[j]? = some (some h.length) := by
            rw [e1, hij, List.getElem?_set_self hlt]
          have hkeep := run_keeps_slot tMerge cs hcs1 r.1 s1 r.2 h1 hrun j h.length hnow
          rw [hkeep] at ha
          simp only [Option.some.injEq] at ha
          exact Nat.le_of_eq ha
        · have hlen : r.2.length = h.length + 1 := by
            rw [e2]
            simp
          have := ih hcs1 r.1 r.2 hrun (by rw [e1, List.getElem?_set_ne hij]; exact hj)
          omega

/-! ### No aliasing between the slots -/

theorem SnapshotMerge_default (tMerge : T → List T → T) (s : TThreadedObject T) (h : Heap T)
    (o : MergeOutcome Addr T) (ho : SnapshotMerge (MergeTObjects tMerge) s h = some o) :
    o.ret = h.length ∧ o.self.fObjPointers = s.fObjPointers ∧
    o.heap.length = h.length + 1 := by
  rcases SnapshotMerge_cases _ s h o ho with ⟨_, a, v, _, _, heq⟩ | ⟨_, heq⟩
  · rw [heq]
    exact ⟨rfl, rfl, by simp⟩
  · rw [heq]
    refine ⟨rfl, MergeTObjects_fst tMerge _ _ _, ?_⟩
    show (MergeTObjects tMerge _ _ _).2.length = _
    rw [MergeTObjects_length]
    simp

theorem Separate_of_same_slots (n0 : Nat) (s s1 : TThreadedObject T) (h h1 : Heap T)
    (snaps : List Addr) (hinv : Separate n0 s h snaps)
    (hs : s1.fObjPointers = s.fObjPointers) (hh : h.length ≤ h1.length) :
    Separate n0 s1 h1 snaps := by
  refine ⟨Nat.le_trans hinv.grown hh, ?_, ?_, ?_⟩
  · intro i a hi
    rw [hs] at hi
    have := hinv.created i a hi
    exact ⟨this.1, Nat.lt_of_lt_of_le this.2 hh⟩
  · intro i j a hi hj
    rw [hs] at hi hj
    exact hinv.distinct i j a hi hj
  · intro a ha
    have := hinv.snapshots a ha
    refine ⟨Nat.lt_of_lt_of_le this.1 hh, ?_⟩
    intro j
    rw [hs]
    exact this.2 j

theorem Separate_of_created (n0 : Nat) (s s1 : TThreadedObject T) (h : Heap T) (x : T)
    (snaps : List Addr) (hinv : Separate n0 s h snaps) (i : Nat)
    (hi : s.fObjPointers[i]? = some none)
    (hs : s1.fObjPointers = s.fObjPointers.set i (some h.length)) :
    Separate n0 s1 (h ++ [x]) snaps := by
  have hlt : i < s.fObjPointers.length := by
    rcases List.getElem?_eq_some.1 hi with ⟨hlt, _⟩
    exact hlt
  have hlen : (h ++ [x]).length = h.length + 1 := by simp
  have hget : ∀ (j : Nat) (a : Nat), s1.fObjPointers[j]? = some (some a) →
      (j = i ∧ a = h.length) ∨ (j ≠ i ∧ s.fObjPointers[j]? = some (some a)) := by
    intro j a hj
    rw [hs] at hj
    by_cases hji : j = i
    · rw [hji, List.getElem?_set_self hlt] at hj
      simp only [Option.some.injEq] at hj
      exact Or.inl ⟨hji, hj.symm⟩
    · rw [List.getElem?_set_ne (Ne.symm hji)] at hj
      exact Or.inr ⟨hji, hj⟩
  refine ⟨by rw [hlen]; exact Nat.le_succ_of_le hinv.grown, ?_, ?_, ?_⟩
  · intro j a hj
    rw [hlen]
    rcases hget j a hj with ⟨_, ha⟩ | ⟨_, hold⟩
    · rw [ha]
      exact ⟨hinv.grown, Nat.lt_succ_self _⟩
    · have := hinv.created j a hold
      exact ⟨this.1, Nat.lt_succ_of_lt this.2⟩
  · intro j k a hj hk
    rcases hget j a hj with ⟨hji, ha⟩ | ⟨_, hjold⟩
    · rcases hget k a hk with ⟨hki, _⟩ | ⟨_, hkold⟩
      · rw [hji, hki]
      · have := (hinv.created k a hkold).2
        rw [ha] at this
        exact absurd this (Nat.lt_irrefl _)
    · rcases hget k a hk with ⟨_, ha⟩ | ⟨_, hkold⟩
      · have := (hinv.created j a hjold).2
        rw [ha] at this
        exact absurd this (Nat.lt_irrefl _)
      · exact hinv.distinct j k a hjold hkold
  · intro a ha
    have hsn := hinv.snapshots a ha
    rw [hlen]
    refine ⟨Nat.lt_succ_of_lt hsn.1, ?_⟩
    intro j hj
    rcases hget j a hj with ⟨_, hal⟩ | ⟨_, hold⟩
    · rw [hal] at hsn
      exact Nat.lt_irrefl _ hsn.1
    · exact hsn.2 j hold

theorem snapshotOf_eq_nil (c : Call T) (s : TThreadedObject T) (h : Heap T)
    (hc : ∀ f, c ≠ Call.snapshotMerge f) : snapshotOf c s h = [] := by
  cases c with
  | snapshotMerge f => exact absurd rfl (hc f)
  | get t => rfl
  | getAtSlot i => rfl
  | getAtSlotUnchecked i => rfl
  | merge f => rfl
  | write a v => rfl

theorem step_Separate (tMerge : T → List T → T) (c : Call T) (hc : c.UsesDefault tMerge)
    (n0 : Nat) (s s1 : TThreadedObject T) (h h1 : Heap T) (snaps : List Addr)
    (hinv : Separate n0 s h snaps) (hstep : step c s h = some (s1, h1)) :
    Separate n0 s1 h1 (snaps ++ snapshotOf c s h) := by
  by_cases hsn : ∃ f, c = Call.snapshotMerge f
  · rcases hsn with ⟨f, rfl⟩
    have hf : f = MergeTObjects tMerge := hc
    rcases step_snapshotMerge f s s1 h h1 hstep with ⟨o, ho, e1, e2⟩
    have hd := SnapshotMerge_default tMerge s h o (by rw [← hf]; exact ho)
    have hsame : s1.fObjPointers = s.fObjPointers := by
      rw [← e1]
      exact hd.2.1
    have hlen : h1.length = h.length + 1 := by
      rw [← e2]
      exact hd.2.2
    have hbase := Separate_of_same_slots n0 s s1 h h1 snaps hinv hsame (by omega)
    have hsnap : snapshotOf (Call.snapshotMerge f) s h = [h.length] := by
      show (match SnapshotMerge f s h with
        | some o => [o.ret]
        | none => []) = _
      rw [ho]
      show [o.ret] = _
      rw [hd.1]
    rw [hsnap]
    refine ⟨hbase.grown, hbase.created, hbase.distinct, ?_⟩
    intro a ha
    rcases List.mem_append.1 ha with hold | hnew
    · exact hbase.snapshots a hold
    · simp only [List.mem_singleton] at hnew
      rw [hnew, hlen]
      refine ⟨Nat.lt_succ_self _, ?_⟩
      intro j hj
      rw [hsame] at hj
      exact Nat.lt_irrefl _ (hinv.created j h.length hj).2
  · have hnil : snapshotOf c s h = [] :=
      snapshotOf_eq_nil c s h (fun f hf => hsn ⟨f, hf⟩)
    rw [hnil, List.append_nil]
    rcases step_slots tMerge c hc s s1 h h1 hstep with ⟨e1, e2⟩ | ⟨i, e0, e1, e2⟩
    · exact Separate_of_same_slots n0 s s1 h h1 snaps hinv e1 e2
    · rw [e2]
      exact Separate_of_created n0 s s1 h s.fModel snaps hinv i e0 e1

theorem run_Separate (tMerge : T → List T → T) (cs : List (Call T))
    (hcs : ∀ c ∈ cs, c.UsesDefault tMerge) (n0 : Nat) (s s1 : TThreadedObject T)
    (h h1 : Heap T) (snaps : List Addr) (hinv : Separate n0 s h snaps)
    (hrun : run cs s h = some (s1, h1)) :
    Separate n0 s1 h1 (snaps ++ snapshotsOf cs s h) := by
  induction cs generalizing s h snaps with
  | nil =>
    simp only [run, Option.some.injEq, Prod.mk.injEq] at hrun
    rw [← hrun.1, ← hrun.2]
    simpa [snapshotsOf] using hinv
  | cons c cs ih =>
    unfold run at hrun
    rcases hst : step c s h with _ | r
    · rw [hst] at hrun
      simp at hrun
    · rw [hst] at hrun
      have h1s := step_Separate tMerge c (hcs c (List.mem_cons_self _ _)) n0 s r.1 h r.2
        snaps hinv hst
      have h2s := ih (fun c hc => hcs c (List.mem_cons_of_mem _ hc)) r.1 r.2 _ h1s hrun
      have hsn : snapshotsOf (c :: cs) s h = snapshotOf c s h ++ snapshotsOf cs r.1 r.2 := by
        show (match step c s h with
          | none => []
          | some r => snapshotOf c s h ++ snapshotsOf cs r.1 r.2) = _
        rw [hst]
      rw [hsn, ← List.append_assoc]
      exact h2s

theorem nodup_filterMap_id (l : List SharedPtr)
    (hd : ∀ (i j : Nat) (a : Nat), l[i]? = some (some a) → l[j]? = some (some a) → i = j) :
    (l.filterMap id).Nodup := by
  induction l with
  | nil => simp
  | cons p ps ih =>
    have hps : ∀ (i j : Nat) (a : Nat), ps[i]? = some (some a) → ps[j]? = some (some a) →
        i = j := by
      intro i j a hi hj
      have := hd (i + 1) (j + 1) a (by simpa using hi) (by simpa using hj)
      omega
    rcases p with _ | a
    · simpa using ih hps
    · rw [List.filterMap_cons]
      simp only [id]
      rw [List.nodup_cons]
      refine ⟨?_, ih hps⟩
      intro hmem
      rcases List.mem_filterMap.1 hmem with ⟨q, hq, hid⟩
      simp only [id] at hid
      rw [hid] at hq
      rcases List.mem_iff_getElem?.1 hq with ⟨j, hj⟩
      have := hd 0 (j + 1) a (by simp) (by simpa using hj)
      omega

/-- In a state without aliasing whose slot 0 holds the object `t`, the list the default
merge function builds for the target `t` consists of the objects of the populated slots
other than slot 0, each once, and does not contain `t`. -/
theorem objTList_of_distinct (t : Nat) (slots : List SharedPtr)
    (h0 : slots[0]? = some (some t))
    (hd : ∀ (i j : Nat) (a : Nat), slots[i]? = some (some a) → slots[j]? = some (some a) →
      i = j) :
    objTList t slots = slots.tail.filterMap id ∧ (objTList t slots).Nodup ∧
    t ∉ objTList t slots ∧
    ∀ (j : Nat) (a : Nat), 0 < j → slots[j]? = some (some a) →
      (objTList t slots).count a = 1 := by
  have hcons := eq_cons_tail_of_getElem?_zero slots (some t) h0
  have hnot : some t ∉ slots.tail := by
    intro hmem
    rcases List.mem_iff_getElem?.1 hmem with ⟨j, hj⟩
    rw [List.getElem?_tail] at hj
    have := hd 0 (j + 1) t h0 hj
    omega
  have htail : ∀ (i j : Nat) (a : Nat), slots.tail[i]? = some (some a) →
      slots.tail[j]? = some (some a) → i = j := by
    intro i j a hi hj
    rw [List.getElem?_tail] at hi hj
    have := hd (i + 1) (j + 1) a hi hj
    omega
  have heq : objTList t slots = slots.tail.filterMap id := by
    have h1 : objTList t slots = objTList t slots.tail := by
      conv_lhs => rw [hcons]
      unfold objTList
      rw [List.filterMap_cons]
      simp
    rw [h1, objTList_of_not_mem t _ hnot]
  have hnd : (objTList t slots).Nodup := by
    rw [heq]
    exact nodup_filterMap_id _ htail
  refine ⟨heq, hnd, fun hmem => ((mem_objTList t slots t).1 hmem).2 rfl, ?_⟩
  intro j a hj hja
  apply List.count_eq_one_of_mem hnd
  rw [mem_objTList]
  refine ⟨List.getElem?_mem hja, ?_⟩
  intro hat
  rw [hat] at hja
  have := hd 0 j t h0 hja
  omega

theorem construct_Separate (fgMaxSlots : Nat) (model : T) (h0 : Heap T) :
    Separate h0.length (construct fgMaxSlots model) h0 [] := by
  have hnone : ∀ (i : Nat) (a : Nat),
      (construct fgMaxSlots model).fObjPointers[i]? ≠ some (some a) := by
    intro i a hi
    have hmem := List.getElem?_mem hi
    simp [construct, List.mem_replicate] at hmem
  refine ⟨Nat.le_refl _, ?_, ?_, ?_⟩
  · intro i a hi
    exact absurd hi (hnone i a)
  · intro i j a hi
    exact absurd hi (hnone i a)
  · intro a ha
    simp at ha

theorem step_model (c : Call T) (s s1 : TThreadedObject T) (h h1 : Heap T)
    (hstep : step c s h = some (s1, h1)) : s1.fModel = s.fModel := by
  cases c with
  | get t =>
    simp only [step, Option.some.injEq, Prod.mk.injEq] at hstep
    rw [← hstep.1]
    exact (Get_keeps s h t).2.2.2.2.1
  | getAtSlot i =>
    simp only [step, Option.some.injEq, Prod.mk.injEq] at hstep
    rw [← hstep.1]
    exact (GetAtSlot_registry s h i).2.2.2
  | getAtSlotUnchecked i =>
    simp only [step] at hstep
    unfold GetAtSlotUnchecked at hstep
    split at hstep
    · simp only [Option.map_some', Option.some.injEq, Prod.mk.injEq] at hstep
      rw [← hstep.1]
    · simp at hstep
  | merge f =>
    rcases step_merge f s s1 h h1 hstep with ⟨o, ho, e1, _⟩
    rw [← e1]
    exact (Merge_registry f s h o ho).2.2
  | snapshotMerge f =>
    rcases step_snapshotMerge f s s1 h h1 hstep with ⟨o, ho, e1, _⟩
    rw [← e1]
    exact (SnapshotMerge_registry f s h o ho).2.2.1
  | write a v =>
    simp only [step, Option.some.injEq, Prod.mk.injEq] at hstep
    rw [← hstep.1]

theorem run_model (cs : List (Call T)) (s s1 : TThreadedObject T) (h h1 : Heap T)
    (hrun : run cs s h = some (s1, h1)) : s1.fModel = s.fModel := by
  induction cs generalizing s h with
  | nil =>
    simp only [run, Option.some.injEq, Prod.mk.injEq] at hrun
    rw [← hrun.1]
  | cons c cs ih =>
    unfold run at hrun
    rcases hst : step c s h with _ | r
    · rw [hst] at hrun
      simp at hrun
    · rw [hst] at hrun
      exact (ih r.1 r.2 hrun).trans (step_model c s r.1 h r.2 hst)

/-! ### The populated slots under `Get()` -/

theorem MapOK_mem_lt_length (m : List (ThreadId × Nat)) (hm : MapOK m) (t : ThreadId)
    (n : Nat) (hmem : (t, n) ∈ m) : n < m.length := by
  induction m with
  | nil => simp at hmem
  | cons e m ih =>
    rcases e with ⟨k, v⟩
    simp only [List.length_cons]
    rcases List.mem_cons.1 hmem with heq | htl
    · simp only [Prod.mk.injEq] at heq
      have hv : v = m.length % UNSIGNED_RANGE := hm.1
      have hle : m.length % UNSIGNED_RANGE ≤ m.length := Nat.mod_le _ _
      omega
    · have := ih hm.2.2 htl
      omega

theorem Populated_same (s s1 : TThreadedObject T) (hs : s1.fObjPointers = s.fObjPointers)
    (i : Nat) : Populated s1 i ↔ Populated s i := by
  unfold Populated
  rw [hs]

theorem not_Populated_of_none (s : TThreadedObject T) (i : Nat)
    (hi : s.fObjPointers[i]? = some none) : ¬ Populated s i := by
  rintro ⟨a, ha⟩
  rw [hi] at ha
  simp at ha

theorem slot_none_of_not_Populated (s : TThreadedObject T) (i : Nat)
    (hi : i < s.fObjPointers.length) (hp : ¬ Populated s i) :
    s.fObjPointers[i]? = some none := by
  rcases hsi : s.fObjPointers[i]? with _ | p
  · rw [List.getElem?_eq_none_iff] at hsi
    omega
  · rcases p with _ | a
    · rfl
    · exact absurd ⟨a, hsi⟩ hp

theorem Get_PrefixFilled (s : TThreadedObject T) (h : Heap T) (t : ThreadId)
    (hinv : PrefixFilled s) : PrefixFilled (Get s h t).self := by
  rcases hinv with ⟨hreg, hcap, hpop⟩
  have hkeep := Get_keeps s h t
  refine ⟨hkeep.2.2.2.1 hreg, by rw [hkeep.1]; exact hcap, ?_⟩
  rcases hl : s.fThrIDSlotMap.lookup t with _ | n
  · -- a thread that was not recorded
    have hnew := GetThisSlotNumber_new s t hl
    have hctr : s.fCurrMaxSlotIndex = s.fThrIDSlotMap.length % UNSIGNED_RANGE := hreg.2
    have hmap : (Get s h t).self.fThrIDSlotMap =
        (t, s.fCurrMaxSlotIndex) :: s.fThrIDSlotMap := by
      show (GetAtSlot _ h _).self.fThrIDSlotMap = _
      rw [(GetAtSlot_registry _ h _).1, hnew]
    have hlen : (Get s h t).self.fThrIDSlotMap.length = s.fThrIDSlotMap.length + 1 := by
      rw [hmap, List.length_cons]
    have hget : Get s h t = GetAtSlot (GetThisSlotNumber s t).2 h s.fCurrMaxSlotIndex := by
      show GetAtSlot _ h (GetThisSlotNumber s t).1 = _
      rw [hnew]
    have hslots1 : (GetThisSlotNumber s t).2.fObjPointers = s.fObjPointers :=
      GetThisSlotNumber_fObjPointers s t
    by_cases hLC : s.fThrIDSlotMap.length < s.fObjPointers.length
    · have hc : s.fCurrMaxSlotIndex = s.fThrIDSlotMap.length := by
        rw [hctr, Nat.mod_eq_of_lt (by omega)]
      have hnone : s.fObjPointers[s.fThrIDSlotMap.length]? = some none :=
        slot_none_of_not_Populated s _ hLC (fun hp => by
          have := (hpop _).1 hp
          omega)
      have hempty := GetAtSlot_empty (GetThisSlotNumber s t).2 h s.fThrIDSlotMap.length
        (by rw [hslots1]; exact hnone)
      have hslots : (Get s h t).self.fObjPointers =
          s.fObjPointers.set s.fThrIDSlotMap.length (some h.length) := by
        rw [hget, hc, hempty]
        show (GetThisSlotNumber s t).2.fObjPointers.set _ _ = _
        rw [hslots1]
      intro i
      rw [hlen, hkeep.1]
      unfold Populated
      rw [hslots]
      by_cases hi : i = s.fThrIDSlotMap.length
      · rw [hi, List.getElem?_set_self hLC]
        constructor
        · intro _
          exact ⟨Nat.lt_succ_self _, hLC⟩
        · intro _
          exact ⟨h.length, rfl⟩
      · rw [List.getElem?_set_ne (Ne.symm hi)]
        have := hpop i
        unfold Populated at this
        rw [this]
        constructor
        · rintro ⟨h1, h2⟩
          exact ⟨Nat.lt_succ_of_lt h1, h2⟩
        · rintro ⟨h1, h2⟩
          exact ⟨by omega, h2⟩
    · have hsame : (Get s h t).self.fObjPointers = s.fObjPointers := by
        rw [hget]
        by_cases hout : s.fObjPointers.length ≤ s.fCurrMaxSlotIndex
        · rw [GetAtSlot_out_of_range _ h _ (by rw [hslots1]; exact hout)]
          exact hslots1
        · have hlt : s.fCurrMaxSlotIndex < s.fThrIDSlotMap.length := by
            have hle : s.fThrIDSlotMap.length % UNSIGNED_RANGE ≤ s.fThrIDSlotMap.length :=
              Nat.mod_le _ _
            omega
          rcases (hpop s.fCurrMaxSlotIndex).2 ⟨hlt, by omega⟩ with ⟨a, ha⟩
          rw [GetAtSlot_populated _ h _ a (by rw [hslots1]; exact ha)]
          exact hslots1
      intro i
      rw [Populated_same _ _ hsame i, hlen, hsame, hpop i]
      constructor
      · rintro ⟨h1, h2⟩
        exact ⟨Nat.lt_succ_of_lt h1, h2⟩
      · rintro ⟨_, h2⟩
        exact ⟨by omega, h2⟩
  · -- a thread that is recorded
    have hfound := GetThisSlotNumber_found s t n hl
    have hn : n < s.fThrIDSlotMap.length :=
      MapOK_mem_lt_length _ hreg.1 t n (lookup_mem _ t n hl)
    have hget : Get s h t = GetAtSlot s h n := by
      show GetAtSlot (GetThisSlotNumber s t).2 h (GetThisSlotNumber s t).1 = _
      rw [hfound]
    have hsame : (Get s h t).self.fObjPointers = s.fObjPointers := by
      rw [hget]
      by_cases hout : s.fObjPointers.length ≤ n
      · rw [GetAtSlot_out_of_range s h n hout]
      · rcases (hpop n).2 ⟨hn, by omega⟩ with ⟨a, ha⟩
        rw [GetAtSlot_populated s h n a ha]
    have hmap : (Get s h t).self.fThrIDSlotMap = s.fThrIDSlotMap := by
      rw [hget]
      exact (GetAtSlot_registry s h n).1
    intro i
    rw [Populated_same _ _ hsame i, hmap, hsame]
    exact hpop i

theorem PrefixFilled_of_same (s s1 : TThreadedObject T) (hinv : PrefixFilled s)
    (hs : s1.fObjPointers = s.fObjPointers) (hm : s1.fThrIDSlotMap = s.fThrIDSlotMap)
    (hc : s1.fCurrMaxSlotIndex = s.fCurrMaxSlotIndex) : PrefixFilled s1 := by
  rcases hinv with ⟨hreg, hcap, hpop⟩
  refine ⟨?_, by rw [hs]; exact hcap, ?_⟩
  · unfold RegistryOK
    rw [hm, hc]
    exact hreg
  · intro i
    rw [Populated_same _ _ hs i, hm, hs]
    exact hpop i

theorem step_PrefixFilled (tMerge : T → List T → T) (c : Call T)
    (hc : c.UsesDefault tMerge) (hn : c.NoSlotAccess) (s s1 : TThreadedObject T)
    (h h1 : Heap T) (hinv : PrefixFilled s) (hstep : step c s h = some (s1, h1)) :
    PrefixFilled s1 := by
  cases c with
  | get t =>
    simp only [step, Option.some.injEq, Prod.mk.injEq] at hstep
    rw [← hstep.1]
    exact Get_PrefixFilled s h t hinv
  | getAtSlot i => exact absurd hn (by simp [Call.NoSlotAccess])
  | getAtSlotUnchecked i => exact absurd hn (by simp [Call.NoSlotAccess])
  | merge f =>
    have hslots := step_slots tMerge _ hc s s1 h h1 hstep
    rcases step_merge f s s1 h h1 hstep with ⟨o, ho, e1, _⟩
    have hreg := Merge_registry f s h o ho
    rw [e1] at hreg
    have hf : f = MergeTObjects tMerge := hc
    have hsame : s1.fObjPointers = s.fObjPointers := by
      rcases Merge_cases f s h o ho with ⟨_, _, heq⟩ | ⟨_, target, _, _, heq⟩
      · rw [← e1, heq]
      · rw [← e1, heq, hf]
        exact MergeTObjects_fst tMerge _ _ _
    exact PrefixFilled_of_same s s1 hinv hsame hreg.1 hreg.2.1
  | snapshotMerge f =>
    rcases step_snapshotMerge f s s1 h h1 hstep with ⟨o, ho, e1, _⟩
    have hreg := SnapshotMerge_registry f s h o ho
    rw [e1] at hreg
    have hf : f = MergeTObjects tMerge := hc
    have hsame : s1.fObjPointers = s.fObjPointers := by
      rw [← e1]
      exact (SnapshotMerge_default tMerge s h o (by rw [← hf]; exact ho)).2.1
    exact PrefixFilled_of_same s s1 hinv hsame hreg.1 hreg.2.1
  | write a v =>
    simp only [step, Option.some.injEq, Prod.mk.injEq] at hstep
    rw [← hstep.1]
    exact hinv

theorem run_PrefixFilled (tMerge : T → List T → T) (cs : List (Call T))
    (hcs : ∀ c ∈ cs, c.UsesDefault tMerge ∧ c.NoSlotAccess) (s s1 : TThreadedObject T)
    (h h1 : Heap T) (hinv : PrefixFilled s) (hrun : run cs s h = some (s1, h1)) :
    PrefixFilled s1 := by
  induction cs generalizing s h with
  | nil =>
    simp only [run, Option.some.injEq, Prod.mk.injEq] at hrun
    rw [← hrun.1]
    exact hinv
  | cons c cs ih =>
    unfold run at hrun
    rcases hst : step c s h with _ | r
    · rw [hst] at hrun
      simp at hrun
    · rw [hst] at hrun
      have hc := hcs c (List.mem_cons_self _ _)
      exact ih (fun c hc => hcs c (List.mem_cons_of_mem _ hc)) r.1 r.2
        (step_PrefixFilled tMerge c hc.1 hc.2 s r.1 h r.2 hinv hst) hrun

theorem construct_PrefixFilled (fgMaxSlots : Nat) (model : T)
    (hC : fgMaxSlots < UNSIGNED_RANGE) : PrefixFilled (construct fgMaxSlots model) := by
  refine ⟨construct_RegistryOK fgMaxSlots model, ?_, ?_⟩
  · simp only [construct, List.length_replicate]
    exact Nat.le_of_lt hC
  · intro i
    constructor
    · rintro ⟨a, ha⟩
      have hmem := List.getElem?_mem ha
      simp [construct, List.mem_replicate] at hmem
    · rintro ⟨h1, _⟩
      simp [construct] at h1

theorem step_lookup_keeps (c : Call T) (s s1 : TThreadedObject T) (h h1 : Heap T)
    (hstep : step c s h = some (s1, h1)) (u : ThreadId) (n : Nat)
    (hu : s.fThrIDSlotMap.lookup u = some n) : s1.fThrIDSlotMap.lookup u = some n := by
  rcases step_registry c s s1 h h1 hstep with ⟨e1, _⟩ | ⟨t, _, hl, e1, _⟩
  · rw [e1]
    exact hu
  · rw [e1]
    have hut : u ≠ t := by
      intro heq
      rw [heq, hl] at hu
      simp at hu
    rw [lookup_cons_ne u t _ _ hut]
    exact hu

theorem run_lookup_keeps (cs : List (Call T)) (s s1 : TThreadedObject T) (h h1 : Heap T)
    (hrun : run cs s h = some (s1, h1)) (u : ThreadId) (n : Nat)
    (hu : s.fThrIDSlotMap.lookup u = some n) : s1.fThrIDSlotMap.lookup u = some n := by
  induction cs generalizing s h with
  | nil =>
    simp only [run, Option.some.injEq, Prod.mk.injEq] at hrun
    rw [← hrun.1]
    exact hu
  | cons c cs ih =>
    unfold run at hrun
    rcases hst : step c s h with _ | r
    · rw [hst] at hrun
      simp at hrun
    · rw [hst] at hrun
      exact ih r.1 r.2 hrun (step_lookup_keeps c s r.1 h r.2 hst u n hu)

/-- A thread that has called `Get()` is recorded in the thread map. -/
theorem run_get_recorded (cs : List (Call T)) (s s1 : TThreadedObject T) (h h1 : Heap T)
    (hrun : run cs s h = some (s1, h1)) (t : ThreadId) (ht : Call.get t ∈ cs) :
    ∃ n, s1.fThrIDSlotMap.lookup t = some n := by
  induction cs generalizing s h with
  | nil => simp at ht
  | cons c cs ih =>
    unfold run at hrun
    rcases hst : step c s h with _ | r
    · rw [hst] at hrun
      simp at hrun
    · rw [hst] at hrun
      rcases List.mem_cons.1 ht with heq | htl
      · rw [← heq] at hst
        simp only [step, Option.some.injEq] at hst
        have hrec : r.1.fThrIDSlotMap.lookup t = some (GetThisSlotNumber s t).1 := by
          rw [← hst]
          exact (Get_result s h t).1
        exact ⟨_, run_lookup_keeps cs r.1 s1 r.2 h1 hrun t _ hrec⟩
      · exact ih r.1 r.2 hrun htl

/-- After the threads `0, 1, ..., 2 ^ 32 - 1` have called `Get()` on a fresh pool of
capacity 1, slot 0 is populated and the slot counter is 0. -/
theorem run_range_wrap_populated (n : Nat) (hn : n = UNSIGNED_RANGE) (model : T)
    (h0 : Heap T) :
    ∃ s h, run ((List.range n).map Call.get) (construct 1 model) h0 = some (s, h) ∧
      s.fCurrMaxSlotIndex = 0 ∧ ∃ a : Addr, s.fObjPointers[0]? = some (some a) := by
  have hpos : 0 < n := by
    rw [hn]
    decide
  have hreg := construct_RegistryOK 1 model
  have hok := (GetCalls_keeps (List.range n) (construct 1 model) h0).2.2.2.1 hreg
  have h0e : (List.range n)[0]? = some 0 := List.getElem?_range hpos
  have hfirst := GetCalls_first_call (List.range n) (construct 1 model) h0 hreg rfl 0 0 h0e
    (by simp)
  rw [List.take_zero, List.toFinset_nil, Finset.card_empty, Nat.zero_mod] at hfirst
  rcases GetCalls_trace (List.range n) (construct 1 model) h0 0 0 h0e with
    ⟨idx, ret, e, _, hp, _⟩
  rw [hfirst] at e
  simp only [Option.some.injEq, Prod.mk.injEq] at e
  have hidx : idx = 0 := e.1.symm
  have hcap : idx < (construct 1 model).fObjPointers.length := by
    rw [hidx]
    simp [construct]
  rcases hp hcap with ⟨a, _, ha⟩
  rw [hidx] at ha
  refine ⟨_, _, run_get (List.range n) (construct 1 model) h0, ?_, a, ha⟩
  rw [hok.2, GetCalls_map_length _ _ _ hreg rfl, card_range, ← hn, Nat.mod_self]

theorem UsesDefault_KeepsSize (tMerge : T → List T → T) (c : Call T)
    (hc : c.UsesDefault tMerge) : c.KeepsSize := by
  cases c with
  | get t => trivial
  | getAtSlot i => trivial
  | getAtSlotUnchecked i => trivial
  | merge f =>
    have hf : f = MergeTObjects tMerge := hc
    intro t objs h
    rw [hf, MergeTObjects_fst]
  | snapshotMerge f =>
    have hf : f = MergeTObjects tMerge := hc
    intro t objs h
    rw [hf, MergeTObjects_fst]
  | write a v => trivial

/-- In a state reached by `Get()` calls, merges with the default merge function and
writes to objects, the populated slots are those below the number of recorded threads
and below the capacity. -/
theorem run_populated (tMerge : T → List T → T) (fgMaxSlots : Nat) (model : T)
    (h0 : Heap T) (cs : List (Call T)) (s : TThreadedObject T) (h : Heap T)
    (hC : fgMaxSlots < UNSIGNED_RANGE)
    (hcs : ∀ c ∈ cs, c.UsesDefault tMerge ∧ c.NoSlotAccess)
    (hrun : run cs (construct fgMaxSlots model) h0 = some (s, h)) :
    RegistryOK s ∧ s.fObjPointers.length = fgMaxSlots ∧
    ∀ i : Nat, Populated s i ↔ i < min s.fThrIDSlotMap.length fgMaxSlots := by
  have hinv := run_PrefixFilled tMerge cs hcs _ s h0 h
    (construct_PrefixFilled fgMaxSlots model hC) hrun
  have hlen : s.fObjPointers.length = fgMaxSlots := by
    rw [run_length cs (fun c hc => UsesDefault_KeepsSize tMerge c (hcs c hc).1) _ s h0 h hrun]
    simp [construct]
  refine ⟨hinv.1, hlen, ?_⟩
  intro i
  rw [hinv.2.2 i, hlen]
  exact (Nat.lt_min).symm

/-! ### Merge functions that keep the populated slots -/

theorem UsesDefault_KeepsPopulated (tMerge : T → List T → T) (c : Call T)
    (hc : c.UsesDefault tMerge) : c.KeepsPopulated := by
  cases c with
  | get t => trivial
  | getAtSlot i => trivial
  | getAtSlotUnchecked i => trivial
  | merge f =>
    have hf : f = MergeTObjects tMerge := hc
    intro t objs h j a hj
    rw [hf, MergeTObjects_fst]
    exact hj
  | snapshotMerge f =>
    have hf : f = MergeTObjects tMerge := hc
    intro t objs h j a hj
    rw [hf, MergeTObjects_fst]
    exact hj
  | write a v => trivial

/-- A populated slot keeps its object over every call whose merge function keeps the
populated entries of the vector. -/
theorem step_keeps_populated (c : Call T) (hc : c.KeepsPopulated)
    (s s1 : TThreadedObject T) (h h1 : Heap T) (hstep : step c s h = some (s1, h1))
    (j : Nat) (a : Addr) (hj : s.fObjPointers[j]? = some (some a)) :
    s1.fObjPointers[j]? = some (some a) := by
  cases c with
  | get t =>
    simp only [step, Option.some.injEq, Prod.mk.injEq] at hstep
    rw [← hstep.1]
    exact (Get_keeps s h t).2.2.1 j a hj
  | getAtSlot i =>
    simp only [step, Option.some.injEq, Prod.mk.injEq] at hstep
    rw [← hstep.1]
    exact GetAtSlot_keeps s h i j a hj
  | getAtSlotUnchecked i =>
    simp only [step] at hstep
    unfold GetAtSlotUnchecked at hstep
    split at hstep
    · simp only [Option.map_some', Option.some.injEq, Prod.mk.injEq] at hstep
      rw [← hstep.1]
      exact hj
    · simp at hstep
  | merge f =>
    rcases step_merge f s s1 h h1 hstep with ⟨o, ho, e1, _⟩
    rcases Merge_cases f s h o ho with ⟨_, _, heq⟩ | ⟨_, target, _, _, heq⟩
    · rw [← e1, heq]
      exact hj
    · rw [← e1, heq]
      exact hc target s.fObjPointers h j a hj
  | snapshotMerge f =>
    rcases step_snapshotMerge f s s1 h h1 hstep with ⟨o, ho, e1, _⟩
    rcases SnapshotMerge_cases f s h o ho with ⟨_, b, v, _, _, heq⟩ | ⟨_, heq⟩
    · rw [← e1, heq]
      exact hj
    · rw [← e1, heq]
      exact hc _ s.fObjPointers _ j a hj
  | write b v =>
    simp only [step, Option.some.injEq, Prod.mk.injEq] at hstep
    rw [← hstep.1]
    exact hj

theorem run_keeps_populated (cs : List (Call T)) (hcs : ∀ c ∈ cs, c.KeepsPopulated)
    (s s1 : TThreadedObject T) (h h1 : Heap T) (hrun : run cs s h = some (s1, h1))
    (j : Nat) (a : Addr) (hj : s.fObjPointers[j]? = some (some a)) :
    s1.fObjPointers[j]? = some (some a) := by
  induction cs generalizing s h with
  | nil =>
    simp only [run, Option.some.injEq, Prod.mk.injEq] at hrun
    rw [← hrun.1]
    exact hj
  | cons c cs ih =>
    unfold run at hrun
    rcases hst : step c s h with _ | r
    · rw [hst] at hrun
      simp at hrun
    · rw [hst] at hrun
      exact ih (fun c hc => hcs c (List.mem_cons_of_mem _ hc)) r.1 r.2 hrun
        (step_keeps_populated c (hcs c (List.mem_cons_self _ _)) s r.1 h r.2 hst j a hj)

/-! ## The claims -/

/-- C1 (amended). Slot assignment on a freshly constructed pool, for every sequence `tids`
of `Get()` calls made by at most `2 ^ 32` distinct threads: every call is answered; the
first call of a thread resolves to the number of distinct threads that called before it
(so the first calls receive 0, 1, ..., N-1 in order of first call); every slot number is
below the number N of distinct callers; calls of different threads resolve to different
slot numbers; and calls of the same thread resolve to the same slot number and, when that
number is below the capacity, return the same present reference. -/
theorem Get_slot_assignment (fgMaxSlots : Nat) (model : T) (h0 : Heap T)
    (tids : List ThreadId) (hN : tids.toFinset.card ≤ UNSIGNED_RANGE) :
    (GetCalls tids (construct fgMaxSlots model) h0).1.length = tids.length ∧
    (∀ (k : Nat) (t : ThreadId), tids[k]? = some t → t ∉ tids.take k →
      ∃ ret, (GetCalls tids (construct fgMaxSlots model) h0).1[k]? =
        some ((tids.take k).toFinset.card, ret)) ∧
    (∀ (j k : Nat) (t u : ThreadId) (ij ik : Nat) (rj rk : SharedPtr),
      tids[j]? = some t → tids[k]? = some u →
      (GetCalls tids (construct fgMaxSlots model) h0).1[j]? = some (ij, rj) →
      (GetCalls tids (construct fgMaxSlots model) h0).1[k]? = some (ik, rk) →
      ij < tids.toFinset.card ∧
      (t ≠ u → ij ≠ ik) ∧
      (t = u → ij = ik ∧ (ik < fgMaxSlots → rj = rk ∧ rk ≠ none))) := by
  have hreg : RegistryOK (construct fgMaxSlots model) := construct_RegistryOK fgMaxSlots model
  have hempty : (construct fgMaxSlots model).fThrIDSlotMap = [] := rfl
  have hcap : (construct fgMaxSlots model).fObjPointers.length = fgMaxSlots := by
    simp [construct]
  have hok := (GetCalls_keeps tids (construct fgMaxSlots model) h0).2.2.2.1 hreg
  have hlen := GetCalls_map_length tids (construct fgMaxSlots model) h0 hreg hempty
  refine ⟨GetCalls_length _ _ _, ?_, ?_⟩
  · intro k t hk hfirst
    refine ⟨(Get (GetCalls (tids.take k) (construct fgMaxSlots model) h0).2.1
      (GetCalls (tids.take k) (construct fgMaxSlots model) h0).2.2 t).ret, ?_⟩
    rw [GetCalls_first_call tids _ h0 hreg hempty k t hk hfirst]
    have hsub : (tids.take k).toFinset ⊂ tids.toFinset := by
      rw [Finset.ssubset_iff_of_subset]
      · refine ⟨t, ?_, ?_⟩
        · rw [List.mem_toFinset]
          exact List.mem_iff_getElem?.2 ⟨k, hk⟩
        · rw [List.mem_toFinset]
          exact hfirst
      · intro x hx
        rw [List.mem_toFinset] at hx ⊢
        exact List.mem_of_mem_take hx
    have hlt := Finset.card_lt_card hsub
    rw [Nat.mod_eq_of_lt (by omega)]
  · intro j k t u ij ik rj rk hj hk htj htk
    rcases GetCalls_trace tids (construct fgMaxSlots model) h0 j t hj with
      ⟨ij1, rj1, e1, l1, p1, _⟩
    rcases GetCalls_trace tids (construct fgMaxSlots model) h0 k u hk with
      ⟨ik1, rk1, e2, l2, p2, _⟩
    rw [htj] at e1
    rw [htk] at e2
    simp only [Option.some.injEq, Prod.mk.injEq] at e1 e2
    rcases e1 with ⟨rfl, rfl⟩
    rcases e2 with ⟨rfl, rfl⟩
    refine ⟨?_, ?_, ?_⟩
    · have := MapOK_mem_lt _ hok.1 (by omega) t ij (lookup_mem _ t ij l1)
      omega
    · intro hne heq
      rw [heq] at l1
      exact hne (MapOK_injective _ hok.1 (by omega) t u ik l1 l2)
    · intro heq
      rw [heq, l2] at l1
      simp only [Option.some.injEq] at l1
      refine ⟨l1.symm, ?_⟩
      intro hlt
      rw [← hcap] at hlt
      rcases p2 hlt with ⟨b, hb1, hb2⟩
      rcases p1 (by rw [← l1]; exact hlt) with ⟨a, ha1, ha2⟩
      rw [← l1, hb2] at ha2
      simp only [Option.some.injEq] at ha2
      rw [ha1, hb1, ha2]
      simp

theorem Get_slot_assignment_witness :
    ([7, 8, 7, 9] : List ThreadId).toFinset.card ≤ UNSIGNED_RANGE ∧
    (GetCalls [7, 8, 7, 9] (construct 2 (0 : Int)) []).1.length = 4 :=
  ⟨by decide, (Get_slot_assignment 2 (0 : Int) [] [7, 8, 7, 9] (by decide)).1⟩

/-- C1 as stated fails once more than `2 ^ 32` distinct threads call `Get()`: when the
threads `0, 1, ..., 2 ^ 32` call `Get()` one after the other on a fresh pool, the first
call of thread `2 ^ 32` resolves to slot number 0, the slot number thread `0` received on
its first call, because `fCurrMaxSlotIndex++` has wrapped. -/
theorem Get_slot_assignment_wraps :
    (List.range (UNSIGNED_RANGE + 1))[0]? = some 0 ∧
    (List.range (UNSIGNED_RANGE + 1))[UNSIGNED_RANGE]? = some UNSIGNED_RANGE ∧
    (∃ r0, (GetCalls (List.range (UNSIGNED_RANGE + 1)) (construct 1 (0 : Int)) []).1[0]? =
      some (0, r0)) ∧
    (∃ r1, (GetCalls (List.range (UNSIGNED_RANGE + 1))
      (construct 1 (0 : Int)) []).1[UNSIGNED_RANGE]? = some (0, r1)) :=
  ⟨List.getElem?_range (Nat.succ_pos _), List.getElem?_range (Nat.lt_succ_self _),
    GetCalls_range_first UNSIGNED_RANGE 1 (0 : Int) [],
    GetCalls_range_wrap UNSIGNED_RANGE rfl 1 (0 : Int) []⟩

/-- C2 (amended). `GetAtSlot` is idempotent: for a slot index `i` below the capacity the
call returns a present reference `a` that is then stored in slot `i`; a second call returns
the same reference and leaves the object and the store exactly as the first call left them,
and so does every further call; an object is created by the first call only, and only when
slot `i` was empty (then it is the new object at the end of the store, a copy of the
model), while a call on a populated slot changes nothing; and as long as no merge function
clears or replaces a populated entry of the slot array it is handed, which the default
merge function never does, nothing is created for slot `i` again: after any sequence of
calls slot `i` still holds `a`, and `GetAtSlot(i)` returns `a` and changes nothing. -/
theorem GetAtSlot_idempotent (s : TThreadedObject T) (h : Heap T) (i : Nat)
    (hi : i < s.fObjPointers.length) :
    ∃ a : Addr,
      (GetAtSlot s h i).ret = some a ∧
      (GetAtSlot s h i).self.fObjPointers[i]? = some (some a) ∧
      GetAtSlot (GetAtSlot s h i).self (GetAtSlot s h i).heap i =
        ⟨some a, (GetAtSlot s h i).self, (GetAtSlot s h i).heap⟩ ∧
      (∀ n : Nat, (fun o : Outcome SharedPtr T => GetAtSlot o.self o.heap i)^[n]
        (GetAtSlot s h i) = GetAtSlot s h i) ∧
      ((s.fObjPointers[i]? = some none ∧ a = h.length ∧
          (GetAtSlot s h i).heap = h ++ [s.fModel]) ∨
       (s.fObjPointers[i]? = some (some a) ∧ GetAtSlot s h i = ⟨some a, s, h⟩)) ∧
      (∀ (cs : List (Call T)) (s1 : TThreadedObject T) (h1 : Heap T),
        (∀ c ∈ cs, c.KeepsPopulated) →
        run cs (GetAtSlot s h i).self (GetAtSlot s h i).heap = some (s1, h1) →
        s1.fObjPointers[i]? = some (some a) ∧ GetAtSlot s1 h1 i = ⟨some a, s1, h1⟩) ∧
      (∀ (tMerge : T → List T → T) (c : Call T), c.UsesDefault tMerge → c.KeepsPopulated) := by
  have hiter : ∀ (o : Outcome SharedPtr T), GetAtSlot o.self o.heap i = o →
      ∀ n : Nat, (fun o : Outcome SharedPtr T => GetAtSlot o.self o.heap i)^[n] o = o := by
    intro o ho n
    induction n with
    | zero => rfl
    | succ n ih => rw [Function.iterate_succ_apply', ih, ho]
  have hlater : ∀ a : Addr, (GetAtSlot s h i).self.fObjPointers[i]? = some (some a) →
      ∀ (cs : List (Call T)) (s1 : TThreadedObject T) (h1 : Heap T),
        (∀ c ∈ cs, c.KeepsPopulated) →
        run cs (GetAtSlot s h i).self (GetAtSlot s h i).heap = some (s1, h1) →
        s1.fObjPointers[i]? = some (some a) ∧ GetAtSlot s1 h1 i = ⟨some a, s1, h1⟩ := by
    intro a ha cs s1 h1 hcs hrun
    have h1i := run_keeps_populated cs hcs _ s1 _ h1 hrun i a ha
    exact ⟨h1i, GetAtSlot_populated s1 h1 i a h1i⟩
  rcases hsi : s.fObjPointers[i]? with _ | p
  · rw [List.getElem?_eq_none_iff] at hsi
    omega
  · rcases p with _ | a
    · have h1 := GetAtSlot_empty s h i hsi
      have h2 : (GetAtSlot s h i).self.fObjPointers[i]? = some (some h.length) := by
        rw [h1]
        simp [List.getElem?_set_self hi]
      have h3 := GetAtSlot_populated (GetAtSlot s h i).self (GetAtSlot s h i).heap i
        h.length h2
      refine ⟨h.length, by rw [h1], h2, h3, ?_, Or.inl ⟨rfl, rfl, by rw [h1]⟩,
        hlater h.length h2, UsesDefault_KeepsPopulated⟩
      apply hiter
      rw [h3, h1]
    · have h1 := GetAtSlot_populated s h i a hsi
      have h2 : (GetAtSlot s h i).self.fObjPointers[i]? = some (some a) := by
        rw [h1]
        exact hsi
      have h3 : GetAtSlot (GetAtSlot s h i).self (GetAtSlot s h i).heap i =
          ⟨some a, (GetAtSlot s h i).self, (GetAtSlot s h i).heap⟩ := by
        rw [h1]
        exact GetAtSlot_populated s h i a hsi
      refine ⟨a, by rw [h1], h2, h3, ?_, Or.inr ⟨rfl, h1⟩, hlater a h2,
        UsesDefault_KeepsPopulated⟩
      apply hiter
      rw [h3, h1]

theorem GetAtSlot_idempotent_witness :
    (1 : Nat) < (construct 2 (0 : Int)).fObjPointers.length ∧
    ∃ a : Addr,
      (GetAtSlot (construct 2 (0 : Int)) [] 1).ret = some a ∧
      GetAtSlot (GetAtSlot (construct 2 (0 : Int)) [] 1).self
          (GetAtSlot (construct 2 (0 : Int)) [] 1).heap 1 =
        ⟨some a, (GetAtSlot (construct 2 (0 : Int)) [] 1).self,
          (GetAtSlot (construct 2 (0 : Int)) [] 1).heap⟩ ∧
      ((construct 2 (0 : Int)).fObjPointers[1]? = some none ∧ a = 0) ∧
      (∀ (s1 : TThreadedObject Int) (h1 : Heap Int),
        run [Call.get 7, Call.snapshotMerge (MergeTObjects (fun v l => v + l.sum)),
            Call.getAtSlot 0]
          (GetAtSlot (construct 2 (0 : Int)) [] 1).self
          (GetAtSlot (construct 2 (0 : Int)) [] 1).heap = some (s1, h1) →
        GetAtSlot s1 h1 1 = ⟨some a, s1, h1⟩) :=
  ⟨by decide,
    (GetAtSlot_idempotent (construct 2 (0 : Int)) [] 1 (by decide)).imp (fun a ha =>
      ⟨ha.1, ha.2.2.1,
        (by
          rcases ha.2.2.2.2.1 with ⟨e0, ea, _⟩ | ⟨e0, _⟩
          · exact ⟨e0, ea⟩
          · have hn : (construct 2 (0 : Int)).fObjPointers[1]? = some none := by decide
            rw [hn] at e0
            simp at e0),
        fun s1 h1 hrun =>
          (ha.2.2.2.2.2.1
            [Call.get 7, Call.snapshotMerge (MergeTObjects (fun v l => v + l.sum)),
              Call.getAtSlot 0] s1 h1
            (by
              intro c hc
              apply ha.2.2.2.2.2.2 (fun v l => v + l.sum)
              simp at hc
              rcases hc with rfl | rfl | rfl
              · trivial
              · exact rfl
              · trivial)
            hrun).2⟩)⟩

/-- C2, as first stated, fails when a merge function clears the slot: on a pool of
capacity 1, `GetAtSlot(0)` creates the object 0 for slot 0; a `SnapshotMerge` with a merge
function that resets the pointers of the vector leaves slot 0 empty; the next
`GetAtSlot(0)` creates a second object, 2, for the same slot. -/
theorem GetAtSlot_idempotent_cleared :
    GetAtSlot (construct 1 (0 : Int)) [] 0 = ⟨some 0, ⟨0, [some 0], [], 0, false⟩, [0]⟩ ∧
    run [Call.getAtSlot 0, Call.snapshotMerge clearSlots] (construct 1 (0 : Int)) [] =
      some (⟨0, [none], [], 0, false⟩, [0, 0]) ∧
    GetAtSlot (⟨0, [none], [], 0, false⟩ : TThreadedObject Int) [0, 0] 0 =
      ⟨some 2, ⟨0, [some 2], [], 0, false⟩, [0, 0, 0]⟩ := by
  refine ⟨by decide, by decide, by decide⟩

/-- C3 (amended). Capacity exceeded: in every state, for every index `i` at or beyond the
size of the slot array, `GetAtSlot(i)` returns the null reference and leaves the object
(slot array, thread map, slot counter, merged flag) and the store unchanged; in every state
reached from a pool constructed with maximum slot count `fgMaxSlots`, by calls whose merge
functions do not resize the vector they are handed, this holds for every
`i ≥ fgMaxSlots`; and the default merge function does not resize the vector. -/
theorem GetAtSlot_capacity_exceeded :
    (∀ (s : TThreadedObject T) (h : Heap T) (i : Nat), i ≥ s.fObjPointers.length →
        GetAtSlot s h i = ⟨none, s, h⟩) ∧
    (∀ (fgMaxSlots : Nat) (model : T) (h0 : Heap T) (cs : List (Call T))
        (s : TThreadedObject T) (h : Heap T) (i : Nat),
        (∀ c ∈ cs, c.KeepsSize) → run cs (construct fgMaxSlots model) h0 = some (s, h) →
        i ≥ fgMaxSlots → GetAtSlot s h i = ⟨none, s, h⟩) ∧
    (∀ (tMerge : T → List T → T) (c : Call T), c.UsesDefault tMerge → c.KeepsSize) := by
  refine ⟨fun s h i hi => GetAtSlot_out_of_range s h i hi, ?_, UsesDefault_KeepsSize⟩
  intro C model h0 cs s h i hcs hrun hi
  have hlen := run_length cs hcs _ s h0 h hrun
  apply GetAtSlot_out_of_range
  rw [hlen]
  simpa [construct] using hi

theorem GetAtSlot_capacity_exceeded_witness :
    (2 ≥ (construct 2 (0 : Int)).fObjPointers.length ∧
      GetAtSlot (construct 2 (0 : Int)) [] 2 = ⟨none, construct 2 (0 : Int), []⟩) ∧
    (∀ (s : TThreadedObject Int) (h : Heap Int),
      run [Call.get 7, Call.merge (MergeTObjects (fun v l => v + l.sum)), Call.get 9]
        (construct 2 (0 : Int)) [] = some (s, h) →
      GetAtSlot s h 2 = ⟨none, s, h⟩) :=
  ⟨⟨by decide, GetAtSlot_capacity_exceeded.1 (construct 2 (0 : Int)) [] 2 (by decide)⟩,
   fun s h hrun =>
    GetAtSlot_capacity_exceeded.2.1 2 (0 : Int) []
      [Call.get 7, Call.merge (MergeTObjects (fun v l => v + l.sum)), Call.get 9] s h 2
      (by
        intro c hc
        apply GetAtSlot_capacity_exceeded.2.2 (fun v l => v + l.sum)
        simp at hc
        rcases hc with rfl | rfl | rfl
        · trivial
        · exact rfl
        · trivial)
      hrun (by decide)⟩

/-- C3, as first stated, fails after a merge function has grown the vector: on a pool
constructed with maximum slot count 2, after a `Get()` and a `Merge` with a merge function
that appends an entry to the vector, `GetAtSlot(2)` returns a present reference and
creates an object, although `2` is not below the maximum slot count. -/
theorem GetAtSlot_capacity_exceeded_grown :
    run [Call.get 7, Call.merge growSlots] (construct 2 (0 : Int)) [] =
      some (⟨0, [some 0, none, none], [(7, 0)], 1, true⟩, [0]) ∧
    GetAtSlot (⟨0, [some 0, none, none], [(7, 0)], 1, true⟩ : TThreadedObject Int) [0] 2 =
      ⟨some 1, ⟨0, [some 0, none, some 1], [(7, 0)], 1, true⟩, [0, 0]⟩ := by
  refine ⟨by decide, by decide⟩

/-- C9 (amended). Capacity scenario: on a fresh pool constructed with maximum slot count
`fgMaxSlots`, the first `Get()` call of the `j`-th distinct thread (counting from 0, with
`j < 2 ^ 32`) resolves to slot number `j` and returns a present value if and only if
`j < fgMaxSlots`; and with `fgMaxSlots = 2` and three distinct threads, the first two
threads receive present values, the third receives the null reference, and the first two
receive the same present values again after the third thread's failed call. -/
theorem Get_capacity_scenario :
    (∀ (fgMaxSlots : Nat) (model : T) (h0 : Heap T) (tids : List ThreadId) (k : Nat)
        (t : ThreadId), tids[k]? = some t → t ∉ tids.take k →
        (tids.take k).toFinset.card < UNSIGNED_RANGE →
        ∃ ret, (GetCalls tids (construct fgMaxSlots model) h0).1[k]? =
            some ((tids.take k).toFinset.card, ret) ∧
          (ret ≠ none ↔ (tids.take k).toFinset.card < fgMaxSlots)) ∧
    (∀ (model : T) (h0 : Heap T) (t0 t1 t2 : ThreadId), t0 ≠ t1 → t0 ≠ t2 → t1 ≠ t2 →
        (GetCalls [t0, t1, t2, t0, t1] (construct 2 model) h0).1 =
          [(0, some h0.length), (1, some (h0.length + 1)), (2, none),
           (0, some h0.length), (1, some (h0.length + 1))]) := by
  constructor
  · intro fgMaxSlots model h0 tids k t hk hfirst hj
    have hreg : RegistryOK (construct fgMaxSlots model) :=
      construct_RegistryOK fgMaxSlots model
    have hempty : (construct fgMaxSlots model).fThrIDSlotMap = [] := rfl
    have hfc := GetCalls_first_call tids _ h0 hreg hempty k t hk hfirst
    rw [Nat.mod_eq_of_lt hj] at hfc
    refine ⟨_, hfc, ?_⟩
    have hnone : (GetCalls (tids.take k) (construct fgMaxSlots model) h0).2.1.fThrIDSlotMap.lookup
        t = none := by
      rw [GetCalls_keys, hempty]
      exact ⟨rfl, hfirst⟩
    have hkeep := GetCalls_keeps (tids.take k) (construct fgMaxSlots model) h0
    have hok := hkeep.2.2.2.1 hreg
    have hidx : (GetThisSlotNumber (GetCalls (tids.take k) (construct fgMaxSlots model)
        h0).2.1 t).1 = (tids.take k).toFinset.card := by
      rw [GetThisSlotNumber_new _ t hnone]
      show (GetCalls (tids.take k) (construct fgMaxSlots model) h0).2.1.fCurrMaxSlotIndex = _
      rw [hok.2, GetCalls_map_length _ _ h0 hreg hempty, Nat.mod_eq_of_lt hj]
    have hcap : (GetCalls (tids.take k) (construct fgMaxSlots model) h0).2.1.fObjPointers.length
        = fgMaxSlots := by
      rw [hkeep.1]
      simp [construct]
    have hres := Get_result (GetCalls (tids.take k) (construct fgMaxSlots model) h0).2.1
      (GetCalls (tids.take k) (construct fgMaxSlots model) h0).2.2 t
    rw [hidx, hcap] at hres
    constructor
    · intro hne
      by_contra hge
      exact hne (hres.2.2 (by omega))
    · intro hlt
      rcases hres.2.1 hlt with ⟨a, ha, _⟩
      rw [ha]
      simp
  · intro model h0 t0 t1 t2 h01 h02 h12
    have b10 : (t1 == t0) = false := by simpa using Ne.symm h01
    have b20 : (t2 == t0) = false := by simpa using Ne.symm h02
    have b21 : (t2 == t1) = false := by simpa using Ne.symm h12
    have b01 : (t0 == t1) = false := by simpa using h01
    have b02 : (t0 == t2) = false := by simpa using h02
    have b12 : (t1 == t2) = false := by simpa using h12
    have m1 : (0 + 1) % UNSIGNED_RANGE = 1 := rfl
    have m2 : (1 + 1) % UNSIGNED_RANGE = 2 := rfl
    have m3 : (2 + 1) % UNSIGNED_RANGE = 3 := rfl
    have g1 : (GetThisSlotNumber (construct 2 model) t0).1 = 0 ∧
        Get (construct 2 model) h0 t0 =
          ⟨some h0.length, ⟨model, [some h0.length, none], [(t0, 0)], 1, false⟩,
            h0 ++ [model]⟩ := by
      simp [Get, GetThisSlotNumber, GetAtSlot, construct, Clone, List.lookup, m1,
        List.replicate]
    have g2 : (GetThisSlotNumber
          (⟨model, [some h0.length, none], [(t0, 0)], 1, false⟩ : TThreadedObject T) t1).1 = 1 ∧
        Get ⟨model, [some h0.length, none], [(t0, 0)], 1, false⟩ (h0 ++ [model]) t1 =
          ⟨some (h0.length + 1),
            ⟨model, [some h0.length, some (h0.length + 1)], [(t1, 1), (t0, 0)], 2, false⟩,
            h0 ++ [model] ++ [model]⟩ := by
      simp [Get, GetThisSlotNumber, GetAtSlot, Clone, List.lookup, m2, b10]
    have g3 : (GetThisSlotNumber
          (⟨model, [some h0.length, some (h0.length + 1)], [(t1, 1), (t0, 0)], 2, false⟩ :
            TThreadedObject T) t2).1 = 2 ∧
        Get ⟨model, [some h0.length, some (h0.length + 1)], [(t1, 1), (t0, 0)], 2, false⟩
            (h0 ++ [model] ++ [model]) t2 =
          ⟨none,
            ⟨model, [some h0.length, some (h0.length + 1)], [(t2, 2), (t1, 1), (t0, 0)], 3,
              false⟩,
            h0 ++ [model] ++ [model]⟩ := by
      simp [Get, GetThisSlotNumber, GetAtSlot, Clone, List.lookup, m3, b20, b21]
    have g4 : (GetThisSlotNumber
          (⟨model, [some h0.length, some (h0.length + 1)], [(t2, 2), (t1, 1), (t0, 0)], 3,
            false⟩ : TThreadedObject T) t0).1 = 0 ∧
        Get ⟨model, [some h0.length, some (h0.length + 1)], [(t2, 2), (t1, 1), (t0, 0)], 3,
              false⟩ (h0 ++ [model] ++ [model]) t0 =
          ⟨some h0.length,
            ⟨model, [some h0.length, some (h0.length + 1)], [(t2, 2), (t1, 1), (t0, 0)], 3,
              false⟩,
            h0 ++ [model] ++ [model]⟩ := by
      simp [Get, GetThisSlotNumber, GetAtSlot, Clone, List.lookup, b01, b02]
    have g5 : (GetThisSlotNumber
          (⟨model, [some h0.length, some (h0.length + 1)], [(t2, 2), (t1, 1), (t0, 0)], 3,
            false⟩ : TThreadedObject T) t1).1 = 1 ∧
        Get ⟨model, [some h0.length, some (h0.length + 1)], [(t2, 2), (t1, 1), (t0, 0)], 3,
              false⟩ (h0 ++ [model] ++ [model]) t1 =
          ⟨some (h0.length + 1),
            ⟨model, [some h0.length, some (h0.length + 1)], [(t2, 2), (t1, 1), (t0, 0)], 3,
              false⟩,
            h0 ++ [model] ++ [model]⟩ := by
      simp [Get, GetThisSlotNumber, GetAtSlot, Clone, List.lookup, b12, b10]
    rw [GetCalls_cons, g1.1, g1.2]
    simp only []
    rw [GetCalls_cons, g2.1, g2.2]
    simp only []
    rw [GetCalls_cons, g3.1, g3.2]
    simp only []
    rw [GetCalls_cons, g4.1, g4.2]
    simp only []
    rw [GetCalls_cons, g5.1, g5.2]
    rfl

theorem Get_capacity_scenario_witness :
    (∃ ret, (GetCalls [7, 8, 7, 9] (construct 2 (0 : Int)) []).1[3]? =
        some ((([7, 8, 7, 9] : List ThreadId).take 3).toFinset.card, ret) ∧
      (ret ≠ none ↔ (([7, 8, 7, 9] : List ThreadId).take 3).toFinset.card < 2)) ∧
    (GetCalls [7, 8, 9, 7, 8] (construct 2 (0 : Int)) []).1 =
      [(0, some 0), (1, some 1), (2, none), (0, some 0), (1, some 1)] :=
  ⟨Get_capacity_scenario.1 2 (0 : Int) [] [7, 8, 7, 9] 3 9 (by decide) (by decide) (by decide),
   Get_capacity_scenario.2 (0 : Int) [] 7 8 9 (by decide) (by decide) (by decide)⟩

/-- C9 as stated fails for the thread that is the `2 ^ 32`-th distinct caller (counting
from 0): on a fresh pool with maximum slot count 1, when the threads `0, 1, ..., 2 ^ 32`
call `Get()` one after the other, the first call of thread `2 ^ 32` returns a present
value although `2 ^ 32` is not below the capacity 1. -/
theorem Get_capacity_scenario_wraps :
    (List.range (UNSIGNED_RANGE + 1))[UNSIGNED_RANGE]? = some UNSIGNED_RANGE ∧
    UNSIGNED_RANGE ∉ (List.range (UNSIGNED_RANGE + 1)).take UNSIGNED_RANGE ∧
    ((List.range (UNSIGNED_RANGE + 1)).take UNSIGNED_RANGE).toFinset.card = UNSIGNED_RANGE ∧
    ¬ UNSIGNED_RANGE < 1 ∧
    (∃ a, (GetCalls (List.range (UNSIGNED_RANGE + 1)) (construct 1 (0 : Int))
      []).1[UNSIGNED_RANGE]? = some (0, some a)) :=
  ⟨List.getElem?_range (Nat.lt_succ_self _),
    range_first_of_last UNSIGNED_RANGE,
    (congrArg (fun l => l.toFinset.card) (take_range_succ UNSIGNED_RANGE)).trans
      (card_range UNSIGNED_RANGE),
    by decide,
    GetCalls_range_wrap_present UNSIGNED_RANGE rfl (0 : Int) []⟩

/-- C10 (amended). Thread map invariant: in every state reachable from construction by
any sequence of `Get`, `GetAtSlot`, `GetAtSlotUnchecked`, `Merge` and `SnapshotMerge` calls
(with any merge functions) and of writes to objects, no thread is recorded twice and the
slot counter is the number of map entries modulo `2 ^ 32`; while the map has at most
`2 ^ 32` entries it is injective (no two threads share a slot number); while it has fewer
than `2 ^ 32` entries the counter equals the number of entries and every recorded slot
number is strictly below the counter; and every call preserves all existing entries: the
map after the call is the map before it with at most one new entry added. -/
theorem thread_map_invariant (fgMaxSlots : Nat) (model : T) (h0 : Heap T)
    (cs : List (Call T)) (s : TThreadedObject T) (h : Heap T)
    (hrun : run cs (construct fgMaxSlots model) h0 = some (s, h)) :
    (s.fThrIDSlotMap.map Prod.fst).Nodup ∧
    s.fCurrMaxSlotIndex = s.fThrIDSlotMap.length % UNSIGNED_RANGE ∧
    (s.fThrIDSlotMap.length ≤ UNSIGNED_RANGE →
      ∀ (t u : ThreadId) (n : Nat), (t, n) ∈ s.fThrIDSlotMap → (u, n) ∈ s.fThrIDSlotMap →
        t = u) ∧
    (s.fThrIDSlotMap.length < UNSIGNED_RANGE →
      s.fCurrMaxSlotIndex = s.fThrIDSlotMap.length ∧
      ∀ (t : ThreadId) (n : Nat), (t, n) ∈ s.fThrIDSlotMap → n < s.fCurrMaxSlotIndex) ∧
    (∀ (c : Call T) (s1 : TThreadedObject T) (h1 : Heap T), step c s h = some (s1, h1) →
      (∃ added, s1.fThrIDSlotMap = added ++ s.fThrIDSlotMap ∧ added.length ≤ 1) ∧
      (∀ (t : ThreadId) (n : Nat), s.fThrIDSlotMap.lookup t = some n →
        s1.fThrIDSlotMap.lookup t = some n)) := by
  have hok := run_RegistryOK cs _ s h0 h hrun (construct_RegistryOK fgMaxSlots model)
  refine ⟨MapOK_keys_nodup _ hok.1, hok.2, ?_, ?_, ?_⟩
  · intro hlen t u n ht hu
    exact MapOK_injective _ hok.1 hlen t u n (MapOK_lookup_of_mem _ hok.1 t n ht)
      (MapOK_lookup_of_mem _ hok.1 u n hu)
  · intro hlen
    have hc : s.fCurrMaxSlotIndex = s.fThrIDSlotMap.length := by
      rw [hok.2, Nat.mod_eq_of_lt hlen]
    refine ⟨hc, ?_⟩
    intro t n hmem
    rw [hc]
    exact MapOK_mem_lt _ hok.1 (by omega) t n hmem
  · intro c s1 h1 hstep
    rcases step_registry c s s1 h h1 hstep with ⟨e1, _⟩ | ⟨t, _, hl, e1, _⟩
    · rw [e1]
      exact ⟨⟨[], rfl, by simp⟩, fun _ _ hl => hl⟩
    · rw [e1]
      refine ⟨⟨[(t, s.fCurrMaxSlotIndex)], rfl, by simp⟩, ?_⟩
      intro u n hu
      have hut : u ≠ t := by
        intro heq
        rw [heq, hl] at hu
        simp at hu
      rw [lookup_cons_ne u t _ _ hut]
      exact hu

theorem thread_map_invariant_witness :
    run [Call.get 7, Call.getAtSlot 1, Call.get 8, Call.get 7] (construct 2 (0 : Int)) [] =
      some (⟨0, [some 0, some 1], [(8, 1), (7, 0)], 2, false⟩, [0, 0]) ∧
    (([(8, 1), (7, 0)] : List (ThreadId × Nat)).map Prod.fst).Nodup ∧
    (2 : Nat) = ([(8, 1), (7, 0)] : List (ThreadId × Nat)).length % UNSIGNED_RANGE :=
  ⟨by decide,
   (thread_map_invariant 2 (0 : Int) []
      [Call.get 7, Call.getAtSlot 1, Call.get 8, Call.get 7]
      ⟨0, [some 0, some 1], [(8, 1), (7, 0)], 2, false⟩ [0, 0] (by decide)).1,
   (thread_map_invariant 2 (0 : Int) []
      [Call.get 7, Call.getAtSlot 1, Call.get 8, Call.get 7]
      ⟨0, [some 0, some 1], [(8, 1), (7, 0)], 2, false⟩ [0, 0] (by decide)).2.1⟩

/-- C10 as stated fails once `2 ^ 32` distinct threads have called `Get()`: after the
threads `0, 1, ..., 2 ^ 32 - 1` have called `Get()` on a fresh pool, the map has `2 ^ 32`
entries but the slot counter has wrapped to 0, so the counter is not the number of
entries and no recorded slot number is below it. -/
theorem thread_map_invariant_wraps :
    ∃ s h, run ((List.range UNSIGNED_RANGE).map Call.get) (construct 1 (0 : Int)) [] =
        some (s, h) ∧
      s.fThrIDSlotMap.length = UNSIGNED_RANGE ∧ s.fCurrMaxSlotIndex = 0 :=
  run_range_wrap UNSIGNED_RANGE rfl 1 (0 : Int) []

/-- C4. End-to-end destructive merge: on a pool of integer accumulators with model 0 and
capacity `fgMaxSlots`, let `k ≥ 1` distinct threads (`k ≤ fgMaxSlots`) each fetch their slot
with `Get()` and then add their own constant `c t` to it `r` times, the steps of the
threads being interleaved in any way.  Then the run has no undefined behaviour; before the
merge, the slot of every thread `t` holds the object the thread fetched and its value is
exactly `r * c t`; and `Merge` with the sum-combining merge function returns the reference
stored in slot 0, whose value is the sum over all threads of `r * c t`.  For four threads
with the constants 10, 20, 30, 40 it is `100 * r`. -/
theorem Merge_end_to_end :
    (∀ (fgMaxSlots : Nat) (h0 : Heap Int) (threads : List ThreadId) (c : ThreadId → Int)
        (r : Nat) (sched : List WorkerStep),
      fgMaxSlots < UNSIGNED_RANGE → threads.Nodup → 1 ≤ threads.length →
      threads.length ≤ fgMaxSlots → IsInterleaving r threads sched →
      ∃ w, runWorkers c sched ⟨construct fgMaxSlots 0, h0, []⟩ = some w ∧
        (∀ t ∈ threads, ∃ (i : Nat) (a : Addr),
          w.pool.fThrIDSlotMap.lookup t = some i ∧
          w.pool.fObjPointers[i]? = some (some a) ∧
          w.held.lookup t = some (some a) ∧ w.heap[a]? = some ((r : Int) * c t)) ∧
        ∃ (o : MergeOutcome SharedPtr Int) (a0 : Addr),
          Merge sumMerge w.pool w.heap = some o ∧ o.ret = some a0 ∧
          w.pool.fObjPointers[0]? = some (some a0) ∧
          o.self.fObjPointers[0]? = some (some a0) ∧
          o.heap[a0]? = some ((threads.map (fun t => (r : Int) * c t)).sum)) ∧
    (∀ (fgMaxSlots : Nat) (h0 : Heap Int) (t1 t2 t3 t4 : ThreadId) (c : ThreadId → Int)
        (r : Nat) (sched : List WorkerStep),
      fgMaxSlots < UNSIGNED_RANGE → [t1, t2, t3, t4].Nodup → 4 ≤ fgMaxSlots →
      c t1 = 10 → c t2 = 20 → c t3 = 30 → c t4 = 40 →
      IsInterleaving r [t1, t2, t3, t4] sched →
      ∃ (w : Workers) (o : MergeOutcome SharedPtr Int) (a0 : Addr),
        runWorkers c sched ⟨construct fgMaxSlots 0, h0, []⟩ = some w ∧
        Merge sumMerge w.pool w.heap = some o ∧ o.ret = some a0 ∧
        o.self.fObjPointers[0]? = some (some a0) ∧
        o.heap[a0]? = some (100 * (r : Int))) := by
  refine ⟨fun fgMaxSlots h0 threads c r sched hC hnd hk hcap hs =>
    scenario_final fgMaxSlots h0 threads c r sched hC hnd hk hcap hs, ?_⟩
  intro fgMaxSlots h0 t1 t2 t3 t4 c r sched hC hnd hcap c1 c2 c3 c4 hs
  rcases scenario_final fgMaxSlots h0 [t1, t2, t3, t4] c r sched hC hnd (by simp)
    (by simpa using hcap) hs with ⟨w, hrun, _, o, a0, hm, hret, _, hslot, hval⟩
  refine ⟨w, o, a0, hrun, hm, hret, hslot, ?_⟩
  rw [hval]
  simp only [List.map_cons, List.map_nil, List.sum_cons, List.sum_nil, c1, c2, c3, c4]
  congr 1
  ring

theorem Merge_end_to_end_witness :
    ∃ w, runWorkers (fun t => if t = 1 then 10 else 20)
        [WorkerStep.fetch 1, WorkerStep.fetch 2, WorkerStep.add 2, WorkerStep.add 1,
          WorkerStep.add 2, WorkerStep.add 1]
        ⟨construct 4 0, [], []⟩ = some w ∧
      ∃ (o : MergeOutcome SharedPtr Int) (a0 : Addr),
        Merge sumMerge w.pool w.heap = some o ∧ o.ret = some a0 ∧
        o.heap[a0]? = some 60 := by
  have hs : IsInterleaving 2 [1, 2]
      [WorkerStep.fetch 1, WorkerStep.fetch 2, WorkerStep.add 2, WorkerStep.add 1,
        WorkerStep.add 2, WorkerStep.add 1] := by
    intro t
    by_cases h1 : t = 1
    · subst h1
      decide
    · by_cases h2 : t = 2
      · subst h2
        decide
      · have e1 : ¬ (1 = t) := fun h => h1 h.symm
        have e2 : ¬ (2 = t) := fun h => h2 h.symm
        simp [WorkerStep.thread, h1, h2, e1, e2]
  rcases Merge_end_to_end.1 4 [] [1, 2] (fun t => if t = 1 then 10 else 20) 2 _
    (by decide) (by decide) (by decide) (by decide) hs with
    ⟨w, hrun, _, o, a0, hm, hret, _, _, hval⟩
  exact ⟨w, hrun, o, a0, hm, hret, by simpa using hval⟩

/-- C5 (amended). `Merge` is idempotent by memoization: for every state in which no
destructive merge has happened yet and whose slot array is not empty, and every merge
function that leaves the slot array non-empty, the first `Merge` invokes the merge function
exactly once, with slot 0 as target and the slot array as sources, takes over what the
merge function left, sets the merged flag and returns the reference then stored in slot 0;
the second `Merge` returns the identical reference, does not invoke the merge function and
leaves the object and the store unchanged. -/
theorem Merge_memoized (f : MergeFunctionType T) (s : TThreadedObject T) (h : Heap T)
    (hm : s.fIsMerged = false) (hcap : 0 < s.fObjPointers.length)
    (hkeep : 0 < (f (s.fObjPointers.getD 0 none) s.fObjPointers h).1.length) :
    ∃ o : MergeOutcome SharedPtr T,
      Merge f s h = some o ∧
      o.calls = [(s.fObjPointers.getD 0 none, s.fObjPointers)] ∧
      (o.self.fObjPointers, o.heap) = f (s.fObjPointers.getD 0 none) s.fObjPointers h ∧
      o.self.fIsMerged = true ∧
      o.self.fObjPointers[0]? = some o.ret ∧
      Merge f o.self o.heap = some ⟨o.ret, o.self, o.heap, []⟩ := by
  have ht : s.fObjPointers[0]? = some (s.fObjPointers.getD 0 none) :=
    getElem?_zero_of_pos _ hcap
  have hp : (f (s.fObjPointers.getD 0 none) s.fObjPointers h).1[0]? =
      some ((f (s.fObjPointers.getD 0 none) s.fObjPointers h).1.getD 0 none) :=
    getElem?_zero_of_pos _ hkeep
  refine ⟨_, Merge_unmerged f s h _ _ hm ht hp, rfl, rfl, rfl, hp, ?_⟩
  exact Merge_merged f _ _ _ rfl hp

theorem Merge_memoized_witness :
    ∃ o : MergeOutcome SharedPtr Int,
      Merge (MergeTObjects (fun v l => v + l.sum))
        ⟨0, [some 0, some 1], [(8, 1), (7, 0)], 2, false⟩ [10, 20] = some o ∧
      o.calls = [((([some 0, some 1] : List SharedPtr)).getD 0 none, [some 0, some 1])] ∧
      (o.self.fObjPointers, o.heap) =
        MergeTObjects (fun v l => v + l.sum) ((([some 0, some 1] : List SharedPtr)).getD 0 none)
          [some 0, some 1] [10, 20] ∧
      o.self.fIsMerged = true ∧
      o.self.fObjPointers[0]? = some o.ret ∧
      Merge (MergeTObjects (fun v l => v + l.sum)) o.self o.heap =
        some ⟨o.ret, o.self, o.heap, []⟩ :=
  Merge_memoized (MergeTObjects (fun v l => v + l.sum))
    ⟨0, [some 0, some 1], [(8, 1), (7, 0)], 2, false⟩ [10, 20] rfl (by decide) (by decide)

/-- C5 as stated fails on a pool constructed with maximum slot count 0, a state in which
no destructive merge has happened: `Merge` evaluates `fObjPointers[0]` on an empty vector
and so returns no result at all. -/
theorem Merge_memoized_no_slot :
    (construct 0 (0 : Int)).fIsMerged = false ∧
    Merge (MergeTObjects (fun v l => v + l.sum)) (construct 0 (0 : Int)) [] = none :=
  ⟨rfl, by decide⟩

/-- C8 (the code at the failing input). On a pool constructed with maximum slot count 1,
a `Merge` made before any slot is populated succeeds, returns the null reference and sets
the merged flag; in the state it leaves, `SnapshotMerge` with any merge function
dereferences the null pointer in slot 0 and returns no result. -/
theorem SnapshotMerge_after_Merge_of_empty_slot :
    Merge (MergeTObjects (fun v l => v + l.sum)) (construct 1 (0 : Int)) [] =
      some ⟨none, ⟨0, [none], [], 0, true⟩, [], [(none, [none])]⟩ ∧
    run [Call.merge (MergeTObjects (fun v l => v + l.sum))] (construct 1 (0 : Int)) [] =
      some (⟨0, [none], [], 0, true⟩, []) ∧
    (∀ f : MergeFunctionType Int, SnapshotMerge f ⟨0, [none], [], 0, true⟩ [] = none) :=
  ⟨by decide, by decide, fun f => SnapshotMerge_merged_null f _ _ rfl rfl⟩

theorem with_same_slots (s : TThreadedObject T) :
    ({ s with fObjPointers := s.fObjPointers } : TThreadedObject T) = s := rfl

/-- C6 (amended). `SnapshotMerge` is non-destructive: in every state in which no
destructive `Merge` has happened and whose slot pointers refer to objects of the store,
two successive `SnapshotMerge` calls with a merge function that modifies only its target
and gives it a value determined by the values of the target and of the slots' objects
return two distinct new objects, neither of which is an object of the store before the
calls nor stored in any slot, that hold equal values; both calls leave the object (slot
references, merged flag, thread map, slot counter) unchanged and leave the value of every
slot's object unchanged.  The default merge function is such a merge function, whatever
the value type's `Merge` computes. -/
theorem SnapshotMerge_non_destructive :
    (∀ (f : MergeFunctionType T) (s : TThreadedObject T) (h : Heap T),
      ModifiesOnlyTarget f → ValueDetermined f → s.fIsMerged = false → Valid s h →
      ∃ o1 o2 : MergeOutcome Addr T,
        SnapshotMerge f s h = some o1 ∧ SnapshotMerge f o1.self o1.heap = some o2 ∧
        o1.ret ≠ o2.ret ∧ h.length ≤ o1.ret ∧ h.length ≤ o2.ret ∧
        some o1.ret ∉ o2.self.fObjPointers ∧ some o2.ret ∉ o2.self.fObjPointers ∧
        (∃ v, o2.heap[o1.ret]? = some v ∧ o2.heap[o2.ret]? = some v) ∧
        o1.self = s ∧ o2.self = s ∧
        (∀ a : Addr, some a ∈ s.fObjPointers → o1.heap[a]? = h[a]? ∧ o2.heap[a]? = h[a]?)) ∧
    (∀ tMerge : T → List T → T,
      ModifiesOnlyTarget (MergeTObjects tMerge) ∧ ValueDetermined (MergeTObjects tMerge)) := by
  refine ⟨?_, fun tMerge =>
    ⟨MergeTObjects_ModifiesOnlyTarget tMerge, MergeTObjects_ValueDetermined tMerge⟩⟩
  intro f s h hf hd hm hvalid
  have e1 := SnapshotMerge_unmerged f s h hm
  have f1 := hf h.length s.fObjPointers (h ++ [s.fModel])
  rw [f1.1, with_same_slots] at e1
  have hlen1 : (f (some h.length) s.fObjPointers (h ++ [s.fModel])).2.length = h.length + 1 := by
    rw [f1.2.1]
    simp
  have e2 := SnapshotMerge_unmerged f s
    (f (some h.length) s.fObjPointers (h ++ [s.fModel])).2 hm
  rw [hlen1] at e2
  have f2 := hf (h.length + 1) s.fObjPointers
    ((f (some h.length) s.fObjPointers (h ++ [s.fModel])).2 ++ [s.fModel])
  rw [f2.1, with_same_slots] at e2
  have hn0 : some h.length ∉ s.fObjPointers := fun hmem => Nat.lt_irrefl _ (hvalid _ hmem)
  have hn1 : some (h.length + 1) ∉ s.fObjPointers := fun hmem => by
    have hlt : h.length + 1 < h.length := hvalid _ hmem
    omega
  have hold1 : ∀ a : Nat, a < h.length →
      (f (some h.length) s.fObjPointers (h ++ [s.fModel])).2[a]? = h[a]? := by
    intro a ha
    rw [f1.2.2 a (Nat.ne_of_lt ha), List.getElem?_append_left ha]
  have hold2 : ∀ a : Nat, a < h.length + 1 →
      (f (some (h.length + 1)) s.fObjPointers
        ((f (some h.length) s.fObjPointers (h ++ [s.fModel])).2 ++ [s.fModel])).2[a]? =
      (f (some h.length) s.fObjPointers (h ++ [s.fModel])).2[a]? := by
    intro a ha
    rw [f2.2.2 a (Nat.ne_of_lt ha), List.getElem?_append_left (by rw [hlen1]; exact ha)]
  have hval := hd h.length (h.length + 1) s.fObjPointers (h ++ [s.fModel])
    ((f (some h.length) s.fObjPointers (h ++ [s.fModel])).2 ++ [s.fModel]) hn0 hn1
    (by
      rw [List.getElem?_concat_length, ← hlen1, List.getElem?_concat_length])
    (by
      intro a ha
      have hlt : a < h.length := hvalid a ha
      rw [List.getElem?_append_left hlt,
        List.getElem?_append_left (by rw [hlen1]; exact Nat.lt_succ_of_lt hlt), hold1 a hlt])
  have hsome : ∃ v, (f (some (h.length + 1)) s.fObjPointers
      ((f (some h.length) s.fObjPointers (h ++ [s.fModel])).2 ++ [s.fModel])).2[h.length + 1]?
        = some v := by
    have hl : h.length + 1 < (f (some (h.length + 1)) s.fObjPointers
        ((f (some h.length) s.fObjPointers (h ++ [s.fModel])).2 ++ [s.fModel])).2.length := by
      rw [f2.2.1, List.length_append, hlen1]
      exact Nat.lt_succ_self _
    exact ⟨_, List.getElem?_eq_getElem hl⟩
  rcases hsome with ⟨v, hv⟩
  refine ⟨_, _, e1, e2, ?_, ?_, ?_, hn0, hn1, ⟨v, ?_, hv⟩, rfl, rfl, ?_⟩
  · exact Nat.ne_of_lt (Nat.lt_succ_self h.length)
  · exact Nat.le_refl _
  · exact Nat.le_succ h.length
  · show (f (some (h.length + 1)) s.fObjPointers
      ((f (some h.length) s.fObjPointers (h ++ [s.fModel])).2 ++ [s.fModel])).2[h.length]? = _
    rw [hold2 h.length (Nat.lt_succ_self _), hval, hv]
  · intro a ha
    have hlt : a < h.length := hvalid a ha
    refine ⟨hold1 a hlt, ?_⟩
    show (f (some (h.length + 1)) s.fObjPointers
      ((f (some h.length) s.fObjPointers (h ++ [s.fModel])).2 ++ [s.fModel])).2[a]? = _
    rw [hold2 a (Nat.lt_succ_of_lt hlt), hold1 a hlt]

theorem SnapshotMerge_non_destructive_witness :
    ∃ o1 o2 : MergeOutcome Addr Int,
      SnapshotMerge (MergeTObjects (fun v l => v + l.sum))
        ⟨5, [some 0, some 1], [(8, 1), (7, 0)], 2, false⟩ [10, 20] = some o1 ∧
      SnapshotMerge (MergeTObjects (fun v l => v + l.sum)) o1.self o1.heap = some o2 ∧
      o1.ret ≠ o2.ret ∧ ([10, 20] : Heap Int).length ≤ o1.ret ∧
      ([10, 20] : Heap Int).length ≤ o2.ret ∧
      some o1.ret ∉ o2.self.fObjPointers ∧ some o2.ret ∉ o2.self.fObjPointers ∧
      (∃ v, o2.heap[o1.ret]? = some v ∧ o2.heap[o2.ret]? = some v) ∧
      o1.self = ⟨5, [some 0, some 1], [(8, 1), (7, 0)], 2, false⟩ ∧
      o2.self = ⟨5, [some 0, some 1], [(8, 1), (7, 0)], 2, false⟩ ∧
      (∀ a : Addr, some a ∈
          (⟨5, [some 0, some 1], [(8, 1), (7, 0)], 2, false⟩ :
            TThreadedObject Int).fObjPointers →
        o1.heap[a]? = ([10, 20] : Heap Int)[a]? ∧ o2.heap[a]? = ([10, 20] : Heap Int)[a]?) :=
  SnapshotMerge_non_destructive.1 (MergeTObjects (fun v l => v + l.sum))
    ⟨5, [some 0, some 1], [(8, 1), (7, 0)], 2, false⟩ [10, 20]
    (SnapshotMerge_non_destructive.2 _).1 (SnapshotMerge_non_destructive.2 _).2 rfl
    (by
      intro a ha
      simp at ha
      rcases ha with rfl | rfl <;> decide)

/-- C6 as stated fails for a merge function that modifies only its target but gives it a
value that is not determined by the merged values: with `stampAddress`, which stores the
address of the target in the target, two successive `SnapshotMerge` calls on a fresh pool
return objects holding the different values 0 and 1. -/
theorem SnapshotMerge_non_destructive_stamped :
    ModifiesOnlyTarget stampAddress ∧
    (construct 1 (0 : Nat)).fIsMerged = false ∧
    ∃ o1 o2 : MergeOutcome Addr Nat,
      SnapshotMerge stampAddress (construct 1 (0 : Nat)) [] = some o1 ∧
      SnapshotMerge stampAddress o1.self o1.heap = some o2 ∧
      o2.heap[o1.ret]? = some 0 ∧ o2.heap[o2.ret]? = some 1 := by
  refine ⟨?_, rfl, ⟨0, construct 1 0, [0], [(some 0, [none])]⟩,
    ⟨1, construct 1 0, [0, 1], [(some 1, [none])]⟩, by decide, by decide, by decide,
    by decide⟩
  intro t objs h
  refine ⟨rfl, ?_, ?_⟩
  · show (h.set t t).length = h.length
    simp
  · intro a ha
    show (h.set t t)[a]? = h[a]?
    rw [List.getElem?_set_ne (Ne.symm ha)]

/-- C7. `SnapshotMerge` in a state in which no destructive `Merge` has happened: with any
merge function, the call invokes the merge function exactly once, with a new copy of the
model (the new object at the end of the store) as target and the slot array as sources,
takes over what the merge function left and returns that target; with the default merge
function, in a state whose slot pointers refer to objects of the store, no slot is the
target, so the list handed to the value type's `Merge` holds every populated slot, slot 0
included, the object is unchanged, and the returned object holds the result of that
`Merge` on the model and the values of all populated slots; for integer accumulators with
model `p` it holds `p` plus the sum of the values of all populated slots. -/
theorem SnapshotMerge_unmerged_result :
    (∀ (f : MergeFunctionType T) (s : TThreadedObject T) (h : Heap T),
      s.fIsMerged = false →
      ∃ o : MergeOutcome Addr T, SnapshotMerge f s h = some o ∧
        o.ret = h.length ∧ (h ++ [s.fModel])[o.ret]? = some s.fModel ∧
        o.calls = [(some o.ret, s.fObjPointers)] ∧
        (o.self.fObjPointers, o.heap) = f (some o.ret) s.fObjPointers (h ++ [s.fModel]) ∧
        o.self.fModel = s.fModel ∧ o.self.fThrIDSlotMap = s.fThrIDSlotMap ∧
        o.self.fCurrMaxSlotIndex = s.fCurrMaxSlotIndex ∧ o.self.fIsMerged = false) ∧
    (∀ (tMerge : T → List T → T) (s : TThreadedObject T) (h : Heap T),
      s.fIsMerged = false → Valid s h →
      objTList h.length s.fObjPointers = s.fObjPointers.filterMap id ∧
      SnapshotMerge (MergeTObjects tMerge) s h =
        some ⟨h.length, s, h ++ [tMerge s.fModel (slotValues s.fObjPointers h)],
          [(some h.length, s.fObjPointers)]⟩) ∧
    (∀ (s : TThreadedObject Int) (h : Heap Int), s.fIsMerged = false → Valid s h →
      ∃ o : MergeOutcome Addr Int,
        SnapshotMerge (MergeTObjects (fun v l => v + l.sum)) s h = some o ∧
        o.heap[o.ret]? = some (s.fModel + (slotValues s.fObjPointers h).sum)) := by
  have hdefault : ∀ (tMerge : T → List T → T) (s : TThreadedObject T) (h : Heap T),
      s.fIsMerged = false → Valid s h →
      SnapshotMerge (MergeTObjects tMerge) s h =
        some ⟨h.length, s, h ++ [tMerge s.fModel (slotValues s.fObjPointers h)],
          [(some h.length, s.fObjPointers)]⟩ := by
    intro tMerge s h hm hvalid
    rw [SnapshotMerge_unmerged _ s h hm, MergeTObjects_fresh tMerge s.fObjPointers h s.fModel
      hvalid]
  refine ⟨?_, ?_, ?_⟩
  · intro f s h hm
    refine ⟨_, SnapshotMerge_unmerged f s h hm, rfl, ?_, rfl, rfl, rfl, rfl, rfl, hm⟩
    exact List.getElem?_concat_length h s.fModel
  · intro tMerge s h hm hvalid
    refine ⟨objTList_of_not_mem _ _ (fun hmem => Nat.lt_irrefl _ (hvalid _ hmem)), ?_⟩
    exact hdefault tMerge s h hm hvalid
  · intro s h hm hvalid
    have hlen : (h ++ [s.fModel + (slotValues s.fObjPointers h).sum])[h.length]? =
        some (s.fModel + (slotValues s.fObjPointers h).sum) :=
      List.getElem?_concat_length h _
    exact ⟨_, SnapshotMerge_unmerged_int s h hm hvalid, hlen⟩

theorem SnapshotMerge_unmerged_result_witness :
    ∃ o : MergeOutcome Addr Int,
      SnapshotMerge (MergeTObjects (fun v l => v + l.sum))
        ⟨5, [some 0, none, some 1], [(8, 2), (7, 0)], 3, false⟩ [10, 20] = some o ∧
      o.heap[o.ret]? =
        some ((5 : Int) + (slotValues [some 0, none, some 1] ([10, 20] : Heap Int)).sum) :=
  (@SnapshotMerge_unmerged_result Int).2.2
    ⟨5, [some 0, none, some 1], [(8, 2), (7, 0)], 3, false⟩ [10, 20] rfl
    (by
      intro a ha
      simp at ha
      rcases ha with rfl | rfl <;> decide)

/-- C11. The default merge function: for every target and every source vector,
`MergeTObjects` does nothing when the target is absent (no call of the value type's
`Merge`, vector and store unchanged); otherwise it calls the value type's `Merge` exactly
once, on the target, with the list of exactly those entries of the vector that are present
and are not the target, in vector order, and the store it leaves is the one that call
leaves, whatever the value type's `Merge` does; it never changes the vector.  With a value
type whose `Merge` computes the new value of the target from the values of the listed
objects, it creates no object and changes no object other than the target. -/
theorem MergeTObjects_default :
    (∀ (valueMerge : Addr → List Addr → Heap T → Heap T) (objs : List SharedPtr)
        (h : Heap T), MergeTObjectsCalls valueMerge none objs h = (objs, h, [])) ∧
    (∀ (valueMerge : Addr → List Addr → Heap T → Heap T) (t : Addr) (objs : List SharedPtr)
        (h : Heap T),
      MergeTObjectsCalls valueMerge (some t) objs h =
        (objs, valueMerge t ((objs.filterMap id).filter (fun a => a ≠ t)) h,
          [(t, (objs.filterMap id).filter (fun a => a ≠ t))])) ∧
    (∀ (t : Addr) (objs : List SharedPtr) (a : Addr),
      a ∈ objTList t objs ↔ some a ∈ objs ∧ a ≠ t) ∧
    (∀ (tMerge : T → List T → T) (target : SharedPtr) (objs : List SharedPtr) (h : Heap T),
      MergeTObjects tMerge target objs h =
        ((MergeTObjectsCalls (callMerge tMerge) target objs h).1,
          (MergeTObjectsCalls (callMerge tMerge) target objs h).2.1)) ∧
    (∀ (tMerge : T → List T → T) (objs : List SharedPtr) (h : Heap T),
      MergeTObjects tMerge none objs h = (objs, h)) ∧
    (∀ (tMerge : T → List T → T) (t : Addr) (objs : List SharedPtr) (h : Heap T),
      (MergeTObjects tMerge (some t) objs h).1 = objs ∧
      (MergeTObjects tMerge (some t) objs h).2.length = h.length ∧
      ∀ a : Addr, a ≠ t → (MergeTObjects tMerge (some t) objs h).2[a]? = h[a]?) := by
  refine ⟨fun _ _ _ => rfl, ?_, mem_objTList, ?_, fun _ _ _ => rfl, ?_⟩
  · intro valueMerge t objs h
    show (objs, valueMerge t (objTList t objs) h, [(t, objTList t objs)]) = _
    rw [objTList_eq_filter]
  · intro tMerge target objs h
    rcases target with _ | t <;> rfl
  · intro tMerge t objs h
    exact MergeTObjects_ModifiesOnlyTarget tMerge t objs h

/-- C14. Lazy creation from the model: for every index `i` below the capacity whose slot
is empty, `GetAtSlot(i)` returns, and stores in slot `i`, a newly created object (the new
object at the end of the store) whose value is the value of the model, and leaves every
other slot, the objects of the store, the model, the merged flag, the thread map and the
slot counter unchanged; and over every call and every sequence of calls that use the
default merge function, a populated slot keeps holding the same object reference. -/
theorem GetAtSlot_lazy_creation :
    (∀ (s : TThreadedObject T) (h : Heap T) (i : Nat), s.fObjPointers[i]? = some none →
      (GetAtSlot s h i).ret = some h.length ∧
      (GetAtSlot s h i).self.fObjPointers[i]? = some (some h.length) ∧
      (GetAtSlot s h i).heap = h ++ [s.fModel] ∧
      (GetAtSlot s h i).heap[h.length]? = some s.fModel ∧
      (∀ j : Nat, j ≠ i → (GetAtSlot s h i).self.fObjPointers[j]? = s.fObjPointers[j]?) ∧
      (GetAtSlot s h i).self.fObjPointers.length = s.fObjPointers.length ∧
      (∀ a : Addr, a < h.length → (GetAtSlot s h i).heap[a]? = h[a]?) ∧
      (GetAtSlot s h i).self.fModel = s.fModel ∧
      (GetAtSlot s h i).self.fIsMerged = s.fIsMerged ∧
      (GetAtSlot s h i).self.fThrIDSlotMap = s.fThrIDSlotMap ∧
      (GetAtSlot s h i).self.fCurrMaxSlotIndex = s.fCurrMaxSlotIndex) ∧
    (∀ (tMerge : T → List T → T) (c : Call T) (s s1 : TThreadedObject T) (h h1 : Heap T)
        (j : Nat) (a : Addr), c.UsesDefault tMerge → step c s h = some (s1, h1) →
      s.fObjPointers[j]? = some (some a) → s1.fObjPointers[j]? = some (some a)) ∧
    (∀ (tMerge : T → List T → T) (cs : List (Call T)) (s s1 : TThreadedObject T)
        (h h1 : Heap T) (j : Nat) (a : Addr), (∀ c ∈ cs, c.UsesDefault tMerge) →
      run cs s h = some (s1, h1) →
      s.fObjPointers[j]? = some (some a) → s1.fObjPointers[j]? = some (some a)) := by
  refine ⟨?_, ?_, ?_⟩
  · intro s h i hsi
    have hi : i < s.fObjPointers.length := by
      rcases List.getElem?_eq_some.1 hsi with ⟨hlt, _⟩
      exact hlt
    rw [GetAtSlot_empty s h i hsi]
    refine ⟨rfl, ?_, rfl, ?_, ?_, ?_, ?_, rfl, rfl, rfl, rfl⟩
    · show (s.fObjPointers.set i (some h.length))[i]? = _
      rw [List.getElem?_set_self hi]
    · exact List.getElem?_concat_length h s.fModel
    · intro j hj
      show (s.fObjPointers.set i (some h.length))[j]? = _
      rw [List.getElem?_set_ne (Ne.symm hj)]
    · show (s.fObjPointers.set i (some h.length)).length = _
      rw [List.length_set]
    · intro a ha
      exact List.getElem?_append_left ha
  · intro tMerge c s s1 h h1 j a hc hstep hj
    exact step_keeps_slot tMerge c hc s s1 h h1 hstep j a hj
  · intro tMerge cs s s1 h h1 j a hcs hrun hj
    exact run_keeps_slot tMerge cs hcs s s1 h h1 hrun j a hj

theorem GetAtSlot_lazy_creation_witness :
    ((GetAtSlot (construct 2 (5 : Int)) [7] 1).ret = some 1 ∧
      (GetAtSlot (construct 2 (5 : Int)) [7] 1).heap = [7, 5]) ∧
    (∀ (s1 : TThreadedObject Int) (h1 : Heap Int),
      run [Call.get 3, Call.merge (MergeTObjects (fun v l => v + l.sum)), Call.getAtSlot 1]
        ⟨5, [some 0, none], [], 0, false⟩ [7] = some (s1, h1) →
      s1.fObjPointers[0]? = some (some 0)) :=
  ⟨⟨((@GetAtSlot_lazy_creation Int).1 (construct 2 (5 : Int)) [7] 1 (by decide)).1,
      ((@GetAtSlot_lazy_creation Int).1 (construct 2 (5 : Int)) [7] 1 (by decide)).2.2.1⟩,
    fun s1 h1 hrun =>
      (@GetAtSlot_lazy_creation Int).2.2 (fun v l => v + l.sum)
        [Call.get 3, Call.merge (MergeTObjects (fun v l => v + l.sum)), Call.getAtSlot 1]
        ⟨5, [some 0, none], [], 0, false⟩ s1 [7] h1 0 0
        (by
          intro c hc
          simp at hc
          rcases hc with rfl | rfl | rfl
          · trivial
          · exact rfl
          · trivial)
        hrun (by decide)⟩

/-- C15. `GetAtSlotUnchecked`: for every state and every index `i` below the capacity,
`GetAtSlotUnchecked(i)` returns exactly the entry stored in slot `i` (null when the slot
is empty) and changes neither the object nor the store; when slot `i` is populated,
`GetAtSlot(i)` returns the same reference and changes nothing either; when slot `i` is
empty, `GetAtSlotUnchecked(i)` returns null and creates nothing, where `GetAtSlot(i)`
creates an object, stores it in the slot and returns it. -/
theorem GetAtSlotUnchecked_spec (s : TThreadedObject T) (h : Heap T) (i : Nat)
    (hi : i < s.fObjPointers.length) :
    GetAtSlotUnchecked s h i = some ⟨s.fObjPointers.getD i none, s, h⟩ ∧
    s.fObjPointers[i]? = some (s.fObjPointers.getD i none) ∧
    (∀ a : Addr, s.fObjPointers[i]? = some (some a) →
      GetAtSlotUnchecked s h i = some ⟨some a, s, h⟩ ∧ GetAtSlot s h i = ⟨some a, s, h⟩) ∧
    (s.fObjPointers[i]? = some none →
      GetAtSlotUnchecked s h i = some ⟨none, s, h⟩ ∧
      GetAtSlot s h i =
        ⟨some h.length, { s with fObjPointers := s.fObjPointers.set i (some h.length) },
          h ++ [s.fModel]⟩) := by
  have hget : s.fObjPointers[i]? = some (s.fObjPointers.getD i none) := by
    rw [List.getD_eq_getElem?_getD, List.getElem?_eq_getElem hi]
    rfl
  have hu : ∀ p : SharedPtr, s.fObjPointers[i]? = some p →
      GetAtSlotUnchecked s h i = some ⟨p, s, h⟩ := by
    intro p hp
    unfold GetAtSlotUnchecked
    rw [hp]
  refine ⟨hu _ hget, hget, ?_, ?_⟩
  · intro a ha
    exact ⟨hu _ ha, GetAtSlot_populated s h i a ha⟩
  · intro hn
    exact ⟨hu _ hn, GetAtSlot_empty s h i hn⟩

theorem GetAtSlotUnchecked_spec_witness :
    GetAtSlotUnchecked (⟨5, [some 0, none], [], 0, false⟩ : TThreadedObject Int) [7] 1 =
      some ⟨([some 0, none] : List SharedPtr).getD 1 none, ⟨5, [some 0, none], [], 0, false⟩,
        [7]⟩ :=
  (GetAtSlotUnchecked_spec (⟨5, [some 0, none], [], 0, false⟩ : TThreadedObject Int) [7] 1
    (by decide)).1

/-- C12 (the code at the failing input, and where the claim holds). On a pool constructed
with maximum slot count 1, a first `Merge` made while slot 0 is empty returns the null
reference; a `Get()` that follows creates an object in slot 0; a further `Merge` then
returns that new object, not the null reference the first `Merge` returned.  When the
first `Merge` returns a present reference, every further `Merge`, after any sequence of
calls, returns that same reference, invokes no merge function and changes nothing. -/
theorem Merge_after_Merge_of_empty_slot :
    (Merge (MergeTObjects (fun v l => v + l.sum)) (construct 1 (0 : Int)) [] =
        some ⟨none, ⟨0, [none], [], 0, true⟩, [], [(none, [none])]⟩ ∧
      Get (⟨0, [none], [], 0, true⟩ : TThreadedObject Int) [] 7 =
        ⟨some 0, ⟨0, [some 0], [(7, 0)], 1, true⟩, [0]⟩ ∧
      Merge (MergeTObjects (fun v l => v + l.sum))
          (⟨0, [some 0], [(7, 0)], 1, true⟩ : TThreadedObject Int) [0] =
        some ⟨some 0, ⟨0, [some 0], [(7, 0)], 1, true⟩, [0], []⟩) ∧
    (∀ (f g : MergeFunctionType T) (s : TThreadedObject T) (h : Heap T)
        (o : MergeOutcome SharedPtr T) (a : Addr) (cs : List (Call T))
        (s1 : TThreadedObject T) (h1 : Heap T),
      Merge f s h = some o → o.ret = some a → run cs o.self o.heap = some (s1, h1) →
      Merge g s1 h1 = some ⟨some a, s1, h1, []⟩) := by
  refine ⟨⟨by decide, by decide, by decide⟩, ?_⟩
  intro f g s h o a cs s1 h1 ho hret hrun
  have hflag := Merge_sets_flag f s h o ho
  have hslot : o.self.fObjPointers[0]? = some (some a) := by
    rcases Merge_cases f s h o ho with ⟨_, hp, heq⟩ | ⟨_, target, _, hp, heq⟩
    · rw [heq]
      show s.fObjPointers[0]? = _
      rw [hp, hret]
    · rw [heq]
      show (f target s.fObjPointers h).1[0]? = _
      rw [hp, hret]
  have hm := run_merged cs o.self s1 o.heap h1 hflag hrun
  exact Merge_merged g s1 h1 (some a) hm.1 (hm.2.2 0 a hslot)

/-- C13. The merged-state machine: a constructed pool is unmerged; `Merge` leaves the
merged flag set whenever it returns; `Get`, `GetAtSlot`, `GetAtSlotUnchecked` and
`SnapshotMerge` (and writes to objects) leave the flag as it is, whatever its value; hence
in every state reachable from construction the flag is set if and only if the sequence of
calls contains a `Merge`, and no call clears a flag that is set. -/
theorem merged_state_machine :
    (∀ (fgMaxSlots : Nat) (model : T), (construct fgMaxSlots model).fIsMerged = false) ∧
    (∀ (f : MergeFunctionType T) (s : TThreadedObject T) (h : Heap T)
        (o : MergeOutcome SharedPtr T), Merge f s h = some o → o.self.fIsMerged = true) ∧
    (∀ (s : TThreadedObject T) (h : Heap T) (t : ThreadId),
      (Get s h t).self.fIsMerged = s.fIsMerged) ∧
    (∀ (s : TThreadedObject T) (h : Heap T) (i : Nat),
      (GetAtSlot s h i).self.fIsMerged = s.fIsMerged) ∧
    (∀ (s : TThreadedObject T) (h : Heap T) (i : Nat) (o : Outcome SharedPtr T),
      GetAtSlotUnchecked s h i = some o → o.self.fIsMerged = s.fIsMerged) ∧
    (∀ (f : MergeFunctionType T) (s : TThreadedObject T) (h : Heap T)
        (o : MergeOutcome Addr T),
      SnapshotMerge f s h = some o → o.self.fIsMerged = s.fIsMerged) ∧
    (∀ (fgMaxSlots : Nat) (model : T) (h0 : Heap T) (cs : List (Call T))
        (s : TThreadedObject T) (h : Heap T),
      run cs (construct fgMaxSlots model) h0 = some (s, h) →
      (s.fIsMerged = true ↔ ∃ f, Call.merge f ∈ cs)) ∧
    (∀ (c : Call T) (s s1 : TThreadedObject T) (h h1 : Heap T),
      s.fIsMerged = true → step c s h = some (s1, h1) → s1.fIsMerged = true) := by
  refine ⟨fun _ _ => rfl, Merge_sets_flag, fun s h t => (Get_keeps s h t).2.2.2.2.2,
    fun s h i => (GetAtSlot_registry s h i).2.2.1, ?_,
    fun f s h o ho => (SnapshotMerge_registry f s h o ho).2.2.2, ?_, ?_⟩
  · intro s h i o ho
    unfold GetAtSlotUnchecked at ho
    split at ho
    · simp only [Option.some.injEq] at ho
      rw [← ho]
    · simp at ho
  · intro fgMaxSlots model h0 cs s h hrun
    rw [run_flag cs _ s h0 h hrun, ← any_isMerge_iff]
    simp [construct]
  · intro c s s1 h h1 hm hstep
    exact (step_merged c s s1 h h1 hm hstep).1

theorem merged_state_machine_witness :
    ((⟨0, [some 0], [(7, 0)], 1, true⟩ : TThreadedObject Int).fIsMerged = true ↔
      ∃ f, Call.merge f ∈
        [Call.get 7, Call.merge (MergeTObjects (fun (v : Int) l => v + l.sum)),
          Call.getAtSlot 0]) :=
  (@merged_state_machine Int).2.2.2.2.2.2.1 1 0 []
    [Call.get 7, Call.merge (MergeTObjects (fun (v : Int) l => v + l.sum)), Call.getAtSlot 0]
    ⟨0, [some 0], [(7, 0)], 1, true⟩ [0] (by decide)

/-- C19. `Merge` with an empty slot 0: in every unmerged state in which slot 0 is empty,
`Merge` with the default merge function returns the null reference, invokes the merge
function on the null target (which folds nothing), leaves the slot array, slot 0 included,
and the store unchanged, and sets the merged flag; after it, whatever calls follow, every
later `Merge` with any merge function returns what slot 0 then holds without invoking the
merge function and without changing any object, so nothing is ever folded; and when the
calls that follow use the default merge function, the object a later `Merge` returns, if
any, was created after the first `Merge`: it is none of the objects of the other slots
that were populated then. -/
theorem Merge_of_empty_slot :
    (∀ (tMerge : T → List T → T) (s : TThreadedObject T) (h : Heap T),
      s.fIsMerged = false → s.fObjPointers[0]? = some none →
      Merge (MergeTObjects tMerge) s h =
        some ⟨none, { s with fIsMerged := true }, h, [(none, s.fObjPointers)]⟩ ∧
      MergeTObjects tMerge none s.fObjPointers h = (s.fObjPointers, h)) ∧
    (∀ (f : MergeFunctionType T) (s : TThreadedObject T) (h : Heap T) (cs : List (Call T))
        (s1 : TThreadedObject T) (h1 : Heap T),
      s.fObjPointers[0]? = some none →
      run cs { s with fIsMerged := true } h = some (s1, h1) →
      ∃ p, Merge f s1 h1 = some ⟨p, s1, h1, []⟩) ∧
    (∀ (tMerge : T → List T → T) (f : MergeFunctionType T) (s : TThreadedObject T)
        (h : Heap T) (cs : List (Call T)) (s1 : TThreadedObject T) (h1 : Heap T) (a : Addr),
      s.fObjPointers[0]? = some none → (∀ c ∈ cs, c.UsesDefault tMerge) →
      run cs { s with fIsMerged := true } h = some (s1, h1) →
      Merge f s1 h1 = some ⟨some a, s1, h1, []⟩ → h.length ≤ a) := by
  refine ⟨?_, ?_, ?_⟩
  · intro tMerge s h hm h0
    refine ⟨?_, rfl⟩
    have hp : (MergeTObjects tMerge none s.fObjPointers h).1[0]? = some none := h0
    rw [Merge_unmerged (MergeTObjects tMerge) s h none none hm h0 hp]
    rfl
  · intro f s h cs s1 h1 h0 hrun
    have hm := run_merged cs { s with fIsMerged := true } s1 h h1 rfl hrun
    have hlen : 0 < s1.fObjPointers.length := by
      rw [hm.2.1]
      rcases List.getElem?_eq_some.1 h0 with ⟨hlt, _⟩
      exact hlt
    exact ⟨_, Merge_merged f s1 h1 _ hm.1 (getElem?_zero_of_pos _ hlen)⟩
  · intro tMerge f s h cs s1 h1 a h0 hcs hrun hmerge
    have hm := run_merged cs { s with fIsMerged := true } s1 h h1 rfl hrun
    rcases Merge_cases f s1 h1 _ hmerge with ⟨_, hp, _⟩ | ⟨hf, _⟩
    · exact run_created_later tMerge cs hcs { s with fIsMerged := true } s1 h h1 hrun 0 h0 a hp
    · rw [hm.1] at hf
      simp at hf

theorem Merge_of_empty_slot_witness :
    run [Call.getAtSlot 1, Call.write 0 42] (construct 2 (0 : Int)) [] =
      some (⟨0, [none, some 0], [], 0, false⟩, [42]) ∧
    Merge (MergeTObjects (fun v l => v + l.sum))
        (⟨0, [none, some 0], [], 0, false⟩ : TThreadedObject Int) [42] =
      some ⟨none, ⟨0, [none, some 0], [], 0, true⟩, [42], [(none, [none, some 0])]⟩ :=
  ⟨by decide,
    ((@Merge_of_empty_slot Int).1 (fun v l => v + l.sum)
      ⟨0, [none, some 0], [], 0, false⟩ [42] rfl (by decide)).1⟩

/-- C18. No aliasing between slots: in every state reachable from construction by calls
that use the default merge function, any two distinct populated slots hold distinct
objects; every slot's object is an object of the store that was created after the pool was
constructed (the model is a member of the pool, not an object of the store, is never
changed, and no slot can hold it); no slot holds an object returned by a `SnapshotMerge`
call; hence, when slot 0 holds the object `t`, the source list the default merge function
builds for the target `t` consists of the objects of the other populated slots, holds
each of them exactly once and does not hold the target. -/
theorem slots_not_aliased (tMerge : T → List T → T) (fgMaxSlots : Nat) (model : T)
    (h0 : Heap T) (cs : List (Call T)) (s : TThreadedObject T) (h : Heap T)
    (hcs : ∀ c ∈ cs, c.UsesDefault tMerge)
    (hrun : run cs (construct fgMaxSlots model) h0 = some (s, h)) :
    (∀ (i j : Nat) (a : Addr), s.fObjPointers[i]? = some (some a) →
      s.fObjPointers[j]? = some (some a) → i = j) ∧
    (∀ (i : Nat) (a : Addr), s.fObjPointers[i]? = some (some a) →
      h0.length ≤ a ∧ a < h.length) ∧
    s.fModel = model ∧
    (∀ a : Addr, a ∈ snapshotsOf cs (construct fgMaxSlots model) h0 →
      ∀ j : Nat, s.fObjPointers[j]? ≠ some (some a)) ∧
    (∀ t : Addr, s.fObjPointers[0]? = some (some t) →
      objTList t s.fObjPointers = s.fObjPointers.tail.filterMap id ∧
      (objTList t s.fObjPointers).Nodup ∧ t ∉ objTList t s.fObjPointers ∧
      ∀ (j : Nat) (a : Addr), 0 < j → s.fObjPointers[j]? = some (some a) →
        (objTList t s.fObjPointers).count a = 1) := by
  have hsep := run_Separate tMerge cs hcs h0.length _ s h0 h []
    (construct_Separate fgMaxSlots model h0) hrun
  rw [List.nil_append] at hsep
  refine ⟨hsep.distinct, hsep.created, run_model cs _ s h0 h hrun,
    fun a ha => (hsep.snapshots a ha).2, ?_⟩
  intro t ht
  exact objTList_of_distinct t s.fObjPointers ht hsep.distinct

theorem slots_not_aliased_witness :
    run [Call.get 7, Call.snapshotMerge (MergeTObjects (fun v l => v + l.sum)), Call.get 8]
        (construct 2 (0 : Int)) [] =
      some (⟨0, [some 0, some 2], [(8, 1), (7, 0)], 2, false⟩, [0, 0, 0]) ∧
    snapshotsOf
        [Call.get 7, Call.snapshotMerge (MergeTObjects (fun v l => v + l.sum)), Call.get 8]
        (construct 2 (0 : Int)) [] = [1] ∧
    (∀ a : Addr, a ∈ snapshotsOf
        [Call.get 7, Call.snapshotMerge (MergeTObjects (fun v l => v + l.sum)), Call.get 8]
        (construct 2 (0 : Int)) [] →
      ∀ j : Nat, (⟨0, [some 0, some 2], [(8, 1), (7, 0)], 2, false⟩ :
        TThreadedObject Int).fObjPointers[j]? ≠ some (some a)) :=
  ⟨by decide, by decide,
    (slots_not_aliased (fun v l => v + l.sum) 2 (0 : Int) []
      [Call.get 7, Call.snapshotMerge (MergeTObjects (fun v l => v + l.sum)), Call.get 8]
      ⟨0, [some 0, some 2], [(8, 1), (7, 0)], 2, false⟩ [0, 0, 0]
      (by
        intro c hc
        simp at hc
        rcases hc with rfl | rfl | rfl
        · trivial
        · exact rfl
        · trivial)
      (by decide)).2.2.2.1⟩

/-- C17 (amended). Prefix population under `Get()`-only access: in every state reachable
from construction (capacity below `2 ^ 32`, as it is an `unsigned`) by `Get()` calls,
merges with the default merge function and writes to the objects, the populated slots are
exactly the indices below the minimum of the number of recorded threads and the capacity;
while fewer than `2 ^ 32` threads are recorded that number is the slot counter, so the
populated slots are exactly the indices below the minimum of the slot counter and the
capacity; if the capacity is positive and a `Get()` has been called, slot 0 is populated,
and a `Merge` with the default merge function in a state that is not yet merged returns
and hands the merge function, once, the object of slot 0 as its target. -/
theorem Get_prefix_population (tMerge : T → List T → T) (fgMaxSlots : Nat) (model : T)
    (h0 : Heap T) (cs : List (Call T)) (s : TThreadedObject T) (h : Heap T)
    (hC : fgMaxSlots < UNSIGNED_RANGE)
    (hcs : ∀ c ∈ cs, c.UsesDefault tMerge ∧ c.NoSlotAccess)
    (hrun : run cs (construct fgMaxSlots model) h0 = some (s, h)) :
    (∀ i : Nat, Populated s i ↔ i < min s.fThrIDSlotMap.length fgMaxSlots) ∧
    (s.fThrIDSlotMap.length < UNSIGNED_RANGE →
      ∀ i : Nat, Populated s i ↔ i < min s.fCurrMaxSlotIndex fgMaxSlots) ∧
    (0 < fgMaxSlots → (∃ t, Call.get t ∈ cs) → Populated s 0) ∧
    (0 < fgMaxSlots → (∃ t, Call.get t ∈ cs) → s.fIsMerged = false →
      ∃ (o : MergeOutcome SharedPtr T) (a : Addr),
        Merge (MergeTObjects tMerge) s h = some o ∧ o.ret = some a ∧
        s.fObjPointers[0]? = some (some a) ∧ o.calls = [(some a, s.fObjPointers)]) := by
  rcases run_populated tMerge fgMaxSlots model h0 cs s h hC hcs hrun with ⟨hreg, hlen, hpop⟩
  have hzero : 0 < fgMaxSlots → (∃ t, Call.get t ∈ cs) → Populated s 0 := by
    rintro hpos ⟨t, ht⟩
    rcases run_get_recorded cs _ s h0 h hrun t ht with ⟨n, hn⟩
    have hmem := lookup_mem _ t n hn
    have hlpos : 0 < s.fThrIDSlotMap.length := List.length_pos_of_mem hmem
    exact (hpop 0).2 (Nat.lt_min.2 ⟨hlpos, hpos⟩)
  refine ⟨hpop, ?_, hzero, ?_⟩
  · intro hlt i
    have hctr : s.fCurrMaxSlotIndex = s.fThrIDSlotMap.length := by
      rw [hreg.2, Nat.mod_eq_of_lt hlt]
    rw [hctr]
    exact hpop i
  · intro hpos hget hm
    rcases hzero hpos hget with ⟨a, ha⟩
    have hp : (MergeTObjects tMerge (some a) s.fObjPointers h).1[0]? = some (some a) := by
      rw [MergeTObjects_fst]
      exact ha
    exact ⟨_, a, Merge_unmerged (MergeTObjects tMerge) s h (some a) (some a) hm ha hp,
      rfl, ha, rfl⟩

theorem Get_prefix_population_witness :
    (2 : Nat) < UNSIGNED_RANGE ∧
    run [Call.get 7, Call.get 8, Call.get 7, Call.get 9] (construct 2 (0 : Int)) [] =
      some (⟨0, [some 0, some 1], [(9, 2), (8, 1), (7, 0)], 3, false⟩, [0, 0]) ∧
    ∀ i : Nat, Populated (⟨0, [some 0, some 1], [(9, 2), (8, 1), (7, 0)], 3, false⟩ :
      TThreadedObject Int) i ↔ i < min 3 2 :=
  ⟨by decide, by decide,
    (Get_prefix_population (fun v l => v + l.sum) 2 (0 : Int) []
      [Call.get 7, Call.get 8, Call.get 7, Call.get 9]
      ⟨0, [some 0, some 1], [(9, 2), (8, 1), (7, 0)], 3, false⟩ [0, 0] (by decide)
      (by
        intro c hc
        simp at hc
        rcases hc with rfl | rfl | rfl | rfl
        · exact ⟨trivial, trivial⟩
        · exact ⟨trivial, trivial⟩
        · exact ⟨trivial, trivial⟩
        · exact ⟨trivial, trivial⟩)
      (by decide)).2.1 (by decide)⟩

/-- C17, as first stated, fails once the slot counter has wrapped: after the threads
`0, 1, ..., 2 ^ 32 - 1` have called `Get()` on a pool of capacity 1, slot 0 is populated
although 0 is not below the minimum of the slot counter (which is 0) and the capacity. -/
theorem Get_prefix_population_wraps :
    ∃ (s : TThreadedObject Int) (h : Heap Int),
      run ((List.range UNSIGNED_RANGE).map Call.get) (construct 1 (0 : Int)) [] =
        some (s, h) ∧
      Populated s 0 ∧ ¬ (0 < min s.fCurrMaxSlotIndex 1) := by
  rcases run_range_wrap_populated UNSIGNED_RANGE rfl (0 : Int) [] with ⟨s, h, hrun, hc, hp⟩
  refine ⟨s, h, hrun, hp, ?_⟩
  rw [hc]
  simp

end TThreadedObject

end ROOT
